import Mathlib

/-!
Verification of the explicit-free-list allocator in `src/demo/explicit.c`.

The heap is modelled as a byte-addressed memory `Mem : Nat → Nat` (little-endian
8-byte words), the allocator's global state as `AllocState`.  Machine pointers are
`Nat` byte addresses with `0` playing the role of `NULL`; the heap is assumed to
start at address 0 (the concrete base address is irrelevant to every property
proved here).  `sbrk` fails when the 64-bit address space would be exhausted.
The C `assert` in `insert_free` and the `exit(1)` in `explicit_realloc` are both
process aborts and are modelled as the two values of `Abort`, threaded through
an `Except Abort` monad.
-/

set_option maxRecDepth 100000
set_option maxHeartbeats 1000000

namespace ExplicitAlloc

/-- Byte-addressed memory: each address holds one byte. -/
def Mem : Type := Nat → Nat

/-- word size (bytes) -/
def WSIZE : Nat := 8
/-- doubleword size (bytes) -/
def DSIZE : Nat := 2 * WSIZE
/-- initial heap size (bytes) -/
def CHUNKSIZE : Nat := 2 ^ 12
/-- overhead of header and footer (bytes) -/
def OVERHEAD : Nat := 2 * WSIZE
/-- memory alignment factor -/
def ALIGNMENT : Nat := 8
/-- minimum block: header(8) + footer(8) + next(8) + prev(8) = 32 -/
def MINBLOCKSIZE : Nat := 32

/-- 64-bit modulus. -/
def M64 : Nat := 2 ^ 64

/-- 64-bit wrapping subtraction (C `size_t` subtraction), for operands `< 2^64`. -/
def sub64 (a b : Nat) : Nat := (a + M64 - b % M64) % M64

/-- `ALIGN(size) = (size + 7) & ~7`: round up to a multiple of 8.
(`x & ~7 = x - x % 8` for 64-bit values; no operand here ever nears `2^64`.) -/
def ALIGN (size : Nat) : Nat := (size + 7) - (size + 7) % 8

/-- `PACK(size, alloc) = size | (alloc & 0x1)`. -/
def PACK (size alloc : Nat) : Nat := size ||| (alloc &&& 1)

/-- Read `k` little-endian bytes starting at `p` as a number. -/
def readBytes (m : Mem) (p : Nat) : Nat → Nat
  | 0 => 0
  | k + 1 => readBytes m p k + m (p + k) * 256 ^ k

/-- `GET(p)`: read the 8-byte word at address `p` (little-endian). -/
def GET (m : Mem) (p : Nat) : Nat := readBytes m p 8

/-- `PUT(p, val)`: write the 8-byte word `val` at address `p`. -/
def PUT (m : Mem) (p v : Nat) : Mem :=
  fun x => if p ≤ x ∧ x < p + 8 then v / 256 ^ (x - p) % 256 else m x

/-- `GET_SIZE(p) = GET(p) & ~0x7`. -/
def GET_SIZE (m : Mem) (p : Nat) : Nat := GET m p - GET m p % 8

/-- `GET_ALLOC(p) = GET(p) & 0x1`. -/
def GET_ALLOC (m : Mem) (p : Nat) : Nat := GET m p % 2

/-- `HDRP(bp) = bp - WSIZE`. -/
def HDRP (bp : Nat) : Nat := bp - WSIZE

/-- `FTRP(bp) = bp + GET_SIZE(HDRP(bp)) - DSIZE`. -/
def FTRP (m : Mem) (bp : Nat) : Nat := bp + GET_SIZE m (HDRP bp) - DSIZE

/-- `NEXT_BLKP(bp) = bp + GET_SIZE(bp - WSIZE)`. -/
def NEXT_BLKP (m : Mem) (bp : Nat) : Nat := bp + GET_SIZE m (bp - WSIZE)

/-- `PREV_BLKP(bp) = bp - GET_SIZE(bp - DSIZE)`. -/
def PREV_BLKP (m : Mem) (bp : Nat) : Nat := bp - GET_SIZE m (bp - DSIZE)

/-- `NEXT_FREE(bp) = *(void **)bp`. -/
def NEXT_FREE (m : Mem) (bp : Nat) : Nat := GET m bp

/-- `PREV_FREE(bp) = *(void **)(bp + WSIZE)`. -/
def PREV_FREE (m : Mem) (bp : Nat) : Nat := GET m (bp + WSIZE)

/-- `SET_NEXT_FREE(bp, ptr)`. -/
def SET_NEXT_FREE (m : Mem) (bp ptr : Nat) : Mem := PUT m bp ptr

/-- `SET_PREV_FREE(bp, ptr)`. -/
def SET_PREV_FREE (m : Mem) (bp ptr : Nat) : Mem := PUT m (bp + WSIZE) ptr

/-- The allocator's global state: the heap bytes, the two globals
`heap_listp` and `free_listp`, and the current program break. -/
structure AllocState where
  mem : Mem
  heap_listp : Nat
  free_listp : Nat
  brk : Nat

/-- A process abort: a failed `assert` (in `insert_free`) or `exit(1)`
(in `explicit_realloc`). -/
inductive Abort where
  | assertFail
  | exit1
deriving DecidableEq, Repr

/-- `sbrk(incr)`: returns the old break and advances it; fails when the 64-bit
address space would be exhausted. -/
def sbrk (st : AllocState) (incr : Nat) : Option (Nat × AllocState) :=
  if st.brk + incr ≤ M64 then some (st.brk, { st with brk := st.brk + incr })
  else none

/-- The state of the process before `explicit_init`: zeroed memory, null
globals, break at the heap base (address 0). -/
def initialState : AllocState :=
  { mem := fun _ => 0, heap_listp := 0, free_listp := 0, brk := 0 }

/-- `insert_free` — LIFO insert at the head of the explicit list.
The C function starts with `assert(GET_ALLOC(HDRP(bp)) == 0)`. -/
def insert_free (st : AllocState) (bp : Nat) : Except Abort AllocState :=
  if GET_ALLOC st.mem (HDRP bp) = 0 then
    let m1 := SET_NEXT_FREE st.mem bp st.free_listp
    let m2 := SET_PREV_FREE m1 bp 0
    let m3 := if st.free_listp ≠ 0 then SET_PREV_FREE m2 st.free_listp bp else m2
    .ok { st with mem := m3, free_listp := bp }
  else .error .assertFail

/-- `delete_free` — unlink `bp` from the explicit list and null its links. -/
def delete_free (st : AllocState) (bp : Nat) : AllocState :=
  let prev := PREV_FREE st.mem bp
  let next := NEXT_FREE st.mem bp
  let st1 := if prev ≠ 0 then { st with mem := SET_NEXT_FREE st.mem prev next }
             else { st with free_listp := next }
  let m2 := if next ≠ 0 then SET_PREV_FREE st1.mem next prev else st1.mem
  let m3 := SET_NEXT_FREE m2 bp 0
  let m4 := SET_PREV_FREE m3 bp 0
  { st1 with mem := m4 }

/-- `coalesce` — boundary tag coalescing; returns the coalesced block pointer. -/
def coalesce (st : AllocState) (bp : Nat) : Except Abort (Nat × AllocState) :=
  let prev_alloc := GET_ALLOC st.mem (FTRP st.mem (PREV_BLKP st.mem bp))
  let next_alloc := GET_ALLOC st.mem (HDRP (NEXT_BLKP st.mem bp))
  let size := GET_SIZE st.mem (HDRP bp)
  if prev_alloc ≠ 0 ∧ next_alloc ≠ 0 then
    /- Case 1: both allocated -/
    do
    let st1 ← insert_free st bp
    .ok (bp, st1)
  else if prev_alloc ≠ 0 ∧ next_alloc = 0 then
    /- Case 2: next is free -/
    let st1 := delete_free st (NEXT_BLKP st.mem bp)
    let size2 := size + GET_SIZE st1.mem (HDRP (NEXT_BLKP st1.mem bp))
    let mA := PUT st1.mem (HDRP bp) (PACK size2 0)
    let mB := PUT mA (FTRP mA bp) (PACK size2 0)
    do
    let st2 ← insert_free { st1 with mem := mB } bp
    .ok (bp, st2)
  else if prev_alloc = 0 ∧ next_alloc ≠ 0 then
    /- Case 3: prev is free -/
    let prev_bp := PREV_BLKP st.mem bp
    let st1 := delete_free st prev_bp
    let size3 := size + GET_SIZE st1.mem (HDRP prev_bp)
    let mA := PUT st1.mem (FTRP st1.mem bp) (PACK size3 0)
    let mB := PUT mA (HDRP prev_bp) (PACK size3 0)
    do
    let st2 ← insert_free { st1 with mem := mB } prev_bp
    .ok (prev_bp, st2)
  else
    /- Case 4: both prev and next are free -/
    let prev_bp := PREV_BLKP st.mem bp
    let next_bp := NEXT_BLKP st.mem bp
    let st1 := delete_free st prev_bp
    let st2 := delete_free st1 next_bp
    let size4 := size + GET_SIZE st2.mem (HDRP prev_bp) + GET_SIZE st2.mem (HDRP next_bp)
    let mA := PUT st2.mem (HDRP prev_bp) (PACK size4 0)
    let mB := PUT mA (FTRP mA next_bp) (PACK size4 0)
    do
    let st3 ← insert_free { st2 with mem := mB } prev_bp
    .ok (prev_bp, st3)

/-- `extend_heap` — extend the heap with a free block; `(0, st)` models the
C function returning `NULL` when `sbrk` fails. -/
def extend_heap (st : AllocState) (words : Nat) : Except Abort (Nat × AllocState) :=
  let size0 := if words % 2 ≠ 0 then (words + 1) * WSIZE else words * WSIZE
  let size := if size0 < MINBLOCKSIZE then MINBLOCKSIZE else size0
  match sbrk st size with
  | none => .ok (0, st)
  | some (bp, st1) =>
    let mA := PUT st1.mem (HDRP bp) (PACK size 0)
    let mB := PUT mA (FTRP mA bp) (PACK size 0)
    let mC := PUT mB (HDRP (NEXT_BLKP mB bp)) (PACK 0 1)
    let mD := SET_NEXT_FREE mC bp 0
    let mE := SET_PREV_FREE mD bp 0
    coalesce { st1 with mem := mE } bp

/-- `explicit_init` — result `(-1, _)` models the C function returning `-1`. -/
def explicit_init (st : AllocState) : Except Abort (Int × AllocState) :=
  match sbrk st (4 * WSIZE) with
  | none => .ok (-1, st)
  | some (hp, st1) =>
    let mA := PUT st1.mem hp 0
    let mB := PUT mA (hp + 1 * WSIZE) (PACK DSIZE 1)
    let mC := PUT mB (hp + 2 * WSIZE) (PACK DSIZE 1)
    let mD := PUT mC (hp + 3 * WSIZE) (PACK 0 1)
    let st2 := { st1 with mem := mD, heap_listp := hp + DSIZE, free_listp := 0 }
    do
    let (bp, st3) ← extend_heap st2 (CHUNKSIZE / WSIZE)
    if bp = 0 then .ok (-1, st3) else .ok (0, st3)

/-- The loop of `find_fit`, with fuel standing in for the C loop's reliance on
list acyclicity (well-formed states have fewer free blocks than `fuel`). -/
def find_fit_loop (m : Mem) (asize : Nat) : Nat → Nat → Nat
  | _, 0 => 0
  | bp, fuel + 1 =>
    if bp = 0 then 0
    else if asize ≤ GET_SIZE m (HDRP bp) then bp
    else find_fit_loop m asize (NEXT_FREE m bp) fuel

/-- `find_fit` — first-fit walk of the free list (`0` models `NULL`). -/
def find_fit (st : AllocState) (asize : Nat) : Nat :=
  find_fit_loop st.mem asize st.free_listp st.brk

/-- `place` — place an `asize`-byte block at the free block `bp`, splitting
when the remainder is at least `MINBLOCKSIZE`.  The C comparison
`(csize - asize) >= MINBLOCKSIZE` is `size_t` (wrapping) subtraction. -/
def place (st : AllocState) (bp asize : Nat) : Except Abort AllocState :=
  let csize := GET_SIZE st.mem (HDRP bp)
  let st1 := delete_free st bp
  if MINBLOCKSIZE ≤ sub64 csize asize then
    let mA := PUT st1.mem (HDRP bp) (PACK asize 1)
    let mB := PUT mA (FTRP mA bp) (PACK asize 1)
    let newp := NEXT_BLKP mB bp
    let mC := PUT mB (HDRP newp) (PACK (sub64 csize asize) 0)
    let mD := PUT mC (FTRP mC newp) (PACK (sub64 csize asize) 0)
    let mE := SET_NEXT_FREE mD newp 0
    let mF := SET_PREV_FREE mE newp 0
    insert_free { st1 with mem := mF } newp
  else
    let mA := PUT st1.mem (HDRP bp) (PACK csize 1)
    let mB := PUT mA (FTRP mA bp) (PACK csize 1)
    .ok { st1 with mem := mB }

/-- The adjusted block size computed by `explicit_malloc` (the code between
`if (size <= (DSIZE - WSIZE))` and the `find_fit` call, named for reference). -/
def asizeOf (size : Nat) : Nat :=
  if size ≤ DSIZE - WSIZE then MINBLOCKSIZE
  else
    let a := ALIGN (size + OVERHEAD)
    if a < MINBLOCKSIZE then MINBLOCKSIZE else a

/-- `explicit_malloc` — the argument is a C `uint32_t`; `(0, st)` models a
`NULL` return. -/
def explicit_malloc (st : AllocState) (size : Nat) : Except Abort (Nat × AllocState) :=
  if size = 0 then .ok (0, st)
  else
    let asize := asizeOf size
    let bp := find_fit st asize
    if bp ≠ 0 then
      do
      let st1 ← place st bp asize
      .ok (bp, st1)
    else
      let extendsize := max asize CHUNKSIZE
      do
      let (bp2, st1) ← extend_heap st (extendsize / WSIZE)
      if bp2 = 0 then .ok (0, st1)
      else do
        let st2 ← place st1 bp2 asize
        .ok (bp2, st2)

/-- `explicit_free`. -/
def explicit_free (st : AllocState) (bp : Nat) : Except Abort AllocState := do
  let size := GET_SIZE st.mem (HDRP bp)
  let mA := PUT st.mem (HDRP bp) (PACK size 0)
  let mB := PUT mA (FTRP mA bp) (PACK size 0)
  let mC := SET_NEXT_FREE mB bp 0
  let mD := SET_PREV_FREE mC bp 0
  let (_, st1) ← coalesce { st with mem := mD } bp
  .ok st1

/-- C `memcpy(dst, src, n)` on non-overlapping byte ranges. -/
def memcpy (m : Mem) (dst src n : Nat) : Mem :=
  fun x => if dst ≤ x ∧ x < dst + n then m (src + (x - dst)) else m x

/-- `explicit_realloc` — the sizes are C `uint32_t`; `copySize` is computed by
`size_t` subtraction truncated to 32 bits, exactly as in the source. -/
def explicit_realloc (st : AllocState) (ptr size : Nat) : Except Abort (Nat × AllocState) := do
  let (newp, st1) ← explicit_malloc st size
  if newp = 0 then .error .exit1
  else
    let copySize0 := sub64 (GET_SIZE st1.mem (HDRP ptr)) OVERHEAD % 2 ^ 32
    let copySize := if size < copySize0 then size else copySize0
    let m := memcpy st1.mem newp ptr copySize
    let st2 ← explicit_free { st1 with mem := m } ptr
    .ok (newp, st2)

/-! ### Heap well-formedness

A well-formed heap is described by the list `bs` of its blocks in physical
order — each entry a pair `(size, alloc)` — together with the list `fl` of
free-block pointers in free-list order.  The heap base is address 0: padding
word at 0, prologue header at 8, prologue footer at 16, first block pointer
at 32, epilogue header at `brk - 8`. -/

/-- Total byte size of a list of blocks. -/
def szSum (bs : List (Nat × Nat)) : Nat := (bs.map Prod.fst).sum

/-- `blocksOK m a bs e`: the blocks `bs` tile memory from block pointer `a` to
block pointer `e`; every block's header and footer agree, its size is a
multiple of 8 and at least `MINBLOCKSIZE`, and its alloc field is a bit. -/
def blocksOK (m : Mem) : Nat → List (Nat × Nat) → Nat → Bool
  | a, [], e => decide (a = e)
  | a, (sz, al) :: bs, e =>
    decide (al ≤ 1 ∧ MINBLOCKSIZE ≤ sz ∧ sz % 8 = 0 ∧ a + sz ≤ e ∧
      GET m (a - 8) = PACK sz al ∧ GET m (a + sz - 16) = PACK sz al) &&
    blocksOK m (a + sz) bs e

/-- Block pointers of the free blocks of `bs`, in physical order. -/
def freeBps : Nat → List (Nat × Nat) → List Nat
  | _, [] => []
  | a, (sz, al) :: bs => (if al = 0 then [a] else []) ++ freeBps (a + sz) bs

/-- Block pointers of the allocated blocks of `bs`, in physical order. -/
def allocBps : Nat → List (Nat × Nat) → List Nat
  | _, [] => []
  | a, (sz, al) :: bs => (if al ≠ 0 then [a] else []) ++ allocBps (a + sz) bs

/-- `(bp, size)` pairs of the allocated blocks of `bs`, in physical order. -/
def allocOff : Nat → List (Nat × Nat) → List (Nat × Nat)
  | _, [] => []
  | a, (sz, al) :: bs => (if al = 0 then [] else [(a, sz)]) ++ allocOff (a + sz) bs

/-- No two physically adjacent blocks are both free. -/
def NoAdjFree (bs : List (Nat × Nat)) : Prop :=
  List.Chain' (fun b c => ¬(b.2 = 0 ∧ c.2 = 0)) bs

/-- `flistOK m p prv l`: starting at pointer `p`, whose expected back link is
`prv`, the doubly-linked chain through memory visits exactly `l` and ends at
null. -/
def flistOK (m : Mem) : Nat → Nat → List Nat → Bool
  | p, _, [] => decide (p = 0)
  | p, prv, x :: xs =>
    decide (p = x ∧ x ≠ 0 ∧ PREV_FREE m x = prv) && flistOK m (NEXT_FREE m x) x xs

/-- `flseg m p prv l pend`: like `flistOK`, but the walk of `l` ends with the
running pointer equal to `pend` instead of null. -/
def flseg (m : Mem) : Nat → Nat → List Nat → Nat → Bool
  | p, _, [], pend => decide (p = pend)
  | p, prv, x :: xs, pend =>
    decide (p = x ∧ x ≠ 0 ∧ PREV_FREE m x = prv) && flseg m (NEXT_FREE m x) x xs pend

/-- The link words of two free blocks do not overlap. -/
def Sep16 (x y : Nat) : Prop := x + 16 ≤ y ∨ y + 16 ≤ x

/-- The allocator invariant, with the physical block list `bs` and the free
list `fl` exhibited.  `bij` is the free-list membership bijection: the
multiset of free blocks reached by the physical walk equals the multiset
reached by the free-list walk. -/
structure WFon (st : AllocState) (bs : List (Nat × Nat)) (fl : List Nat) : Prop where
  hlp : st.heap_listp = 16
  brk_align : st.brk % 8 = 0
  brk_ub : st.brk ≤ M64
  pro_hdr : GET st.mem 8 = PACK DSIZE 1
  pro_ftr : GET st.mem 16 = PACK DSIZE 1
  epi : GET st.mem (st.brk - 8) = PACK 0 1
  blocks : blocksOK st.mem 32 bs st.brk = true
  flist : flistOK st.mem st.free_listp 0 fl = true
  bij : fl.Perm (freeBps 32 bs)
  noadj : NoAdjFree bs

/-- The allocator invariant. -/
def WF (st : AllocState) : Prop := ∃ bs fl, WFon st bs fl

/-- Byte addresses lying inside an allocated block of the block list `bs`
(header, payload and footer bytes included). -/
def InAllocBytes (bs : List (Nat × Nat)) (x : Nat) : Prop :=
  ∃ u sz al v, bs = u ++ (sz, al) :: v ∧ al ≠ 0 ∧
    32 + szSum u - 8 ≤ x ∧ x < 32 + szSum u + sz - 8

/-- Size of the last block of `l` when that block is free, else 0. -/
def lastFreeSize (l : List (Nat × Nat)) : Nat :=
  match l.getLast? with
  | some (szp, 0) => szp
  | _ => 0

/-- Size of the first block of `r` when that block is free, else 0. -/
def headFreeSize (r : List (Nat × Nat)) : Nat :=
  match r.head? with
  | some (szn, 0) => szn
  | _ => 0

/-- The allocator invariant for a heap in the middle of `free`: the block at
`32 + szSum l` has been marked free (header and footer `(sz, 0)`) but is not
yet in the free list; block pairs not involving it are still never
free–free. -/
structure WFfreedOn (st : AllocState) (l : List (Nat × Nat)) (sz : Nat)
    (r : List (Nat × Nat)) (fl : List Nat) : Prop where
  hlp : st.heap_listp = 16
  brk_align : st.brk % 8 = 0
  brk_ub : st.brk ≤ M64
  pro_hdr : GET st.mem 8 = PACK DSIZE 1
  pro_ftr : GET st.mem 16 = PACK DSIZE 1
  epi : GET st.mem (st.brk - 8) = PACK 0 1
  blocks : blocksOK st.mem 32 (l ++ (sz, 0) :: r) st.brk = true
  flist : flistOK st.mem st.free_listp 0 fl = true
  bij : fl.Perm (freeBps 32 l ++ freeBps (32 + szSum l + sz) r)
  noadjl : NoAdjFree l
  noadjr : NoAdjFree r

/-- `p` is the block pointer of an allocated block of the heap. -/
def AllocatedBp (st : AllocState) (p : Nat) : Prop :=
  ∃ bs, blocksOK st.mem 32 bs st.brk = true ∧ p ∈ allocBps 32 bs

/-- States reachable by valid sequences of public operations after a
successful `explicit_init` from the fresh process state: `malloc` with any
`uint32` argument, `free` and `realloc` on currently allocated blocks. -/
inductive Reach : AllocState → Prop where
  | init : ∀ st, explicit_init initialState = .ok (0, st) → Reach st
  | malloc : ∀ st n p st', Reach st → n < 2 ^ 32 →
      explicit_malloc st n = .ok (p, st') → Reach st'
  | free : ∀ st p st', Reach st → AllocatedBp st p →
      explicit_free st p = .ok st' → Reach st'
  | realloc : ∀ st p n q st', Reach st → AllocatedBp st p → n < 2 ^ 32 →
      explicit_realloc st p n = .ok (q, st') → Reach st'

/-! ### Spec-side definitions (for refinement comparison)

These two definitions follow the words of the specification (§4.4 step 2), not
the source; they exist to be compared with `asizeOf`. -/

/-- The spec's `round_up_to_multiple_of_8`: the least multiple of 8 that is
`≥ x`. -/
def roundUp8 (x : Nat) : Nat := (x + 7) / 8 * 8

/-- The spec's adjusted-size computation: 32 when the request is at most 8,
otherwise the request plus 16 bytes of overhead rounded up to a multiple of 8,
raised to 32 if smaller. -/
def specAsize (n : Nat) : Nat :=
  if n ≤ 8 then 32
  else
    let r := roundUp8 (n + 16)
    if r < 32 then 32 else r

/-! ### Concrete scenario states -/

/-- The allocator state after a successful `explicit_init` from `initialState`. -/
def initStateE : AllocState :=
  match explicit_init initialState with
  | .ok (_, st) => st
  | .error _ => initialState

/-- Run `explicit_malloc` for its state effect (scenario plumbing). -/
def runMalloc (st : AllocState) (n : Nat) : AllocState :=
  match explicit_malloc st n with
  | .ok (_, st') => st'
  | .error _ => st

/-- Run `explicit_free` for its state effect (scenario plumbing). -/
def runFree (st : AllocState) (p : Nat) : AllocState :=
  match explicit_free st p with
  | .ok st' => st'
  | .error _ => st

/-- The state of the spec's first-fit scenario: after init, six allocations
carve out blocks of sizes 64, 64, 128, 64, 256, 64 at addresses 32, 96, 160,
288, 352, 608; freeing 32, then 160, then 352 LIFO-inserts free blocks of
sizes 64, 128 and 256 in that order (every neighbour of the three is still
allocated, so no coalescing happens). -/
def stC4 : AllocState :=
  let s := runMalloc initStateE 48
  let s := runMalloc s 48
  let s := runMalloc s 112
  let s := runMalloc s 48
  let s := runMalloc s 240
  let s := runMalloc s 48
  let s := runFree s 32
  let s := runFree s 160
  let s := runFree s 352
  s

/-- A minimal mid-`free` heap for exercising `coalesce`: prologue, one
32-byte block just marked free (header and footer `(32,0)`) but not yet in
the (empty) free list, epilogue header at break 64. -/
def stC1 : AllocState :=
  { mem := PUT (PUT (PUT (PUT (PUT (fun _ => 0) 8 (PACK DSIZE 1)) 16 (PACK DSIZE 1))
      24 (PACK 32 0)) 48 (PACK 32 0)) 56 (PACK 0 1),
    heap_listp := 16, free_listp := 0, brk := 64 }

/-- The heap after `init` and one `malloc(32)` (scenario plumbing for the
realloc claim): an allocated block `(48,1)` at 32 and the free remainder
`(4048,0)` at 80. -/
def stC8 : AllocState := runMalloc initStateE 32

/-! ## Infrastructure lemmas -/

theorem even_lor_one (n : Nat) (h : n % 2 = 0) : n ||| 1 = n + 1 := by
  apply Nat.eq_of_testBit_eq
  intro i
  cases i with
  | zero =>
    rw [Nat.testBit_or, Nat.testBit_zero, Nat.testBit_zero, Nat.testBit_zero]
    have h1 : (n + 1) % 2 = 1 := by omega
    have h2 : n % 2 ≠ 1 := by omega
    simp [h1, h2]
  | succ j =>
    rw [Nat.testBit_or]
    have hb : (1 : Nat).testBit (j + 1) = false :=
      Nat.testBit_lt_two_pow
        (by have := Nat.one_lt_two_pow_iff.mpr (show j + 1 ≠ 0 by omega); omega)
    have h2 : (n + 1) / 2 = n / 2 := by omega
    rw [hb, Bool.or_false, Nat.testBit_add_one, Nat.testBit_add_one, h2]

theorem pack_eq {sz al : Nat} (h8 : sz % 8 = 0) (h1 : al ≤ 1) :
    PACK sz al = sz + al := by
  unfold PACK
  rcases Nat.le_one_iff_eq_zero_or_eq_one.mp h1 with h | h <;> subst h
  · simp
  · have : (1 : Nat) &&& 1 = 1 := by decide
    rw [this, even_lor_one sz (by omega)]

theorem GET_SIZE_eq {m : Mem} {p sz al : Nat} (hG : GET m p = PACK sz al)
    (h8 : sz % 8 = 0) (h1 : al ≤ 1) : GET_SIZE m p = sz := by
  unfold GET_SIZE
  rw [hG, pack_eq h8 h1]
  omega

theorem GET_ALLOC_eq {m : Mem} {p sz al : Nat} (hG : GET m p = PACK sz al)
    (h8 : sz % 8 = 0) (h1 : al ≤ 1) : GET_ALLOC m p = al := by
  unfold GET_ALLOC
  rw [hG, pack_eq h8 h1]
  omega

theorem readBytes_congr {m m' : Mem} {p k : Nat}
    (h : ∀ i, i < k → m' (p + i) = m (p + i)) :
    readBytes m' p k = readBytes m p k := by
  induction k with
  | zero => rfl
  | succ j ih =>
    rw [readBytes, readBytes, ih (fun i hi => h i (by omega)), h j (by omega)]

theorem GET_congr {m m' : Mem} {p : Nat}
    (h : ∀ i, i < 8 → m' (p + i) = m (p + i)) : GET m' p = GET m p :=
  readBytes_congr h

theorem PUT_out {m : Mem} {p v x : Nat} (h : x < p ∨ p + 8 ≤ x) :
    PUT m p v x = m x := by
  unfold PUT
  rw [if_neg]
  omega

theorem GET_PUT_out {m : Mem} {p v t : Nat} (h : t + 8 ≤ p ∨ p + 8 ≤ t) :
    GET (PUT m p v) t = GET m t :=
  GET_congr fun i hi => PUT_out (by omega)

theorem readBytes_PUT (m : Mem) (p v k : Nat) (hk : k ≤ 8) :
    readBytes (PUT m p v) p k = v % 256 ^ k := by
  induction k with
  | zero => simp [readBytes, Nat.mod_one]
  | succ j ih =>
    rw [readBytes, ih (by omega)]
    have hin : PUT m p v (p + j) = v / 256 ^ j % 256 := by
      unfold PUT
      rw [if_pos (by omega), show p + j - p = j by omega]
    rw [hin, pow_succ, Nat.mod_mul]
    ring

theorem GET_PUT_self (m : Mem) (p v : Nat) : GET (PUT m p v) p = v % M64 := by
  unfold GET M64
  rw [readBytes_PUT m p v 8 (le_refl _)]
  norm_num

theorem GET_PUT_self_lt {m : Mem} {p v : Nat} (h : v < M64) :
    GET (PUT m p v) p = v := by
  rw [GET_PUT_self, Nat.mod_eq_of_lt h]

/-! ### Block-list lemmas -/

theorem szSum_nil : szSum [] = 0 := rfl

theorem szSum_cons (b : Nat × Nat) (bs : List (Nat × Nat)) :
    szSum (b :: bs) = b.1 + szSum bs := by
  simp [szSum]

theorem szSum_append (u v : List (Nat × Nat)) :
    szSum (u ++ v) = szSum u + szSum v := by
  simp [szSum]

theorem blocksOK_nil {m : Mem} {a e : Nat} : blocksOK m a [] e = true ↔ a = e := by
  simp [blocksOK]

theorem blocksOK_cons {m : Mem} {a sz al e : Nat} {bs : List (Nat × Nat)} :
    blocksOK m a ((sz, al) :: bs) e = true ↔
      (al ≤ 1 ∧ 32 ≤ sz ∧ sz % 8 = 0 ∧ a + sz ≤ e ∧
        GET m (a - 8) = PACK sz al ∧ GET m (a + sz - 16) = PACK sz al) ∧
      blocksOK m (a + sz) bs e = true := by
  simp [blocksOK, MINBLOCKSIZE]

theorem blocksOK_le {m : Mem} {a e : Nat} {bs : List (Nat × Nat)}
    (h : blocksOK m a bs e = true) : a ≤ e := by
  cases bs with
  | nil => exact le_of_eq (blocksOK_nil.mp h)
  | cons b t =>
    obtain ⟨sz, al⟩ := b
    have := (blocksOK_cons.mp h).1
    omega

theorem blocksOK_append {m : Mem} {a e : Nat} {u v : List (Nat × Nat)} :
    blocksOK m a (u ++ v) e = true ↔
      blocksOK m a u (a + szSum u) = true ∧ blocksOK m (a + szSum u) v e = true := by
  induction u generalizing a with
  | nil => simp [szSum_nil, blocksOK_nil]
  | cons b t ih =>
    obtain ⟨sz, al⟩ := b
    rw [List.cons_append, blocksOK_cons, blocksOK_cons, ih, szSum_cons, ← Nat.add_assoc]
    constructor
    · rintro ⟨⟨h1a, h2a, h3a, h4a, h5a, h6a⟩, h1, h2⟩
      have hle : a + sz + szSum t ≤ e := blocksOK_le h2
      exact ⟨⟨⟨h1a, h2a, h3a, by omega, h5a, h6a⟩, h1⟩, h2⟩
    · rintro ⟨⟨⟨h1a, h2a, h3a, h4a, h5a, h6a⟩, h1⟩, h2⟩
      have hle : a + sz + szSum t ≤ e := blocksOK_le h2
      exact ⟨⟨h1a, h2a, h3a, by omega, h5a, h6a⟩, h1, h2⟩

theorem freeBps_append (a : Nat) (u v : List (Nat × Nat)) :
    freeBps a (u ++ v) = freeBps a u ++ freeBps (a + szSum u) v := by
  induction u generalizing a with
  | nil => simp [freeBps, szSum_nil]
  | cons b t ih =>
    obtain ⟨sz, al⟩ := b
    simp only [List.cons_append, freeBps, List.append_eq, ih (a + sz), szSum_cons,
      List.append_assoc, Nat.add_assoc]

theorem allocBps_append (a : Nat) (u v : List (Nat × Nat)) :
    allocBps a (u ++ v) = allocBps a u ++ allocBps (a + szSum u) v := by
  induction u generalizing a with
  | nil => simp [allocBps, szSum_nil]
  | cons b t ih =>
    obtain ⟨sz, al⟩ := b
    simp only [List.cons_append, allocBps, List.append_eq, ih (a + sz), szSum_cons,
      List.append_assoc, Nat.add_assoc]

theorem mem_freeBps_iff {a p : Nat} {bs : List (Nat × Nat)} :
    p ∈ freeBps a bs ↔ ∃ u sz v, bs = u ++ (sz, 0) :: v ∧ p = a + szSum u := by
  induction bs generalizing a with
  | nil =>
    constructor
    · intro h
      exact absurd h (by simp [freeBps])
    · rintro ⟨u, sz, v, hbs, -⟩
      exact absurd hbs (by simp)
  | cons b t ih =>
    obtain ⟨sz, al⟩ := b
    constructor
    · intro hmem
      rcases List.mem_append.mp hmem with hmem | hmem
      · by_cases hal : al = 0
        · subst hal
          simp at hmem
          exact ⟨[], sz, t, rfl, by simp [szSum_nil, hmem]⟩
        · rw [if_neg hal] at hmem
          exact absurd hmem (List.not_mem_nil p)
      · obtain ⟨u, sz', v, ht, hp⟩ := ih.mp hmem
        refine ⟨(sz, al) :: u, sz', v, by simp [ht], ?_⟩
        rw [hp, szSum_cons]
        omega
    · rintro ⟨u, sz', v, hbs, hp⟩
      cases u with
      | nil =>
        simp only [List.nil_append, List.cons.injEq, Prod.mk.injEq] at hbs
        obtain ⟨⟨hsz, hal⟩, hts⟩ := hbs
        subst hal
        rw [szSum_nil] at hp
        simp [freeBps, hp]
      | cons b' u' =>
        simp only [List.cons_append, List.cons.injEq] at hbs
        obtain ⟨hb, hts⟩ := hbs
        apply List.mem_append.mpr
        right
        refine ih.mpr ⟨u', sz', v, hts, ?_⟩
        rw [hp, ← hb, szSum_cons]
        omega

theorem freeBps_lb {a p : Nat} {bs : List (Nat × Nat)}
    (h : p ∈ freeBps a bs) : a ≤ p := by
  obtain ⟨u, sz, v, -, hp⟩ := mem_freeBps_iff.mp h
  omega

theorem freeBps_pairwise {m : Mem} {a e : Nat} {bs : List (Nat × Nat)}
    (h : blocksOK m a bs e = true) :
    (freeBps a bs).Pairwise (fun x y => x + 32 ≤ y) := by
  induction bs generalizing a with
  | nil => simp [freeBps]
  | cons b t ih =>
    obtain ⟨sz, al⟩ := b
    obtain ⟨⟨h1, h2, h3, h4, h5, h6⟩, hrest⟩ := blocksOK_cons.mp h
    rw [show freeBps a ((sz, al) :: t) = (if al = 0 then [a] else []) ++ freeBps (a + sz) t
      from rfl]
    apply List.pairwise_append.mpr
    refine ⟨?_, ih hrest, ?_⟩
    · by_cases hal : al = 0 <;> simp [hal]
    · intro x hx y hy
      by_cases hal : al = 0
      · rw [if_pos hal] at hx
        simp at hx
        subst hx
        have := freeBps_lb hy
        omega
      · rw [if_neg hal] at hx
        exact absurd hx (List.not_mem_nil x)

theorem freeBps_block {m : Mem} {a e p : Nat} {bs : List (Nat × Nat)}
    (h : blocksOK m a bs e = true) (hp : p ∈ freeBps a bs) :
    ∃ sz, 32 ≤ sz ∧ sz % 8 = 0 ∧ a ≤ p ∧ p + sz ≤ e ∧
      GET m (p - 8) = PACK sz 0 ∧ GET m (p + sz - 16) = PACK sz 0 := by
  obtain ⟨u, sz, v, hbs, hpe⟩ := mem_freeBps_iff.mp hp
  subst hbs
  obtain ⟨-, h2⟩ := blocksOK_append.mp h
  obtain ⟨⟨-, hsz, h8, hle, hhdr, hftr⟩, -⟩ := blocksOK_cons.mp h2
  subst hpe
  exact ⟨sz, hsz, h8, by omega, hle, hhdr, hftr⟩

/-! ### Free-list lemmas -/

theorem flistOK_nil {m : Mem} {p prv : Nat} : flistOK m p prv [] = true ↔ p = 0 := by
  simp [flistOK]

theorem flistOK_cons {m : Mem} {p prv x : Nat} {xs : List Nat} :
    flistOK m p prv (x :: xs) = true ↔
      p = x ∧ x ≠ 0 ∧ PREV_FREE m x = prv ∧
      flistOK m (NEXT_FREE m x) x xs = true := by
  simp [flistOK]
  tauto

theorem flseg_nil {m : Mem} {p prv pend : Nat} :
    flseg m p prv [] pend = true ↔ p = pend := by
  simp [flseg]

theorem flseg_cons {m : Mem} {p prv x pend : Nat} {xs : List Nat} :
    flseg m p prv (x :: xs) pend = true ↔
      p = x ∧ x ≠ 0 ∧ PREV_FREE m x = prv ∧
      flseg m (NEXT_FREE m x) x xs pend = true := by
  simp [flseg]
  tauto

theorem flistOK_append_iff {m : Mem} {p prv : Nat} {u v : List Nat} :
    flistOK m p prv (u ++ v) = true ↔
      ∃ q, flseg m p prv u q = true ∧ flistOK m q (u.getLastD prv) v = true := by
  induction u generalizing p prv with
  | nil => simp [flseg_nil, List.getLastD]
  | cons x t ih =>
    rw [List.cons_append, flistOK_cons, List.getLastD_cons]
    constructor
    · rintro ⟨h1, h2, h3, h4⟩
      obtain ⟨q, hseg, hv⟩ := ih.mp h4
      exact ⟨q, flseg_cons.mpr ⟨h1, h2, h3, hseg⟩, hv⟩
    · rintro ⟨q, hseg, hv⟩
      obtain ⟨h1, h2, h3, hseg'⟩ := flseg_cons.mp hseg
      exact ⟨h1, h2, h3, ih.mpr ⟨q, hseg', hv⟩⟩

theorem flistOK_mono {m m' : Mem} {p prv : Nat} {l : List Nat}
    (h : flistOK m p prv l = true)
    (hagree : ∀ x ∈ l, GET m' x = GET m x ∧ GET m' (x + 8) = GET m (x + 8)) :
    flistOK m' p prv l = true := by
  induction l generalizing p prv with
  | nil => exact flistOK_nil.mpr (flistOK_nil.mp h)
  | cons x xs ih =>
    obtain ⟨h1, h2, h3, h4⟩ := flistOK_cons.mp h
    obtain ⟨hx, hx8⟩ := hagree x (by simp)
    apply flistOK_cons.mpr
    refine ⟨h1, h2, ?_, ?_⟩
    · show GET m' (x + 8) = prv
      rw [hx8]
      exact h3
    · show flistOK m' (GET m' x) x xs = true
      rw [hx]
      exact ih h4 (fun y hy => hagree y (by simp [hy]))

theorem flseg_mono {m m' : Mem} {p prv pend : Nat} {l : List Nat}
    (h : flseg m p prv l pend = true)
    (hagree : ∀ x ∈ l, GET m' x = GET m x ∧ GET m' (x + 8) = GET m (x + 8)) :
    flseg m' p prv l pend = true := by
  induction l generalizing p prv with
  | nil => exact flseg_nil.mpr (flseg_nil.mp h)
  | cons x xs ih =>
    obtain ⟨h1, h2, h3, h4⟩ := flseg_cons.mp h
    obtain ⟨hx, hx8⟩ := hagree x (by simp)
    apply flseg_cons.mpr
    refine ⟨h1, h2, ?_, ?_⟩
    · show GET m' (x + 8) = prv
      rw [hx8]
      exact h3
    · show flseg m' (GET m' x) x xs pend = true
      rw [hx]
      exact ih h4 (fun y hy => hagree y (by simp [hy]))

theorem flseg_retarget {m m' : Mem} {z pend pend' : Nat} :
    ∀ (u : List Nat) (p prv : Nat),
      flseg m p prv (u ++ [z]) pend = true →
      (∀ x ∈ u ++ [z], GET m' (x + 8) = GET m (x + 8)) →
      (∀ x ∈ u, GET m' x = GET m x) →
      GET m' z = pend' →
      flseg m' p prv (u ++ [z]) pend' = true := by
  intro u
  induction u with
  | nil =>
    intro p prv h hprev _ hz
    obtain ⟨h1, h2, h3, -⟩ := flseg_cons.mp h
    apply flseg_cons.mpr
    refine ⟨h1, h2, ?_, ?_⟩
    · show GET m' (z + 8) = prv
      rw [hprev z (by simp)]
      exact h3
    · show flseg m' (GET m' z) z [] pend' = true
      exact flseg_nil.mpr hz
  | cons x t ih =>
    intro p prv h hprev hnext hz
    rw [List.cons_append] at h ⊢
    obtain ⟨h1, h2, h3, h4⟩ := flseg_cons.mp h
    apply flseg_cons.mpr
    refine ⟨h1, h2, ?_, ?_⟩
    · show GET m' (x + 8) = prv
      rw [hprev x (by simp)]
      exact h3
    · show flseg m' (GET m' x) x (t ++ [z]) pend' = true
      rw [hnext x (by simp)]
      exact ih _ _ h4 (fun y hy => hprev y (by simp at hy ⊢; tauto))
        (fun y hy => hnext y (by simp [hy])) hz

theorem flistOK_head_mem {m : Mem} {p prv : Nat} {l : List Nat}
    (h : flistOK m p prv l = true) (hp : p ≠ 0) : p ∈ l := by
  cases l with
  | nil => exact absurd (flistOK_nil.mp h) hp
  | cons x xs =>
    rw [(flistOK_cons.mp h).1]
    simp

theorem flistOK_ne_zero {m : Mem} {p prv : Nat} {l : List Nat}
    (h : flistOK m p prv l = true) : ∀ x ∈ l, x ≠ 0 := by
  induction l generalizing p prv with
  | nil => simp
  | cons y ys ih =>
    obtain ⟨-, hy0, -, htail⟩ := flistOK_cons.mp h
    intro x hx
    rcases List.mem_cons.mp hx with rfl | hx
    · exact hy0
    · exact ih htail x hx

theorem flseg_ne_zero {m : Mem} {p prv pend : Nat} {l : List Nat}
    (h : flseg m p prv l pend = true) : ∀ x ∈ l, x ≠ 0 := by
  induction l generalizing p prv with
  | nil => simp
  | cons y ys ih =>
    obtain ⟨-, hy0, -, htail⟩ := flseg_cons.mp h
    intro x hx
    rcases List.mem_cons.mp hx with rfl | hx
    · exact hy0
    · exact ih htail x hx

/-! ### Free-list operation lemmas -/

theorem insert_free_spec {st : AllocState} {bp : Nat} {fl : List Nat}
    (hfl : flistOK st.mem st.free_listp 0 fl = true)
    (halloc : GET_ALLOC st.mem (HDRP bp) = 0)
    (hbp0 : bp ≠ 0)
    (hlt : ∀ x ∈ bp :: fl, x < M64)
    (hpw : (bp :: fl).Pairwise Sep16) :
    ∃ st', insert_free st bp = .ok st' ∧
      st'.free_listp = bp ∧ st'.brk = st.brk ∧ st'.heap_listp = st.heap_listp ∧
      flistOK st'.mem bp 0 (bp :: fl) = true ∧
      (∀ x, (∀ y ∈ bp :: fl, x < y ∨ y + 16 ≤ x) → st'.mem x = st.mem x) := by
  have hbpfl : ∀ y ∈ fl, Sep16 bp y := (List.pairwise_cons.mp hpw).1
  have hflpw : fl.Pairwise Sep16 := (List.pairwise_cons.mp hpw).2
  have hbplt : bp < M64 := hlt bp (by simp)
  by_cases hfp : st.free_listp = 0
  · -- empty free list
    have hfl_nil : fl = [] := by
      cases fl with
      | nil => rfl
      | cons h t =>
        obtain ⟨h1, h2, -, -⟩ := flistOK_cons.mp hfl
        exact absurd (h1 ▸ hfp) h2
    subst hfl_nil
    refine ⟨{ st with
        mem := PUT (PUT st.mem bp st.free_listp) (bp + WSIZE) 0,
        free_listp := bp },
      by simp [insert_free, halloc, hfp, SET_NEXT_FREE, SET_PREV_FREE],
      rfl, rfl, rfl, ?_, ?_⟩
    · apply flistOK_cons.mpr
      refine ⟨rfl, hbp0, ?_, ?_⟩
      · show GET (PUT (PUT st.mem bp st.free_listp) (bp + 8) 0) (bp + 8) = 0
        rw [GET_PUT_self]
        norm_num [M64]
      · show flistOK _ (GET (PUT (PUT st.mem bp st.free_listp) (bp + 8) 0) bp) bp [] = true
        apply flistOK_nil.mpr
        rw [GET_PUT_out (by omega), GET_PUT_self, hfp]
        norm_num [M64]
    · intro x hx
      have hxbp := hx bp (by simp)
      show PUT (PUT st.mem bp st.free_listp) (bp + 8) 0 x = st.mem x
      rw [PUT_out (by omega), PUT_out (by omega)]
  · -- non-empty free list: the head is st.free_listp
    obtain ⟨h, t, hfl_eq⟩ : ∃ h t, fl = h :: t := by
      cases fl with
      | nil => exact absurd (flistOK_nil.mp hfl) hfp
      | cons h t => exact ⟨h, t, rfl⟩
    subst hfl_eq
    obtain ⟨hh1, hh2, hh3, hh4⟩ := flistOK_cons.mp hfl
    subst hh1
    set fp := st.free_listp with hfpdef
    have hsep_bp_fp : Sep16 bp fp := hbpfl fp (by simp)
    have hfp_lt : fp < M64 := hlt fp (by simp)
    have hsep_fp_t : ∀ y ∈ t, Sep16 fp y := (List.pairwise_cons.mp hflpw).1
    have hbpt : ∀ y ∈ t, Sep16 bp y := fun y hy => hbpfl y (by simp [hy])
    refine ⟨{ st with
        mem := PUT (PUT (PUT st.mem bp st.free_listp) (bp + WSIZE) 0)
          (st.free_listp + WSIZE) bp,
        free_listp := bp },
      by simp [insert_free, halloc, hfp, SET_NEXT_FREE, SET_PREV_FREE],
      rfl, rfl, rfl, ?_, ?_⟩
    · -- flistOK of the new list bp :: fp :: t
      have hG_bp8 :
          GET (PUT (PUT (PUT st.mem bp fp) (bp + 8) 0) (fp + 8) bp) (bp + 8) = 0 := by
        rw [GET_PUT_out (by rcases hsep_bp_fp with h' | h' <;> omega), GET_PUT_self]
        norm_num [M64]
      have hG_bp :
          GET (PUT (PUT (PUT st.mem bp fp) (bp + 8) 0) (fp + 8) bp) bp = fp := by
        rw [GET_PUT_out (by rcases hsep_bp_fp with h' | h' <;> omega),
          GET_PUT_out (by omega), GET_PUT_self_lt hfp_lt]
      have hG_fp8 :
          GET (PUT (PUT (PUT st.mem bp fp) (bp + 8) 0) (fp + 8) bp) (fp + 8) = bp := by
        rw [GET_PUT_self_lt hbplt]
      have hG_fp :
          GET (PUT (PUT (PUT st.mem bp fp) (bp + 8) 0) (fp + 8) bp) fp = GET st.mem fp := by
        rw [GET_PUT_out (by omega),
          GET_PUT_out (by rcases hsep_bp_fp with h' | h' <;> omega),
          GET_PUT_out (by rcases hsep_bp_fp with h' | h' <;> omega)]
      show flistOK (PUT (PUT (PUT st.mem bp fp) (bp + 8) 0) (fp + 8) bp) bp 0
        (bp :: fp :: t) = true
      apply flistOK_cons.mpr
      refine ⟨rfl, hbp0, hG_bp8, ?_⟩
      show flistOK _ (GET (PUT (PUT (PUT st.mem bp fp) (bp + 8) 0) (fp + 8) bp) bp)
        bp (fp :: t) = true
      rw [hG_bp]
      apply flistOK_cons.mpr
      refine ⟨rfl, hh2, hG_fp8, ?_⟩
      show flistOK _ (GET (PUT (PUT (PUT st.mem bp fp) (bp + 8) 0) (fp + 8) bp) fp)
        fp t = true
      rw [hG_fp]
      apply flistOK_mono hh4
      intro y hy
      have hsy := hsep_fp_t y hy
      have hsby := hbpt y hy
      constructor
      · rw [GET_PUT_out (by rcases hsy with h' | h' <;> omega),
          GET_PUT_out (by rcases hsby with h' | h' <;> omega),
          GET_PUT_out (by rcases hsby with h' | h' <;> omega)]
      · rw [GET_PUT_out (by rcases hsy with h' | h' <;> omega),
          GET_PUT_out (by rcases hsby with h' | h' <;> omega),
          GET_PUT_out (by rcases hsby with h' | h' <;> omega)]
    · intro x hx
      have hxbp := hx bp (by simp)
      have hxfp := hx fp (by simp)
      show PUT (PUT (PUT st.mem bp fp) (bp + 8) 0) (fp + 8) bp x = st.mem x
      rw [PUT_out (by omega), PUT_out (by omega), PUT_out (by omega)]

theorem delete_free_eq (st : AllocState) (bp : Nat) :
    delete_free st bp =
      { st with
        mem := PUT (PUT
          (if NEXT_FREE st.mem bp ≠ 0
           then PUT (if PREV_FREE st.mem bp ≠ 0
                     then PUT st.mem (PREV_FREE st.mem bp) (NEXT_FREE st.mem bp)
                     else st.mem) (NEXT_FREE st.mem bp + WSIZE) (PREV_FREE st.mem bp)
           else (if PREV_FREE st.mem bp ≠ 0
                 then PUT st.mem (PREV_FREE st.mem bp) (NEXT_FREE st.mem bp)
                 else st.mem)) bp 0) (bp + WSIZE) 0,
        free_listp := if PREV_FREE st.mem bp ≠ 0 then st.free_listp
                      else NEXT_FREE st.mem bp } := by
  unfold delete_free SET_NEXT_FREE SET_PREV_FREE
  by_cases h1 : PREV_FREE st.mem bp ≠ 0 <;> by_cases h2 : NEXT_FREE st.mem bp ≠ 0 <;>
    simp [h1, h2]

theorem delete_free_spec {st : AllocState} {bp : Nat} {l1 l2 : List Nat}
    (hfl : flistOK st.mem st.free_listp 0 (l1 ++ bp :: l2) = true)
    (hlt : ∀ x ∈ l1 ++ bp :: l2, x < M64)
    (hpw : (l1 ++ bp :: l2).Pairwise Sep16) :
    (delete_free st bp).brk = st.brk ∧
    (delete_free st bp).heap_listp = st.heap_listp ∧
    (delete_free st bp).free_listp = (l1 ++ l2).headD 0 ∧
    flistOK (delete_free st bp).mem (delete_free st bp).free_listp 0 (l1 ++ l2) = true ∧
    (∀ x, (∀ y ∈ l1 ++ bp :: l2, x < y ∨ y + 16 ≤ x) →
      (delete_free st bp).mem x = st.mem x) := by
  obtain ⟨hpw1, hpwc, hpw12⟩ := List.pairwise_append.mp hpw
  obtain ⟨hbp_l2, hpw2⟩ := List.pairwise_cons.mp hpwc
  have hbp_lt : bp < M64 := hlt bp (by simp)
  obtain ⟨q, hseg, hbpl2⟩ := flistOK_append_iff.mp hfl
  obtain ⟨hq, hbp0, hprv, htl2⟩ := flistOK_cons.mp hbpl2
  rw [hq] at hseg
  -- name the two link values read by delete_free
  set prv := PREV_FREE st.mem bp with hprvdef
  set nxt := NEXT_FREE st.mem bp with hnxtdef
  have hl1prv : prv = l1.getLastD 0 := hprv
  have hnxt_shape : nxt = l2.headD 0 := by
    cases l2 with
    | nil => exact flistOK_nil.mp htl2
    | cons y t => exact (flistOK_cons.mp htl2).1
  rcases List.eq_nil_or_concat l1 with hl1 | ⟨u, z, hl1⟩
  · -- Case A: bp was the list head
    subst hl1
    have hprv0 : prv = 0 := by simpa using hl1prv
    have hfp : st.free_listp = bp := flseg_nil.mp hseg
    have hprvF : ¬ (PREV_FREE st.mem bp ≠ 0) := by
      rw [← hprvdef, hprv0]
      simp
    rw [delete_free_eq]
    simp only [if_neg hprvF]
    cases l2 with
    | nil =>
      have hnxt0 : nxt = 0 := by simpa using hnxt_shape
      have hnxtF : ¬ (NEXT_FREE st.mem bp ≠ 0) := by
        rw [← hnxtdef, hnxt0]
        simp
      simp only [if_neg hnxtF]
      refine ⟨by trivial, by trivial, by rw [← hnxtdef, hnxt0]; simp, ?_, ?_⟩
      · show flistOK _ (NEXT_FREE st.mem bp) 0 ([] ++ []) = true
        rw [List.nil_append, ← hnxtdef]
        exact flistOK_nil.mpr hnxt0
      · intro x hx
        have := hx bp (by simp)
        show PUT (PUT st.mem bp 0) (bp + 8) 0 x = st.mem x
        rw [PUT_out (by omega), PUT_out (by omega)]
    | cons y t =>
      have hy : nxt = y := by simpa using hnxt_shape
      obtain ⟨-, hy0, hyprv, hyt⟩ := flistOK_cons.mp htl2
      have hsep_bpy : Sep16 bp y := hbp_l2 y (by simp)
      have hy_lt : y < M64 := hlt y (by simp)
      have hbp_t : ∀ w ∈ t, Sep16 bp w := fun w hw => hbp_l2 w (by simp [hw])
      obtain ⟨hy_t, hpw2'⟩ := List.pairwise_cons.mp hpw2
      have hnxtT : NEXT_FREE st.mem bp ≠ 0 := by
        rw [← hnxtdef, hy]
        exact hy0
      simp only [if_pos hnxtT]
      refine ⟨by trivial, by trivial, by rw [← hnxtdef, hy]; simp, ?_, ?_⟩
      · show flistOK (PUT (PUT (PUT st.mem (nxt + 8) prv) bp 0) (bp + 8) 0) nxt 0
          ([] ++ y :: t) = true
        rw [List.nil_append, hy]
        apply flistOK_cons.mpr
        have hGy8 : GET (PUT (PUT (PUT st.mem (y + 8) prv) bp 0) (bp + 8) 0) (y + 8) = 0 := by
          rw [GET_PUT_out (by rcases hsep_bpy with h' | h' <;> omega),
            GET_PUT_out (by rcases hsep_bpy with h' | h' <;> omega),
            GET_PUT_self, hprv0]
          norm_num [M64]
        have hGy : GET (PUT (PUT (PUT st.mem (y + 8) prv) bp 0) (bp + 8) 0) y
            = GET st.mem y := by
          rw [GET_PUT_out (by rcases hsep_bpy with h' | h' <;> omega),
            GET_PUT_out (by rcases hsep_bpy with h' | h' <;> omega),
            GET_PUT_out (by omega)]
        refine ⟨rfl, hy0, ?_, ?_⟩
        · exact hGy8
        · show flistOK _ (GET (PUT (PUT (PUT st.mem (y + 8) prv) bp 0) (bp + 8) 0) y)
            y t = true
          rw [hGy]
          apply flistOK_mono hyt
          intro w hw
          have hsw : Sep16 y w := hy_t w hw
          have hsbw : Sep16 bp w := hbp_t w hw
          constructor
          · rw [GET_PUT_out (by rcases hsbw with h' | h' <;> omega),
              GET_PUT_out (by rcases hsbw with h' | h' <;> omega),
              GET_PUT_out (by rcases hsw with h' | h' <;> omega)]
          · rw [GET_PUT_out (by rcases hsbw with h' | h' <;> omega),
              GET_PUT_out (by rcases hsbw with h' | h' <;> omega),
              GET_PUT_out (by rcases hsw with h' | h' <;> omega)]
      · intro x hx
        have hxbp := hx bp (by simp)
        have hxy := hx y (by simp)
        show PUT (PUT (PUT st.mem (nxt + 8) prv) bp 0) (bp + 8) 0 x = st.mem x
        rw [PUT_out (by omega), PUT_out (by omega), PUT_out (by rw [hy]; omega)]
  · -- Case B: bp has a predecessor z, the last element of l1
    rw [List.concat_eq_append] at hl1
    subst hl1
    have hz_mem : z ∈ u ++ [z] := by simp
    have hz_lt : z < M64 := hlt z (by simp)
    have hprvz : prv = z := by rw [hl1prv, List.getLastD_concat]
    have hz0 : z ≠ 0 := flseg_ne_zero hseg z hz_mem
    have hsep_zbp : Sep16 z bp := hpw12 z hz_mem bp (by simp)
    have hprvT : PREV_FREE st.mem bp ≠ 0 := by
      rw [← hprvdef, hprvz]
      exact hz0
    rw [delete_free_eq]
    simp only [if_pos hprvT]
    have hfp_head : st.free_listp = ((u ++ [z]) ++ l2).headD 0 := by
      cases u with
      | nil => simpa using (flseg_cons.mp (by simpa using hseg)).1
      | cons a u' => simpa using (flseg_cons.mp (by simpa using hseg)).1
    cases l2 with
    | nil =>
      have hnxt0 : nxt = 0 := by simpa using hnxt_shape
      have hnxtF : ¬ (NEXT_FREE st.mem bp ≠ 0) := by
        rw [← hnxtdef, hnxt0]
        simp
      simp only [if_neg hnxtF]
      refine ⟨by trivial, by trivial, hfp_head, ?_, ?_⟩
      · show flistOK (PUT (PUT (PUT st.mem prv nxt) bp 0) (bp + 8) 0) st.free_listp 0
          ((u ++ [z]) ++ []) = true
        rw [hprvz]
        apply flistOK_append_iff.mpr
        refine ⟨0, ?_, flistOK_nil.mpr rfl⟩
        apply flseg_retarget u st.free_listp 0 hseg
        · intro x hxm
          have hsbx : Sep16 x bp := hpw12 x hxm bp (by simp)
          have hszx : x = z ∨ Sep16 z x := by
            rcases List.mem_append.mp hxm with hxu | hxz
            · right
              have hpwu := List.pairwise_append.mp hpw1
              rcases hpwu.2.2 x hxu z (by simp) with h' | h'
              · exact Or.inr h'
              · exact Or.inl h'
            · left
              simpa using hxz
          rcases hszx with rfl | hsz
          · rw [GET_PUT_out (by rcases hsbx with h' | h' <;> omega),
              GET_PUT_out (by rcases hsbx with h' | h' <;> omega),
              GET_PUT_out (by omega)]
          · rw [GET_PUT_out (by rcases hsbx with h' | h' <;> omega),
              GET_PUT_out (by rcases hsbx with h' | h' <;> omega),
              GET_PUT_out (by rcases hsz with h' | h' <;> omega)]
        · intro x hxu
          have hsbx : Sep16 x bp := hpw12 x (by simp [hxu]) bp (by simp)
          have hpwu := List.pairwise_append.mp hpw1
          have hsz : Sep16 x z := by
            rcases hpwu.2.2 x hxu z (by simp) with h' | h'
            · exact Or.inl h'
            · exact Or.inr h'
          rw [GET_PUT_out (by rcases hsbx with h' | h' <;> omega),
            GET_PUT_out (by rcases hsbx with h' | h' <;> omega),
            GET_PUT_out (by rcases hsz with h' | h' <;> omega)]
        · rw [GET_PUT_out (by rcases hsep_zbp with h' | h' <;> omega),
            GET_PUT_out (by rcases hsep_zbp with h' | h' <;> omega),
            GET_PUT_self_lt (by rw [hnxt0]; norm_num [M64]), hnxt0]
      · intro x hx
        have hxbp := hx bp (by simp)
        have hxz := hx z (by simp)
        show PUT (PUT (PUT st.mem prv nxt) bp 0) (bp + 8) 0 x = st.mem x
        rw [hprvz, PUT_out (by omega), PUT_out (by omega), PUT_out (by omega)]
    | cons y t =>
      have hy : nxt = y := by simpa using hnxt_shape
      obtain ⟨-, hy0, hyprv, hyt⟩ := flistOK_cons.mp htl2
      have hsep_bpy : Sep16 bp y := hbp_l2 y (by simp)
      have hsep_zy : Sep16 z y := hpw12 z hz_mem y (by simp)
      have hy_lt : y < M64 := hlt y (by simp)
      have hbp_t : ∀ w ∈ t, Sep16 bp w := fun w hw => hbp_l2 w (by simp [hw])
      have hz_t : ∀ w ∈ t, Sep16 z w := fun w hw => hpw12 z hz_mem w (by simp [hw])
      obtain ⟨hy_t, hpw2'⟩ := List.pairwise_cons.mp hpw2
      have hnxtT : NEXT_FREE st.mem bp ≠ 0 := by
        rw [← hnxtdef, hy]
        exact hy0
      simp only [if_pos hnxtT]
      refine ⟨by trivial, by trivial, hfp_head, ?_, ?_⟩
      · show flistOK (PUT (PUT (PUT (PUT st.mem prv nxt) (nxt + 8) prv) bp 0) (bp + 8) 0)
          st.free_listp 0 ((u ++ [z]) ++ y :: t) = true
        rw [hprvz]
        apply flistOK_append_iff.mpr
        refine ⟨y, ?_, ?_⟩
        · -- the l1 segment, retargeted to point at y
          apply flseg_retarget u st.free_listp 0 hseg
          · intro x hxm
            have hsbx : Sep16 x bp := hpw12 x hxm bp (by simp)
            have hsyx : Sep16 x y := hpw12 x hxm y (by simp)
            have hszx : x = z ∨ Sep16 z x := by
              rcases List.mem_append.mp hxm with hxu | hxz
              · right
                have hpwu := List.pairwise_append.mp hpw1
                rcases hpwu.2.2 x hxu z (by simp) with h' | h'
                · exact Or.inr h'
                · exact Or.inl h'
              · left
                simpa using hxz
            rcases hszx with rfl | hsz
            · rw [GET_PUT_out (by rcases hsbx with h' | h' <;> omega),
                GET_PUT_out (by rcases hsbx with h' | h' <;> omega),
                GET_PUT_out (by rw [hy]; rcases hsyx with h' | h' <;> omega),
                GET_PUT_out (by omega)]
            · rw [GET_PUT_out (by rcases hsbx with h' | h' <;> omega),
                GET_PUT_out (by rcases hsbx with h' | h' <;> omega),
                GET_PUT_out (by rw [hy]; rcases hsyx with h' | h' <;> omega),
                GET_PUT_out (by rcases hsz with h' | h' <;> omega)]
          · intro x hxu
            have hsbx : Sep16 x bp := hpw12 x (by simp [hxu]) bp (by simp)
            have hsyx : Sep16 x y := hpw12 x (by simp [hxu]) y (by simp)
            have hpwu := List.pairwise_append.mp hpw1
            have hsz : Sep16 x z := by
              rcases hpwu.2.2 x hxu z (by simp) with h' | h'
              · exact Or.inl h'
              · exact Or.inr h'
            rw [GET_PUT_out (by rcases hsbx with h' | h' <;> omega),
              GET_PUT_out (by rcases hsbx with h' | h' <;> omega),
              GET_PUT_out (by rw [hy]; rcases hsyx with h' | h' <;> omega),
              GET_PUT_out (by rcases hsz with h' | h' <;> omega)]
          · rw [GET_PUT_out (by rcases hsep_zbp with h' | h' <;> omega),
              GET_PUT_out (by rcases hsep_zbp with h' | h' <;> omega),
              GET_PUT_out (by rw [hy]; rcases hsep_zy with h' | h' <;> omega),
              GET_PUT_self_lt (by rw [hy]; exact hy_lt), hy]
        · -- the l2 part, with its head's back link pointing at z
          rw [List.getLastD_concat]
          apply flistOK_cons.mpr
          have hGy8 : GET (PUT (PUT (PUT (PUT st.mem z nxt) (nxt + 8) z) bp 0) (bp + 8) 0)
              (y + 8) = z := by
            rw [GET_PUT_out (by rcases hsep_bpy with h' | h' <;> omega),
              GET_PUT_out (by rcases hsep_bpy with h' | h' <;> omega), hy,
              GET_PUT_self_lt hz_lt]
          have hGy : GET (PUT (PUT (PUT (PUT st.mem z nxt) (nxt + 8) z) bp 0) (bp + 8) 0)
              y = GET st.mem y := by
            rw [GET_PUT_out (by rcases hsep_bpy with h' | h' <;> omega),
              GET_PUT_out (by rcases hsep_bpy with h' | h' <;> omega), hy,
              GET_PUT_out (by omega),
              GET_PUT_out (by rcases hsep_zy with h' | h' <;> omega)]
          refine ⟨rfl, hy0, hGy8, ?_⟩
          show flistOK _
            (GET (PUT (PUT (PUT (PUT st.mem z nxt) (nxt + 8) z) bp 0) (bp + 8) 0) y)
            y t = true
          rw [hGy]
          apply flistOK_mono hyt
          intro w hw
          have hsw : Sep16 y w := hy_t w hw
          have hsbw : Sep16 bp w := hbp_t w hw
          have hszw : Sep16 z w := hz_t w hw
          constructor
          · rw [GET_PUT_out (by rcases hsbw with h' | h' <;> omega),
              GET_PUT_out (by rcases hsbw with h' | h' <;> omega), hy,
              GET_PUT_out (by rcases hsw with h' | h' <;> omega),
              GET_PUT_out (by rcases hszw with h' | h' <;> omega)]
          · rw [GET_PUT_out (by rcases hsbw with h' | h' <;> omega),
              GET_PUT_out (by rcases hsbw with h' | h' <;> omega), hy,
              GET_PUT_out (by rcases hsw with h' | h' <;> omega),
              GET_PUT_out (by rcases hszw with h' | h' <;> omega)]
      · intro x hx
        have hxbp := hx bp (by simp)
        have hxz := hx z (by simp)
        have hxy := hx y (by simp)
        show PUT (PUT (PUT (PUT st.mem prv nxt) (nxt + 8) prv) bp 0) (bp + 8) 0 x = st.mem x
        rw [hprvz, PUT_out (by omega), PUT_out (by omega), PUT_out (by rw [hy]; omega),
          PUT_out (by omega)]

/-! ### Block-walk monotonicity and accounting -/

theorem blocksOK_mono {m m' : Mem} {a e : Nat} {bs : List (Nat × Nat)}
    (h : blocksOK m a bs e = true) (ha : 8 ≤ a)
    (hagree : ∀ w, a ≤ w + 8 → w + 16 ≤ e → GET m' w = GET m w) :
    blocksOK m' a bs e = true := by
  induction bs generalizing a with
  | nil => exact blocksOK_nil.mpr (blocksOK_nil.mp h)
  | cons b bs' ih =>
    obtain ⟨sz, al⟩ := b
    obtain ⟨⟨h1, h2, h3, h4, h5, h6⟩, hrest⟩ := blocksOK_cons.mp h
    apply blocksOK_cons.mpr
    refine ⟨⟨h1, h2, h3, h4, ?_, ?_⟩, ih hrest (by omega) ?_⟩
    · rw [hagree (a - 8) (by omega) (by omega)]
      exact h5
    · rw [hagree (a + sz - 16) (by omega) (by omega)]
      exact h6
    · intro w hw1 hw2
      exact hagree w (by omega) hw2

theorem blocksOK_szSum {m : Mem} {a e : Nat} {bs : List (Nat × Nat)}
    (h : blocksOK m a bs e = true) : a + szSum bs = e := by
  induction bs generalizing a with
  | nil => simpa [szSum_nil] using blocksOK_nil.mp h
  | cons b bs' ih =>
    obtain ⟨sz, al⟩ := b
    obtain ⟨-, hrest⟩ := blocksOK_cons.mp h
    have := ih hrest
    rw [szSum_cons]
    omega

theorem blocksOK_length {m : Mem} {a e : Nat} {bs : List (Nat × Nat)}
    (h : blocksOK m a bs e = true) : bs.length * 32 ≤ szSum bs := by
  induction bs generalizing a with
  | nil => simp [szSum_nil]
  | cons b bs' ih =>
    obtain ⟨sz, al⟩ := b
    obtain ⟨⟨-, h2, -, -, -, -⟩, hrest⟩ := blocksOK_cons.mp h
    have := ih hrest
    rw [szSum_cons, List.length_cons]
    simp only []
    omega

theorem freeBps_length_le (a : Nat) (bs : List (Nat × Nat)) :
    (freeBps a bs).length ≤ bs.length := by
  induction bs generalizing a with
  | nil => simp [freeBps]
  | cons b bs' ih =>
    obtain ⟨sz, al⟩ := b
    rw [show freeBps a ((sz, al) :: bs') = (if al = 0 then [a] else []) ++ freeBps (a + sz) bs'
      from rfl]
    by_cases hal : al = 0 <;> simp [hal] <;> exact le_trans (ih (a + sz)) (by omega)

theorem mem_allocBps_iff {a p : Nat} {bs : List (Nat × Nat)} :
    p ∈ allocBps a bs ↔ ∃ u sz al v, al ≠ 0 ∧ bs = u ++ (sz, al) :: v ∧ p = a + szSum u := by
  induction bs generalizing a with
  | nil =>
    constructor
    · intro h
      exact absurd h (by simp [allocBps])
    · rintro ⟨u, sz, al, v, -, hbs, -⟩
      exact absurd hbs (by simp)
  | cons b t ih =>
    obtain ⟨sz, al⟩ := b
    constructor
    · intro hmem
      rcases List.mem_append.mp hmem with hmem | hmem
      · by_cases hal : al ≠ 0
        · rw [if_pos hal] at hmem
          simp at hmem
          exact ⟨[], sz, al, t, hal, rfl, by simp [szSum_nil, hmem]⟩
        · rw [if_neg hal] at hmem
          exact absurd hmem (List.not_mem_nil p)
      · obtain ⟨u, sz', al', v, hal', ht, hp⟩ := ih.mp hmem
        refine ⟨(sz, al) :: u, sz', al', v, hal', by simp [ht], ?_⟩
        rw [hp, szSum_cons]
        omega
    · rintro ⟨u, sz', al', v, hal', hbs, hp⟩
      cases u with
      | nil =>
        simp only [List.nil_append, List.cons.injEq, Prod.mk.injEq] at hbs
        obtain ⟨⟨hsz, hal⟩, hts⟩ := hbs
        subst hal
        rw [szSum_nil] at hp
        apply List.mem_append.mpr
        left
        rw [if_pos hal']
        simp [hp]
      | cons b' u' =>
        simp only [List.cons_append, List.cons.injEq] at hbs
        obtain ⟨hb, hts⟩ := hbs
        apply List.mem_append.mpr
        right
        refine ih.mpr ⟨u', sz', al', v, hal', hts, ?_⟩
        rw [hp, ← hb, szSum_cons]
        omega

/-! ### find_fit -/

theorem find_fit_loop_spec {m : Mem} {asize : Nat} :
    ∀ (fl : List Nat) (p prv fuel : Nat),
      flistOK m p prv fl = true → fl.length < fuel →
      find_fit_loop m asize p fuel = 0 ∨
        (find_fit_loop m asize p fuel ∈ fl ∧
         asize ≤ GET_SIZE m (HDRP (find_fit_loop m asize p fuel))) := by
  intro fl
  induction fl with
  | nil =>
    intro p prv fuel h hfuel
    obtain ⟨f, rfl⟩ : ∃ f, fuel = f + 1 := ⟨fuel - 1, by omega⟩
    left
    rw [find_fit_loop, if_pos (flistOK_nil.mp h)]
  | cons x xs ih =>
    intro p prv fuel h hfuel
    obtain ⟨f, rfl⟩ : ∃ f, fuel = f + 1 := ⟨fuel - 1, by omega⟩
    obtain ⟨rfl, hx0, -, htail⟩ := flistOK_cons.mp h
    rw [find_fit_loop, if_neg hx0]
    by_cases hfit : asize ≤ GET_SIZE m (HDRP p)
    · rw [if_pos hfit]
      right
      exact ⟨by simp, hfit⟩
    · rw [if_neg hfit]
      rcases ih (NEXT_FREE m p) p f htail
        (by simp only [List.length_cons] at hfuel; omega) with h0 | ⟨hm, hsz⟩
      · left
        exact h0
      · right
        exact ⟨by simp [hm], hsz⟩

/-! ### Frame toolkit -/

theorem blocksOK_at {m : Mem} {a e sz al : Nat} {bs u v : List (Nat × Nat)}
    (h : blocksOK m a bs e = true) (hbs : bs = u ++ (sz, al) :: v) :
    al ≤ 1 ∧ 32 ≤ sz ∧ sz % 8 = 0 ∧ a + szSum u + sz ≤ e ∧
    GET m (a + szSum u - 8) = PACK sz al ∧
    GET m (a + szSum u + sz - 16) = PACK sz al := by
  subst hbs
  obtain ⟨-, h2⟩ := blocksOK_append.mp h
  obtain ⟨⟨k1, k2, k3, k4, k5, k6⟩, -⟩ := blocksOK_cons.mp h2
  exact ⟨k1, k2, k3, k4, k5, k6⟩

theorem append_middle_cases {α : Type} {u1 v1 u2 v2 : List α} {x1 x2 : α}
    (h : u1 ++ x1 :: v1 = u2 ++ x2 :: v2) :
    (u1 = u2 ∧ x1 = x2 ∧ v1 = v2) ∨
    (∃ w, u2 = u1 ++ x1 :: w) ∨ (∃ w, u1 = u2 ++ x2 :: w) := by
  rcases List.append_eq_append_iff.mp h with ⟨w, hw1, hw2⟩ | ⟨w, hw1, hw2⟩
  · cases w with
    | nil =>
      left
      simp only [List.append_nil] at hw1
      simp only [List.nil_append, List.cons.injEq] at hw2
      exact ⟨hw1.symm, hw2.1, hw2.2⟩
    | cons c w' =>
      right
      left
      simp only [List.cons_append, List.cons.injEq] at hw2
      exact ⟨w', by rw [hw1, hw2.1]⟩
  · cases w with
    | nil =>
      left
      simp only [List.append_nil] at hw1
      simp only [List.nil_append, List.cons.injEq] at hw2
      exact ⟨hw1, hw2.1.symm, hw2.2.symm⟩
    | cons c w' =>
      right
      right
      simp only [List.cons_append, List.cons.injEq] at hw2
      exact ⟨w', by rw [hw1, hw2.1]⟩

theorem szSum_pos_decomp {u w : List (Nat × Nat)} {x : Nat × Nat} :
    szSum (u ++ x :: w) = szSum u + x.1 + szSum w := by
  rw [szSum_append, szSum_cons]
  omega

theorem blocksOK_tags {m m' : Mem} {a e : Nat} {bs : List (Nat × Nat)}
    (h : blocksOK m a bs e = true)
    (hagree : ∀ u sz al v, bs = u ++ (sz, al) :: v →
        GET m' (a + szSum u - 8) = GET m (a + szSum u - 8) ∧
        GET m' (a + szSum u + sz - 16) = GET m (a + szSum u + sz - 16)) :
    blocksOK m' a bs e = true := by
  induction bs generalizing a with
  | nil => exact blocksOK_nil.mpr (blocksOK_nil.mp h)
  | cons b bs' ih =>
    obtain ⟨sz, al⟩ := b
    obtain ⟨⟨h1, h2, h3, h4, h5, h6⟩, hrest⟩ := blocksOK_cons.mp h
    have hhead := hagree [] sz al bs' rfl
    rw [szSum_nil] at hhead
    apply blocksOK_cons.mpr
    refine ⟨⟨h1, h2, h3, h4, ?_, ?_⟩, ?_⟩
    · rw [show a + 0 - 8 = a - 8 by omega] at hhead
      rw [hhead.1]
      exact h5
    · rw [show a + 0 + sz - 16 = a + sz - 16 by omega] at hhead
      rw [hhead.2]
      exact h6
    · apply ih hrest
      intro u sz' al' v hbs'
      have hmain := hagree ((sz, al) :: u) sz' al' v (by simp [hbs'])
      rw [szSum_cons] at hmain
      have hfst : ((sz, al) : Nat × Nat).1 = sz := rfl
      rw [hfst] at hmain
      constructor
      · have h' := hmain.1
        rw [show a + (sz + szSum u) - 8 = a + sz + szSum u - 8 by omega] at h'
        exact h'
      · have h' := hmain.2
        rw [show a + (sz + szSum u) + sz' - 16 = a + sz + szSum u + sz' - 16 by omega] at h'
        exact h'

theorem blocksOK_frame {m m' : Mem} {a e : Nat} {bs : List (Nat × Nat)} {L : List Nat}
    (h : blocksOK m a bs e = true) (ha : 8 ≤ a)
    (hfr : ∀ x, (∀ y ∈ L, x < y ∨ y + 16 ≤ x) → m' x = m x)
    (hL : ∀ y ∈ L, ∃ uy szy aly vy, bs = uy ++ (szy, aly) :: vy ∧
           a + szSum uy ≤ y ∧ y + 16 ≤ a + szSum uy + szy - 16) :
    blocksOK m' a bs e = true := by
  apply blocksOK_tags h
  intro u sz al v hbs
  obtain ⟨-, hsz32, -, -, -, -⟩ := blocksOK_at h hbs
  constructor
  · apply GET_congr
    intro i hi
    apply hfr
    intro y hy
    obtain ⟨uy, szy, aly, vy, hbs', hy1, hy2⟩ := hL y hy
    obtain ⟨-, hszy32, -, -, -, -⟩ := blocksOK_at h hbs'
    rcases append_middle_cases (hbs.symm.trans hbs') with ⟨heq, heq2, -⟩ | ⟨w, hw⟩ | ⟨w, hw⟩
    · subst heq
      left
      omega
    · have : szSum uy = szSum u + sz + szSum w := by
        rw [hw, szSum_pos_decomp]
      left
      omega
    · have : szSum u = szSum uy + szy + szSum w := by
        rw [hw, szSum_pos_decomp]
      right
      omega
  · apply GET_congr
    intro i hi
    apply hfr
    intro y hy
    obtain ⟨uy, szy, aly, vy, hbs', hy1, hy2⟩ := hL y hy
    obtain ⟨-, hszy32, -, -, -, -⟩ := blocksOK_at h hbs'
    rcases append_middle_cases (hbs.symm.trans hbs') with ⟨heq, heq2, -⟩ | ⟨w, hw⟩ | ⟨w, hw⟩
    · subst heq
      have : sz = szy := by
        have := congrArg Prod.fst heq2
        simpa using this
      right
      omega
    · have : szSum uy = szSum u + sz + szSum w := by
        rw [hw, szSum_pos_decomp]
      left
      omega
    · have : szSum u = szSum uy + szy + szSum w := by
        rw [hw, szSum_pos_decomp]
      right
      omega

theorem flistOK_frame {m m' : Mem} {p prv : Nat} {l L : List Nat}
    (h : flistOK m p prv l = true)
    (hfr : ∀ x, (∀ y ∈ L, x < y ∨ y + 16 ≤ x) → m' x = m x)
    (hsep : ∀ x ∈ l, ∀ y ∈ L, Sep16 x y) :
    flistOK m' p prv l = true := by
  apply flistOK_mono h
  intro x hx
  constructor
  · apply GET_congr
    intro i hi
    apply hfr
    intro y hy
    rcases hsep x hx y hy with h' | h' <;> omega
  · apply GET_congr
    intro i hi
    apply hfr
    intro y hy
    rcases hsep x hx y hy with h' | h' <;> omega

/-! ### Mid-level lemmas -/

theorem freeBps_full (l r : List (Nat × Nat)) (sz al : Nat) :
    freeBps 32 (l ++ (sz, al) :: r) =
      freeBps 32 l ++ (if al = 0 then [32 + szSum l] else []) ++
        freeBps (32 + szSum l + sz) r := by
  rw [freeBps_append]
  rw [show freeBps (32 + szSum l) ((sz, al) :: r) =
    (if al = 0 then [32 + szSum l] else []) ++ freeBps (32 + szSum l + sz) r from rfl]
  simp [List.append_assoc]

theorem freeBps_sep {m : Mem} {a e : Nat} {bs : List (Nat × Nat)}
    (h : blocksOK m a bs e = true) {x y : Nat}
    (hx : x ∈ freeBps a bs) (hy : y ∈ freeBps a bs) (hxy : x ≠ y) : Sep16 x y := by
  have hpw := (freeBps_pairwise h).imp
    (fun {p q} (hpq : p + 32 ≤ q) => (Or.inl (by omega) : p + 16 ≤ q ∨ q + 16 ≤ p))
  have := List.Pairwise.forall (fun p q (h' : p + 16 ≤ q ∨ q + 16 ≤ p) => by omega) hpw
  exact this hx hy hxy

theorem freeBps_lt_M64 {m : Mem} {a e : Nat} {bs : List (Nat × Nat)}
    (h : blocksOK m a bs e = true) (he : e ≤ M64) {y : Nat}
    (hy : y ∈ freeBps a bs) : y < M64 := by
  obtain ⟨szy, h32, -, -, hle, -, -⟩ := freeBps_block h hy
  have : (0 : Nat) < M64 := by norm_num [M64]
  omega

theorem freeBps_link_in_payload {m : Mem} {a e : Nat} {bs : List (Nat × Nat)} {y : Nat}
    (h : blocksOK m a bs e = true) (hy : y ∈ freeBps a bs) :
    ∃ u szy v, bs = u ++ (szy, 0) :: v ∧ a + szSum u ≤ y ∧
      y + 16 ≤ a + szSum u + szy - 16 := by
  obtain ⟨u, szy, v, hbs, hp⟩ := mem_freeBps_iff.mp hy
  obtain ⟨-, h32, -, -, -, -⟩ := blocksOK_at h hbs
  exact ⟨u, szy, v, hbs, by omega, by omega⟩

theorem frame_GET {m m' : Mem} {L : List Nat}
    (hfr : ∀ x, (∀ y ∈ L, x < y ∨ y + 16 ≤ x) → m' x = m x)
    {T : Nat} (hT : ∀ y ∈ L, T + 8 ≤ y ∨ y + 16 ≤ T) :
    GET m' T = GET m T :=
  GET_congr fun i hi => hfr _ (fun y hy => by rcases hT y hy with h' | h' <;> omega)

theorem link_zone_cases {m : Mem} {e : Nat} {bs : List (Nat × Nat)}
    (h : blocksOK m 32 bs e = true) {y : Nat} (hy : y ∈ freeBps 32 bs)
    {u v : List (Nat × Nat)} {sz al : Nat} (hbs : bs = u ++ (sz, al) :: v) :
    (y = 32 + szSum u ∧ al = 0) ∨
    y + 16 ≤ 32 + szSum u - 8 ∨ 32 + szSum u + sz - 8 ≤ y := by
  obtain ⟨uy, szy, vy, hbs', hy1⟩ := mem_freeBps_iff.mp hy
  obtain ⟨-, hszy32, -, -, -, -⟩ := blocksOK_at h hbs'
  obtain ⟨-, hsz32, -, -, -, -⟩ := blocksOK_at h hbs
  rcases append_middle_cases (hbs.symm.trans hbs') with ⟨heq, heq2, -⟩ | ⟨w, hw⟩ | ⟨w, hw⟩
  · left
    have : al = 0 := by
      have := congrArg Prod.snd heq2
      simpa using this
    exact ⟨by rw [hy1, heq], this⟩
  · right
    right
    have : szSum uy = szSum u + sz + szSum w := by
      rw [hw, szSum_pos_decomp]
    omega
  · right
    left
    have : szSum u = szSum uy + szy + szSum w := by
      rw [hw, szSum_pos_decomp]
    omega

theorem WFfreedOn.next_blkp {st : AllocState} {l r : List (Nat × Nat)} {sz : Nat}
    {fl : List Nat} (hw : WFfreedOn st l sz r fl) :
    NEXT_BLKP st.mem (32 + szSum l) = 32 + szSum l + sz := by
  obtain ⟨-, -, hsz8, -, hhdr, -⟩ := blocksOK_at hw.blocks rfl
  unfold NEXT_BLKP
  rw [show 32 + szSum l - WSIZE = 32 + szSum l - 8 from rfl,
    GET_SIZE_eq hhdr hsz8 (by norm_num)]

theorem WFfreedOn.prev_info {st : AllocState} {l r : List (Nat × Nat)} {sz : Nat}
    {fl : List Nat} (hw : WFfreedOn st l sz r fl) :
    (GET_ALLOC st.mem (FTRP st.mem (PREV_BLKP st.mem (32 + szSum l))) ≠ 0 ∧
      lastFreeSize l = 0 ∧ (l = [] ∨ ∃ lu szp, l = lu ++ [(szp, 1)])) ∨
    (∃ lu szp, l = lu ++ [(szp, 0)] ∧
      GET_ALLOC st.mem (FTRP st.mem (PREV_BLKP st.mem (32 + szSum l))) = 0 ∧
      lastFreeSize l = szp ∧ PREV_BLKP st.mem (32 + szSum l) = 32 + szSum lu ∧
      32 ≤ szp ∧ szp % 8 = 0 ∧ szSum l = szSum lu + szp) := by
  rcases List.eq_nil_or_concat l with rfl | ⟨lu, pbk, hl⟩
  · left
    have hPB : PREV_BLKP st.mem (32 + szSum []) = 16 := by
      unfold PREV_BLKP
      rw [show 32 + szSum [] - DSIZE = 16 by norm_num [szSum_nil, DSIZE, WSIZE],
        GET_SIZE_eq hw.pro_ftr (by norm_num [DSIZE, WSIZE]) (by norm_num)]
      norm_num [szSum_nil, DSIZE, WSIZE]
    have hFT : FTRP st.mem 16 = 16 := by
      unfold FTRP HDRP
      rw [show (16 : Nat) - WSIZE = 8 by norm_num [WSIZE],
        GET_SIZE_eq hw.pro_hdr (by norm_num [DSIZE, WSIZE]) (by norm_num)]
      norm_num [DSIZE, WSIZE]
    rw [hPB, hFT, GET_ALLOC_eq hw.pro_ftr (by norm_num [DSIZE, WSIZE]) (by norm_num)]
    exact ⟨by norm_num, rfl, Or.inl rfl⟩
  · rw [List.concat_eq_append] at hl
    obtain ⟨szp, alp⟩ := pbk
    subst hl
    have hbs : (lu ++ [(szp, alp)]) ++ (sz, 0) :: r = lu ++ (szp, alp) :: ((sz, 0) :: r) := by
      simp
    obtain ⟨halp, hszp32, hszp8, -, hphdr, hpftr⟩ := blocksOK_at hw.blocks hbs
    have hsum : szSum (lu ++ [(szp, alp)]) = szSum lu + szp := by
      rw [szSum_append, szSum_cons, szSum_nil]
      simp
    have hPB : PREV_BLKP st.mem (32 + szSum (lu ++ [(szp, alp)])) = 32 + szSum lu := by
      unfold PREV_BLKP
      rw [hsum, show 32 + (szSum lu + szp) - DSIZE = 32 + szSum lu + szp - 16
          by simp only [DSIZE, WSIZE]; omega,
        GET_SIZE_eq hpftr hszp8 halp]
      omega
    have hFT : FTRP st.mem (32 + szSum lu) = 32 + szSum lu + szp - 16 := by
      unfold FTRP HDRP
      rw [show 32 + szSum lu - WSIZE = 32 + szSum lu - 8 from rfl,
        GET_SIZE_eq hphdr hszp8 halp]
      norm_num [DSIZE, WSIZE]
    interval_cases alp
    · right
      exact ⟨lu, szp, rfl, by rw [hPB, hFT, GET_ALLOC_eq hpftr hszp8 (by norm_num)],
        by simp [lastFreeSize], hPB, hszp32, hszp8, hsum⟩
    · left
      refine ⟨?_, by simp [lastFreeSize], Or.inr ⟨lu, szp, rfl⟩⟩
      rw [hPB, hFT, GET_ALLOC_eq hpftr hszp8 (by norm_num)]
      norm_num

theorem WFfreedOn.next_info {st : AllocState} {l r : List (Nat × Nat)} {sz : Nat}
    {fl : List Nat} (hw : WFfreedOn st l sz r fl) :
    (GET_ALLOC st.mem (HDRP (NEXT_BLKP st.mem (32 + szSum l))) ≠ 0 ∧
      headFreeSize r = 0 ∧ (r = [] ∨ ∃ szn rt, r = (szn, 1) :: rt)) ∨
    (∃ szn rt, r = (szn, 0) :: rt ∧
      GET_ALLOC st.mem (HDRP (NEXT_BLKP st.mem (32 + szSum l))) = 0 ∧
      headFreeSize r = szn ∧ 32 ≤ szn ∧ szn % 8 = 0) := by
  have hNB := hw.next_blkp
  cases r with
  | nil =>
    left
    have hend : 32 + szSum l + sz = st.brk := by
      have := blocksOK_szSum hw.blocks
      rw [szSum_append, szSum_cons, szSum_nil] at this
      omega
    rw [hNB]
    unfold HDRP
    rw [show 32 + szSum l + sz - WSIZE = st.brk - 8 by rw [← hend]; norm_num [WSIZE],
      GET_ALLOC_eq hw.epi (by norm_num) (by norm_num)]
    exact ⟨by norm_num, rfl, Or.inl rfl⟩
  | cons bn rt =>
    obtain ⟨szn, aln⟩ := bn
    have hbs : l ++ (sz, 0) :: (szn, aln) :: rt = (l ++ [(sz, 0)]) ++ (szn, aln) :: rt := by
      simp
    obtain ⟨haln, hszn32, hszn8, -, hnhdr, -⟩ := blocksOK_at hw.blocks hbs
    have hsum : szSum (l ++ [(sz, 0)]) = szSum l + sz := by
      rw [szSum_append, szSum_cons, szSum_nil]
      simp
    rw [hsum] at hnhdr
    rw [hNB]
    unfold HDRP
    rw [show 32 + szSum l + sz - WSIZE = 32 + (szSum l + sz) - 8
        by simp only [WSIZE]; omega,
      GET_ALLOC_eq hnhdr hszn8 haln]
    interval_cases aln
    · right
      exact ⟨szn, rt, rfl, rfl, by simp [headFreeSize], hszn32, hszn8⟩
    · left
      exact ⟨by norm_num, by simp [headFreeSize], Or.inr ⟨szn, rt, rfl⟩⟩

/-! ### Additional structural lemmas -/

theorem sub64_eq_sub {a b : Nat} (hba : b ≤ a) (ha : a < M64) : sub64 a b = a - b := by
  unfold sub64
  rw [Nat.mod_eq_of_lt (show b < M64 by omega), show a + M64 - b = (a - b) + M64 by omega,
    Nat.add_mod_right, Nat.mod_eq_of_lt (by omega)]

theorem allocOff_append (a : Nat) (u v : List (Nat × Nat)) :
    allocOff a (u ++ v) = allocOff a u ++ allocOff (a + szSum u) v := by
  induction u generalizing a with
  | nil => simp [allocOff, szSum_nil]
  | cons b t ih =>
    obtain ⟨sz, al⟩ := b
    simp only [List.cons_append, allocOff, List.append_eq, ih (a + sz), szSum_cons,
      List.append_assoc, Nat.add_assoc]

theorem allocOff_merge_eq {a x y : Nat} {r : List (Nat × Nat)} :
    allocOff a ((x + y, 0) :: r) = allocOff a ((x, 0) :: (y, 0) :: r) := by
  simp [allocOff, Nat.add_assoc]

theorem allocOff_merge3_eq {a x y z : Nat} {r : List (Nat × Nat)} :
    allocOff a ((x + y + z, 0) :: r) = allocOff a ((x, 0) :: (y, 0) :: (z, 0) :: r) := by
  simp [allocOff, Nat.add_assoc]

theorem mem_allocOff_iff {a p s : Nat} {bs : List (Nat × Nat)} :
    (p, s) ∈ allocOff a bs ↔
      ∃ u al v, al ≠ 0 ∧ bs = u ++ (s, al) :: v ∧ p = a + szSum u := by
  induction bs generalizing a with
  | nil =>
    constructor
    · intro h
      exact absurd h (by simp [allocOff])
    · rintro ⟨u, al, v, -, hbs, -⟩
      exact absurd hbs (by simp)
  | cons b t ih =>
    obtain ⟨sz, al⟩ := b
    constructor
    · intro hmem
      rcases List.mem_append.mp hmem with hmem | hmem
      · by_cases hal : al = 0
        · rw [if_pos hal] at hmem
          exact absurd hmem (List.not_mem_nil _)
        · rw [if_neg hal] at hmem
          simp at hmem
          obtain ⟨hp, hs⟩ := hmem
          exact ⟨[], al, t, hal, by simp [hs], by simp [szSum_nil, hp]⟩
      · obtain ⟨u, al', v, hal', ht, hp⟩ := ih.mp hmem
        refine ⟨(sz, al) :: u, al', v, hal', by simp [ht], ?_⟩
        rw [hp, szSum_cons]
        omega
    · rintro ⟨u, al', v, hal', hbs, hp⟩
      cases u with
      | nil =>
        simp only [List.nil_append, List.cons.injEq, Prod.mk.injEq] at hbs
        obtain ⟨⟨hsz, hal⟩, hts⟩ := hbs
        subst hal
        rw [szSum_nil] at hp
        apply List.mem_append.mpr
        left
        rw [if_neg hal']
        simp [hp, hsz]
      | cons b' u' =>
        simp only [List.cons_append, List.cons.injEq] at hbs
        obtain ⟨hb, hts⟩ := hbs
        apply List.mem_append.mpr
        right
        refine ih.mpr ⟨u', al', v, hal', hts, ?_⟩
        rw [hp, ← hb, szSum_cons]
        omega

theorem block_offset_unique {m : Mem} {e : Nat} {bs u1 v1 u2 v2 : List (Nat × Nat)}
    {s1 a1 s2 a2 : Nat}
    (h : blocksOK m 32 bs e = true)
    (h1 : bs = u1 ++ (s1, a1) :: v1) (h2 : bs = u2 ++ (s2, a2) :: v2)
    (hsz : szSum u1 = szSum u2) : s1 = s2 ∧ a1 = a2 := by
  obtain ⟨-, hs1, -, -, -, -⟩ := blocksOK_at h h1
  obtain ⟨-, hs2, -, -, -, -⟩ := blocksOK_at h h2
  rcases append_middle_cases (h1.symm.trans h2) with ⟨-, heq2, -⟩ | ⟨w, hww⟩ | ⟨w, hww⟩
  · have h3 := congrArg Prod.fst heq2
    have h4 := congrArg Prod.snd heq2
    simp at h3 h4
    exact ⟨h3, h4⟩
  · have : szSum u2 = szSum u1 + s1 + szSum w := by rw [hww, szSum_pos_decomp]
    omega
  · have : szSum u1 = szSum u2 + s2 + szSum w := by rw [hww, szSum_pos_decomp]
    omega

theorem freeBps_not_allocBps {m : Mem} {e p : Nat} {bs : List (Nat × Nat)}
    (h : blocksOK m 32 bs e = true) (hf : p ∈ freeBps 32 bs) :
    p ∉ allocBps 32 bs := by
  intro ha
  obtain ⟨u, sz, v, hbs1, hp1⟩ := mem_freeBps_iff.mp hf
  obtain ⟨u2, sz2, al2, v2, hal2, hbs2, hp2⟩ := mem_allocBps_iff.mp ha
  obtain ⟨-, h4⟩ := block_offset_unique h hbs1 hbs2 (by omega)
  exact hal2 h4.symm

theorem blocksOK_unique {m : Mem} {e : Nat} : ∀ {bs bs' : List (Nat × Nat)} {a : Nat},
    blocksOK m a bs e = true → blocksOK m a bs' e = true → bs = bs' := by
  intro bs
  induction bs with
  | nil =>
    intro bs' a h h'
    have ha := blocksOK_nil.mp h
    cases bs' with
    | nil => rfl
    | cons b t =>
      obtain ⟨sz, al⟩ := b
      obtain ⟨⟨-, h32, -, hle, -, -⟩, -⟩ := blocksOK_cons.mp h'
      omega
  | cons b t ih =>
    intro bs' a h h'
    obtain ⟨sz, al⟩ := b
    obtain ⟨⟨hal1, h32, h8, hle, hhd, -⟩, hrest⟩ := blocksOK_cons.mp h
    cases bs' with
    | nil =>
      have ha := blocksOK_nil.mp h'
      omega
    | cons b' t' =>
      obtain ⟨sz', al'⟩ := b'
      obtain ⟨⟨hal1', h32', h8', hle', hhd', -⟩, hrest'⟩ := blocksOK_cons.mp h'
      have hpk : PACK sz al = PACK sz' al' := by rw [← hhd, hhd']
      rw [pack_eq h8 hal1, pack_eq h8' hal1'] at hpk
      have hszeq : sz = sz' ∧ al = al' := by omega
      obtain ⟨rfl, rfl⟩ := hszeq
      rw [ih hrest hrest']

theorem InAllocBytes_mono {bs bs' : List (Nat × Nat)}
    (hsub : ∀ q ∈ allocOff 32 bs, q ∈ allocOff 32 bs') {x : Nat}
    (hx : InAllocBytes bs x) : InAllocBytes bs' x := by
  obtain ⟨u, sz, al, v, hbs, hal, hx1, hx2⟩ := hx
  have hmem : (32 + szSum u, sz) ∈ allocOff 32 bs :=
    mem_allocOff_iff.mpr ⟨u, al, v, hal, hbs, rfl⟩
  obtain ⟨u2, al2, v2, hal2, hbs2, hp2⟩ := mem_allocOff_iff.mp (hsub _ hmem)
  exact ⟨u2, sz, al2, v2, hbs2, hal2, by omega, by omega⟩

theorem asizeOf_spec (n : Nat) :
    32 ≤ asizeOf n ∧ asizeOf n % 8 = 0 ∧ n + 16 ≤ asizeOf n := by
  unfold asizeOf ALIGN
  simp only [DSIZE, WSIZE, OVERHEAD, MINBLOCKSIZE]
  have h1 : (n + 16 + 7) % 8 < 8 := Nat.mod_lt _ (by norm_num)
  split
  · refine ⟨by norm_num, by norm_num, by omega⟩
  · split
    · refine ⟨by norm_num, by norm_num, by omega⟩
    · refine ⟨by omega, by omega, by omega⟩

theorem fl_length_lt_brk {st : AllocState} {bs : List (Nat × Nat)} {fl : List Nat}
    (hW : WFon st bs fl) : fl.length < st.brk := by
  have h1 := hW.bij.length_eq
  have h2 := freeBps_length_le 32 bs
  have h3 := blocksOK_length hW.blocks
  have h4 := blocksOK_szSum hW.blocks
  omega

theorem WFon_payload_update {st : AllocState} {bs : List (Nat × Nat)} {fl : List Nat}
    (hW : WFon st bs fl) {u : List (Nat × Nat)} {szq : Nat} {v : List (Nat × Nat)}
    (hbs : bs = u ++ (szq, 1) :: v) {m' : Mem}
    (hagree : ∀ x, (x < 32 + szSum u ∨ 32 + szSum u + szq - 16 ≤ x) → m' x = st.mem x) :
    WFon { st with mem := m' } bs fl := by
  obtain ⟨-, hq32, -, hqle, -, -⟩ := blocksOK_at hW.blocks hbs
  have hGout : ∀ T, (T + 8 ≤ 32 + szSum u ∨ 32 + szSum u + szq - 16 ≤ T) →
      GET m' T = GET st.mem T := by
    intro T hT
    apply GET_congr
    intro i hi
    apply hagree
    omega
  refine ⟨hW.hlp, hW.brk_align, hW.brk_ub, ?_, ?_, ?_, ?_, ?_, hW.bij, hW.noadj⟩
  · show GET m' 8 = PACK DSIZE 1
    rw [hGout 8 (by omega)]
    exact hW.pro_hdr
  · show GET m' 16 = PACK DSIZE 1
    rw [hGout 16 (by omega)]
    exact hW.pro_ftr
  · show GET m' (st.brk - 8) = PACK 0 1
    rw [hGout (st.brk - 8) (by omega)]
    exact hW.epi
  · show blocksOK m' 32 bs st.brk = true
    apply blocksOK_tags hW.blocks
    intro u2 sz2 al2 v2 hbs2
    obtain ⟨-, hs232, -, hle2, -, -⟩ := blocksOK_at hW.blocks hbs2
    have hzone : 32 + szSum u2 + sz2 ≤ 32 + szSum u ∨
        32 + szSum u + szq ≤ 32 + szSum u2 ∨ szSum u2 = szSum u ∧ sz2 = szq := by
      rcases append_middle_cases (hbs2.symm.trans hbs) with ⟨heq, heq2, -⟩ | ⟨w, hww⟩ | ⟨w, hww⟩
      · right
        right
        have := congrArg Prod.fst heq2
        simp at this
        exact ⟨by rw [heq], this⟩
      · left
        have : szSum u = szSum u2 + sz2 + szSum w := by rw [hww, szSum_pos_decomp]
        omega
      · right
        left
        have : szSum u2 = szSum u + szq + szSum w := by rw [hww, szSum_pos_decomp]
        omega
    constructor
    · apply hGout
      rcases hzone with h0 | h0 | ⟨h0, h1⟩ <;> omega
    · apply hGout
      rcases hzone with h0 | h0 | ⟨h0, h1⟩ <;> omega
  · show flistOK m' st.free_listp 0 fl = true
    apply flistOK_mono hW.flist
    intro w hw'
    have hwB : w ∈ freeBps 32 bs := hW.bij.mem_iff.mp hw'
    rcases link_zone_cases hW.blocks hwB hbs with ⟨-, h0⟩ | h0 | h0
    · exact absurd h0 one_ne_zero
    · exact ⟨hGout w (by omega), hGout (w + 8) (by omega)⟩
    · exact ⟨hGout w (by omega), hGout (w + 8) (by omega)⟩

theorem coalesce_spec {st : AllocState} {l r : List (Nat × Nat)} {sz : Nat} {fl : List Nat}
    (hw : WFfreedOn st l sz r fl) :
    ∃ bp' st' bs' fl',
      coalesce st (32 + szSum l) = .ok (bp', st') ∧
      WFon st' bs' fl' ∧
      st'.free_listp = bp' ∧
      st'.brk = st.brk ∧
      st'.heap_listp = st.heap_listp ∧
      bp' = 32 + szSum l - lastFreeSize l ∧
      GET st'.mem (HDRP bp') = PACK (sz + lastFreeSize l + headFreeSize r) 0 ∧
      GET st'.mem (FTRP st'.mem bp') = PACK (sz + lastFreeSize l + headFreeSize r) 0 ∧
      bp' ∈ freeBps 32 bs' ∧
      NoAdjFree bs' ∧
      allocOff 32 bs' = allocOff 32 (l ++ (sz, 0) :: r) ∧
      (∀ x, InAllocBytes (l ++ (sz, 0) :: r) x → st'.mem x = st.mem x) := by
  have hblk := hw.blocks
  obtain ⟨-, hsz32, hsz8, hszle, hhdr, hftr⟩ := blocksOK_at hblk rfl
  have hM64pos : (32 : Nat) < M64 := by norm_num [M64]
  have hbplt : 32 + szSum l < M64 := by
    have := hw.brk_ub
    omega
  have hfull : freeBps 32 (l ++ (sz, 0) :: r) =
      freeBps 32 l ++ (32 + szSum l) :: freeBps (32 + szSum l + sz) r := by
    rw [freeBps_full]
    simp
  have hbij2 : fl.Perm (freeBps 32 l ++ freeBps (32 + szSum l + sz) r) := hw.bij
  have hbp_in : 32 + szSum l ∈ freeBps 32 (l ++ (sz, 0) :: r) := by
    rw [hfull]
    simp
  have hnodupF : (freeBps 32 (l ++ (sz, 0) :: r)).Nodup :=
    List.Pairwise.imp (fun h => by omega) (freeBps_pairwise hblk)
  have hbp_notin : 32 + szSum l ∉ freeBps 32 l ++ freeBps (32 + szSum l + sz) r := by
    have h1 : ((32 + szSum l) :: (freeBps 32 l ++ freeBps (32 + szSum l + sz) r)).Nodup := by
      apply List.Perm.nodup _ hnodupF
      rw [hfull]
      exact List.perm_middle
    exact (List.nodup_cons.mp h1).1
  have hmemfl : ∀ x ∈ fl, x ∈ freeBps 32 (l ++ (sz, 0) :: r) := by
    intro x hx
    have hx2 := hbij2.mem_iff.mp hx
    rw [hfull]
    rcases List.mem_append.mp hx2 with h' | h'
    · exact List.mem_append.mpr (Or.inl h')
    · exact List.mem_append.mpr (Or.inr (by simp [h']))
  have hne_bp : ∀ x ∈ fl, x ≠ 32 + szSum l := by
    intro x hx h0
    exact hbp_notin (h0 ▸ hbij2.mem_iff.mp hx)
  have hlt : ∀ x ∈ (32 + szSum l) :: fl, x < M64 := by
    intro x hx
    rcases List.mem_cons.mp hx with rfl | hx
    · exact hbplt
    · exact freeBps_lt_M64 hblk hw.brk_ub (hmemfl x hx)
  have hpwF : (freeBps 32 (l ++ (sz, 0) :: r)).Pairwise Sep16 :=
    (freeBps_pairwise hblk).imp (fun h => Or.inl (by omega))
  have hsymm : ∀ a b : Nat, Sep16 a b → Sep16 b a := by
    intro a b h
    unfold Sep16 at *
    omega
  have hpw_fl : fl.Pairwise Sep16 := by
    refine (List.Perm.pairwise_iff (fun {a b} h => hsymm a b h) hbij2).mpr ?_
    have hsub : (freeBps 32 l ++ freeBps (32 + szSum l + sz) r).Sublist
        (freeBps 32 (l ++ (sz, 0) :: r)) := by
      rw [hfull]
      exact (List.sublist_cons_self _ _).append_left _
    exact List.Pairwise.sublist hsub hpwF
  have hpw : ((32 + szSum l) :: fl).Pairwise Sep16 := by
    apply List.pairwise_cons.mpr
    refine ⟨fun y hy => freeBps_sep hblk hbp_in (hmemfl y hy) (fun h => hne_bp y hy h.symm),
      hpw_fl⟩
  have hLpay : ∀ y ∈ (32 + szSum l) :: fl,
      ∃ uy szy vy, (l ++ (sz, 0) :: r) = uy ++ (szy, 0) :: vy ∧
        32 + szSum uy ≤ y ∧ y + 16 ≤ 32 + szSum uy + szy - 16 := by
    intro y hy
    rcases List.mem_cons.mp hy with rfl | hy
    · exact freeBps_link_in_payload hblk hbp_in
    · exact freeBps_link_in_payload hblk (hmemfl y hy)
  have hyB : ∀ y ∈ (32 + szSum l) :: fl, 32 ≤ y ∧ y + 32 ≤ st.brk := by
    intro y hy
    obtain ⟨uy, szy, vy, hbsY, h1, h2⟩ := hLpay y hy
    have hbd := (blocksOK_at hblk hbsY).2.2.2.1
    omega
  -- the standard zone argument for preserved tags
  have hT_hdr : ∀ y ∈ (32 + szSum l) :: fl,
      (32 + szSum l - 8) + 8 ≤ y ∨ y + 16 ≤ 32 + szSum l - 8 := by
    intro y hy
    rcases List.mem_cons.mp hy with rfl | hy
    · left
      omega
    · rcases link_zone_cases hblk (hmemfl y hy) rfl with ⟨h0, -⟩ | h0 | h0
      · exact absurd h0 (hne_bp y hy)
      · right
        exact h0
      · left
        omega
  have hT_ftr : ∀ y ∈ (32 + szSum l) :: fl,
      (32 + szSum l + sz - 16) + 8 ≤ y ∨ y + 16 ≤ 32 + szSum l + sz - 16 := by
    intro y hy
    rcases List.mem_cons.mp hy with rfl | hy
    · right
      omega
    · rcases link_zone_cases hblk (hmemfl y hy) rfl with ⟨h0, -⟩ | h0 | h0
      · exact absurd h0 (hne_bp y hy)
      · right
        omega
      · left
        omega
  have hframe_alloc : ∀ x, InAllocBytes (l ++ (sz, 0) :: r) x →
      ∀ y ∈ (32 + szSum l) :: fl, x < y ∨ y + 16 ≤ x := by
    intro x hx y hy
    obtain ⟨ua, sza, ala, va, hbsA, hala, hx1, hx2⟩ := hx
    have hyF : y ∈ freeBps 32 (l ++ (sz, 0) :: r) := by
      rcases List.mem_cons.mp hy with rfl | hy
      · exact hbp_in
      · exact hmemfl y hy
    rcases link_zone_cases hblk hyF hbsA with ⟨-, h0⟩ | h0 | h0
    · exact absurd h0 hala
    · right
      omega
    · left
      omega
  rcases hw.prev_info with ⟨hpa, hlfs, hlshape⟩ | ⟨lu, szp, hl, hpa, hlfs, hpv_eq, hszp32, hszp8, hsum⟩ <;>
    rcases hw.next_info with ⟨hna, hhfs, hrshape⟩ | ⟨szn, rt, hr, hna, hhfs, hszn32, hszn8⟩
  · -- Case 1: both neighbours allocated
    obtain ⟨stI, hrun, hfp', hbrk', hhlp', hflist', hframe'⟩ :=
      @insert_free_spec st (32 + szSum l) fl hw.flist
        (by unfold HDRP
            rw [show 32 + szSum l - WSIZE = 32 + szSum l - 8 from rfl]
            exact GET_ALLOC_eq hhdr hsz8 (by norm_num))
        (by omega) hlt hpw
    refine ⟨32 + szSum l, stI, l ++ (sz, 0) :: r, (32 + szSum l) :: fl, ?_, ?_, hfp', hbrk',
      hhlp', by omega, ?_, ?_, hbp_in, ?_, rfl, ?_⟩
    · simp only [coalesce]
      rw [if_pos ⟨hpa, hna⟩, hrun]
      rfl
    · refine ⟨hhlp'.trans hw.hlp, by rw [hbrk']; exact hw.brk_align,
        by rw [hbrk']; exact hw.brk_ub, ?_, ?_, ?_, ?_, ?_, ?_, ?_⟩
      · rw [frame_GET hframe' (fun y hy => Or.inl (by have := (hyB y hy).1; omega))]
        exact hw.pro_hdr
      · rw [frame_GET hframe' (fun y hy => Or.inl (by have := (hyB y hy).1; omega))]
        exact hw.pro_ftr
      · rw [hbrk', frame_GET hframe' (fun y hy => Or.inr (by have := (hyB y hy).2; omega))]
        exact hw.epi
      · rw [hbrk']
        apply blocksOK_frame hblk (by norm_num) hframe'
        intro y hy
        obtain ⟨uy, szy, vy, h1, h2, h3⟩ := hLpay y hy
        exact ⟨uy, szy, 0, vy, h1, h2, h3⟩
      · rw [hfp']
        exact hflist'
      · refine List.Perm.trans (hbij2.cons _) ?_
        rw [hfull]
        exact List.perm_middle.symm
      · -- no adjacent free blocks
        apply List.chain'_append.mpr
        refine ⟨hw.noadjl, ?_, ?_⟩
        · apply List.chain'_cons'.mpr
          refine ⟨?_, hw.noadjr⟩
          intro b hb
          rcases hrshape with rfl | ⟨szn, rt, rfl⟩
          · simp at hb
          · simp at hb
            subst hb
            simp
        · intro x hx y hy
          simp at hy
          subst hy
          rcases hlshape with rfl | ⟨lu, szp, rfl⟩
          · simp at hx
          · rw [List.getLast?_concat] at hx
            simp at hx
            subst hx
            simp
    · rw [show HDRP (32 + szSum l) = 32 + szSum l - 8 from rfl,
        frame_GET hframe' hT_hdr, hhdr, hlfs, hhfs, show sz + 0 + 0 = sz by omega]
    · have hG : GET stI.mem (32 + szSum l - 8) = PACK sz 0 := by
        rw [frame_GET hframe' hT_hdr]
        exact hhdr
      rw [show FTRP stI.mem (32 + szSum l) =
          32 + szSum l + GET_SIZE stI.mem (32 + szSum l - 8) - 16 from rfl,
        GET_SIZE_eq hG hsz8 (by norm_num),
        frame_GET hframe' hT_ftr, hftr, hlfs, hhfs, show sz + 0 + 0 = sz by omega]
    · -- no adjacent free blocks (stated again as a top-level conjunct)
      apply List.chain'_append.mpr
      refine ⟨hw.noadjl, ?_, ?_⟩
      · apply List.chain'_cons'.mpr
        refine ⟨?_, hw.noadjr⟩
        intro b hb
        rcases hrshape with rfl | ⟨szn, rt, rfl⟩
        · simp at hb
        · simp at hb
          subst hb
          simp
      · intro x hx y hy
        simp at hy
        subst hy
        rcases hlshape with rfl | ⟨lu, szp, rfl⟩
        · simp at hx
        · rw [List.getLast?_concat] at hx
          simp at hx
          subst hx
          simp
    · intro x hx
      exact hframe' x (hframe_alloc x hx)
  · -- Case 2: next free, prev allocated
    subst hr
    have hFr : freeBps (32 + szSum l + sz) ((szn, 0) :: rt) =
        (32 + szSum l + sz) :: freeBps (32 + szSum l + sz + szn) rt := by
      simp [freeBps]
    have hbs2 : l ++ (sz, 0) :: (szn, 0) :: rt = (l ++ [(sz, 0)]) ++ (szn, 0) :: rt := by
      simp
    have hsum2 : szSum (l ++ [(sz, 0)]) = szSum l + sz := by
      rw [szSum_append, szSum_cons, szSum_nil]
      simp
    obtain ⟨-, -, -, hnble, hnhdr, hnftr⟩ := blocksOK_at hblk hbs2
    rw [hsum2, ← Nat.add_assoc] at hnble hnhdr hnftr
    have hnb_fl : 32 + szSum l + sz ∈ fl := by
      apply hbij2.mem_iff.mpr
      apply List.mem_append.mpr
      right
      rw [hFr]
      simp
    obtain ⟨f1, f2, hfl_eq⟩ := List.append_of_mem hnb_fl
    have hnodup_mid :
        ((32 + szSum l) :: (freeBps 32 l ++ freeBps (32 + szSum l + sz) ((szn, 0) :: rt))).Nodup := by
      apply List.Perm.nodup _ hnodupF
      rw [hfull]
      exact List.perm_middle
    have hnodup_fl : fl.Nodup :=
      List.Perm.nodup hbij2.symm (List.nodup_cons.mp hnodup_mid).2
    have hnb_notin : 32 + szSum l + sz ∉ f1 ++ f2 := by
      have h1 : ((32 + szSum l + sz) :: (f1 ++ f2)).Nodup := by
        apply List.Perm.nodup _ hnodup_fl
        rw [hfl_eq]
        exact List.perm_middle
      exact (List.nodup_cons.mp h1).1
    -- run delete_free on the next block
    have hdel := @delete_free_spec st (32 + szSum l + sz) f1 f2
      (by rw [← hfl_eq]; exact hw.flist)
      (by rw [← hfl_eq]; exact fun x hx => hlt x (by simp [hx]))
      (by rw [← hfl_eq]; exact hpw_fl)
    obtain ⟨hbrk1, hhlp1, hfp1, hflist1, hframe1⟩ := hdel
    rw [← hfl_eq] at hframe1
    -- tags unchanged by the unlink
    have hG1 : ∀ T, (∀ y ∈ fl, T + 8 ≤ y ∨ y + 16 ≤ T) →
        GET (delete_free st (32 + szSum l + sz)).mem T = GET st.mem T :=
      fun T hT => frame_GET hframe1 hT
    have hT_nbhdr : ∀ y ∈ fl, (32 + szSum l + sz - 8) + 8 ≤ y ∨ y + 16 ≤ 32 + szSum l + sz - 8 := by
      intro y hy
      rcases link_zone_cases hblk (hmemfl y hy) hbs2 with ⟨h0, -⟩ | h0 | h0
      · rw [hsum2] at h0
        left
        omega
      · rw [hsum2] at h0
        right
        omega
      · rw [hsum2] at h0
        left
        omega
    have hT_nbftr : ∀ y ∈ fl,
        (32 + szSum l + sz + szn - 16) + 8 ≤ y ∨ y + 16 ≤ 32 + szSum l + sz + szn - 16 := by
      intro y hy
      rcases link_zone_cases hblk (hmemfl y hy) hbs2 with ⟨h0, -⟩ | h0 | h0
      · rw [hsum2] at h0
        right
        omega
      · rw [hsum2] at h0
        right
        omega
      · rw [hsum2] at h0
        left
        omega
    have hT_hdr' : ∀ y ∈ fl, (32 + szSum l - 8) + 8 ≤ y ∨ y + 16 ≤ 32 + szSum l - 8 :=
      fun y hy => hT_hdr y (by simp [hy])
    have hGhdr1 : GET (delete_free st (32 + szSum l + sz)).mem (32 + szSum l - 8) = PACK sz 0 := by
      rw [hG1 _ hT_hdr']
      exact hhdr
    have hGnbhdr1 : GET (delete_free st (32 + szSum l + sz)).mem (32 + szSum l + sz - 8)
        = PACK szn 0 := by
      rw [hG1 _ hT_nbhdr]
      exact hnhdr
    have hNB1 : NEXT_BLKP (delete_free st (32 + szSum l + sz)).mem (32 + szSum l)
        = 32 + szSum l + sz := by
      unfold NEXT_BLKP
      rw [show 32 + szSum l - WSIZE = 32 + szSum l - 8 from rfl,
        GET_SIZE_eq hGhdr1 hsz8 (by norm_num)]
    have hSZn : GET_SIZE (delete_free st (32 + szSum l + sz)).mem
        (HDRP (32 + szSum l + sz)) = szn := by
      rw [show HDRP (32 + szSum l + sz) = 32 + szSum l + sz - 8 from rfl]
      exact GET_SIZE_eq hGnbhdr1 hszn8 (by norm_num)
    have hSZ0 : GET_SIZE st.mem (HDRP (32 + szSum l)) = sz := by
      rw [show HDRP (32 + szSum l) = 32 + szSum l - 8 from rfl]
      exact GET_SIZE_eq hhdr hsz8 (by norm_num)
    have hpack_lt : PACK (sz + szn) 0 < M64 := by
      rw [pack_eq (by omega) (by norm_num)]
      have := hw.brk_ub
      omega
    -- the two tag writes
    have hFTRmA : FTRP (PUT (delete_free st (32 + szSum l + sz)).mem
        (32 + szSum l - 8) (PACK (sz + szn) 0)) (32 + szSum l)
        = 32 + szSum l + sz + szn - 16 := by
      unfold FTRP
      rw [show HDRP (32 + szSum l) = 32 + szSum l - 8 from rfl,
        GET_SIZE_eq (GET_PUT_self_lt hpack_lt) (by omega) (by norm_num)]
      simp only [DSIZE, WSIZE]
      omega
    have hblk1 : blocksOK (delete_free st (32 + szSum l + sz)).mem 32
        (l ++ (sz, 0) :: (szn, 0) :: rt) st.brk = true := by
      apply blocksOK_frame hblk (by norm_num) hframe1
      intro y hy
      obtain ⟨uy, szy, vy, h1, h2, h3⟩ := hLpay y (by simp [hy])
      exact ⟨uy, szy, 0, vy, h1, h2, h3⟩
    obtain ⟨hblk1l, hblk1m⟩ := blocksOK_append.mp hblk1
    obtain ⟨-, hblk1m2⟩ := blocksOK_cons.mp hblk1m
    obtain ⟨-, hblk1rt⟩ := blocksOK_cons.mp hblk1m2
    set m1 := (delete_free st (32 + szSum l + sz)).mem with hm1
    set mA := PUT m1 (32 + szSum l - 8) (PACK (sz + szn) 0) with hmA
    set mB := PUT mA (32 + szSum l + sz + szn - 16) (PACK (sz + szn) 0) with hmB
    have hGhdrB : GET mB (32 + szSum l - 8) = PACK (sz + szn) 0 := by
      rw [hmB, GET_PUT_out (by omega), hmA, GET_PUT_self_lt hpack_lt]
    have hGftrB : GET mB (32 + szSum l + sz + szn - 16) = PACK (sz + szn) 0 := by
      rw [hmB, GET_PUT_self_lt hpack_lt]
    have hblk2 : blocksOK mB 32 (l ++ (sz + szn, 0) :: rt) st.brk = true := by
      apply blocksOK_append.mpr
      constructor
      · apply blocksOK_mono hblk1l (by norm_num)
        intro w hw1 hw2
        rw [hmB, GET_PUT_out (by omega), hmA, GET_PUT_out (by omega)]
      · apply blocksOK_cons.mpr
        refine ⟨⟨by norm_num, by omega, by omega, by omega, ?_, ?_⟩, ?_⟩
        · rw [show 32 + szSum l - 8 = 32 + szSum l - 8 from rfl]
          exact hGhdrB
        · rw [show 32 + szSum l + (sz + szn) - 16 = 32 + szSum l + sz + szn - 16 by omega]
          exact hGftrB
        · rw [show 32 + szSum l + (sz + szn) = 32 + szSum l + sz + szn by omega]
          apply blocksOK_mono hblk1rt (by omega)
          intro w hw1 hw2
          rw [hmB, GET_PUT_out (by omega), hmA, GET_PUT_out (by omega)]
    have hmem_f12 : ∀ x ∈ f1 ++ f2, x ∈ fl := by
      intro x hx
      rw [hfl_eq]
      rcases List.mem_append.mp hx with h' | h'
      · exact List.mem_append.mpr (Or.inl h')
      · exact List.mem_append.mpr (Or.inr (by simp [h']))
    have hflistB : flistOK mB (delete_free st (32 + szSum l + sz)).free_listp 0
        (f1 ++ f2) = true := by
      apply flistOK_mono hflist1
      intro w hw'
      have hw1 := hT_hdr' w (hmem_f12 w hw')
      have hw2 := hT_nbftr w (hmem_f12 w hw')
      constructor
      · rw [hmB, GET_PUT_out (by omega), hmA, GET_PUT_out (by omega)]
      · rw [hmB, GET_PUT_out (by omega), hmA, GET_PUT_out (by omega)]
    have hsub12 : ((32 + szSum l) :: (f1 ++ f2)).Sublist ((32 + szSum l) :: fl) := by
      apply List.Sublist.cons₂
      rw [hfl_eq]
      exact (List.sublist_cons_self _ _).append_left _
    obtain ⟨stI, hrunI, hfpI, hbrkI, hhlpI, hflistI, hframeI⟩ :=
      @insert_free_spec { delete_free st (32 + szSum l + sz) with mem := mB }
        (32 + szSum l) (f1 ++ f2) hflistB
        (by show GET_ALLOC mB (HDRP (32 + szSum l)) = 0
            rw [show HDRP (32 + szSum l) = 32 + szSum l - 8 from rfl]
            exact GET_ALLOC_eq hGhdrB (by omega) (by norm_num))
        (by omega)
        (by intro x hx
            rcases List.mem_cons.mp hx with rfl | hx
            · exact hbplt
            · exact hlt x (by simp [hmem_f12 x hx]))
        (List.Pairwise.sublist hsub12 hpw)
    -- the new block list and free list
    have hbij2' := hbij2
    rw [hFr, hfl_eq] at hbij2'
    have hpermA : ((32 + szSum l + sz) :: (f1 ++ f2)).Perm
        ((32 + szSum l + sz) :: (freeBps 32 l ++ freeBps (32 + szSum l + sz + szn) rt)) :=
      (List.perm_middle.symm.trans hbij2').trans List.perm_middle
    have hperm12 : (f1 ++ f2).Perm
        (freeBps 32 l ++ freeBps (32 + szSum l + sz + szn) rt) :=
      hpermA.cons_inv
    have hfull2 : freeBps 32 (l ++ (sz + szn, 0) :: rt) =
        freeBps 32 l ++ (32 + szSum l) :: freeBps (32 + szSum l + sz + szn) rt := by
      rw [freeBps_full]
      simp
      rw [show 32 + szSum l + (sz + szn) = 32 + szSum l + sz + szn by omega]
    have hbijNew : ((32 + szSum l) :: (f1 ++ f2)).Perm
        (freeBps 32 (l ++ (sz + szn, 0) :: rt)) := by
      refine List.Perm.trans (hperm12.cons _) ?_
      rw [hfull2]
      exact List.perm_middle.symm
    have hbp_in2 : 32 + szSum l ∈ freeBps 32 (l ++ (sz + szn, 0) :: rt) := by
      rw [hfull2]
      simp
    have hnoadj2 : NoAdjFree (l ++ (sz + szn, 0) :: rt) := by
      apply List.chain'_append.mpr
      refine ⟨hw.noadjl, ?_, ?_⟩
      · apply List.chain'_cons'.mpr
        refine ⟨?_, (List.chain'_cons'.mp hw.noadjr).2⟩
        intro b hb
        have := (List.chain'_cons'.mp hw.noadjr).1 b hb
        simpa using this
      · intro x hx y hy
        simp at hy
        subst hy
        rcases hlshape with rfl | ⟨lu, szp, rfl⟩
        · simp at hx
        · rw [List.getLast?_concat] at hx
          simp at hx
          subst hx
          simp
    -- frames composed down to the original memory
    have hGETC : ∀ T, (∀ y ∈ (32 + szSum l) :: fl, T + 8 ≤ y ∨ y + 16 ≤ T) →
        (T + 8 ≤ 32 + szSum l - 8 ∨ 32 + szSum l ≤ T) →
        (T + 8 ≤ 32 + szSum l + sz + szn - 16 ∨ 32 + szSum l + sz + szn - 8 ≤ T) →
        GET stI.mem T = GET st.mem T := by
      intro T h1 h2 h3
      rw [frame_GET hframeI (fun y hy => by
        rcases List.mem_cons.mp hy with rfl | hy
        · exact h1 _ (by simp)
        · exact h1 y (by simp [hmem_f12 y hy]))]
      rw [hmB, GET_PUT_out (by omega), hmA, GET_PUT_out (by omega), hm1]
      exact frame_GET hframe1 (fun y hy => h1 y (by simp [hy]))
    refine ⟨32 + szSum l, stI, l ++ (sz + szn, 0) :: rt, (32 + szSum l) :: (f1 ++ f2),
      ?_, ?_, hfpI, ?_, ?_, by omega, ?_, ?_, hbp_in2, hnoadj2, ?_, ?_⟩
    · show coalesce st (32 + szSum l) = .ok (32 + szSum l, stI)
      simp only [coalesce]
      rw [if_neg (fun h => h.2 hna), if_pos ⟨hpa, hna⟩, hw.next_blkp, hSZ0, hNB1, hSZn,
        show HDRP (32 + szSum l) = 32 + szSum l - 8 from rfl]
      rw [← hm1, ← hmA, hFTRmA, ← hmB, hrunI]
      rfl
    · refine ⟨?_, ?_, ?_, ?_, ?_, ?_, ?_, ?_, ?_, hnoadj2⟩
      · rw [hhlpI]
        show (delete_free st (32 + szSum l + sz)).heap_listp = 16
        rw [hhlp1]
        exact hw.hlp
      · rw [hbrkI]
        show (delete_free st (32 + szSum l + sz)).brk % 8 = 0
        rw [hbrk1]
        exact hw.brk_align
      · rw [hbrkI]
        show (delete_free st (32 + szSum l + sz)).brk ≤ M64
        rw [hbrk1]
        exact hw.brk_ub
      · rw [hGETC 8 (fun y hy => Or.inl (by have := (hyB y hy).1; omega))
          (by omega) (by omega)]
        exact hw.pro_hdr
      · rw [hGETC 16 (fun y hy => Or.inl (by have := (hyB y hy).1; omega))
          (by omega) (by omega)]
        exact hw.pro_ftr
      · rw [hbrkI]
        show GET stI.mem ((delete_free st (32 + szSum l + sz)).brk - 8) = PACK 0 1
        rw [hbrk1]
        rw [hGETC (st.brk - 8) (fun y hy => Or.inr (by have := (hyB y hy).2; omega))
          (by omega) (by omega)]
        exact hw.epi
      · rw [hbrkI]
        show blocksOK stI.mem 32 (l ++ (sz + szn, 0) :: rt)
          (delete_free st (32 + szSum l + sz)).brk = true
        rw [hbrk1]
        apply blocksOK_frame hblk2 (by norm_num) hframeI
        intro y hy
        rcases List.mem_cons.mp hy with rfl | hy
        · obtain ⟨uy, szy, vy, h1, h2, h3⟩ := freeBps_link_in_payload hblk2 hbp_in2
          exact ⟨uy, szy, 0, vy, h1, h2, h3⟩
        · have hy' : y ∈ freeBps 32 (l ++ (sz + szn, 0) :: rt) := by
            rw [hfull2]
            have := hperm12.mem_iff.mp hy
            rcases List.mem_append.mp this with h' | h'
            · exact List.mem_append.mpr (Or.inl h')
            · exact List.mem_append.mpr (Or.inr (by simp [h']))
          obtain ⟨uy, szy, vy, h1, h2, h3⟩ := freeBps_link_in_payload hblk2 hy'
          exact ⟨uy, szy, 0, vy, h1, h2, h3⟩
      · rw [hfpI]
        exact hflistI
      · exact hbijNew
    · rw [hbrkI]
      show (delete_free st (32 + szSum l + sz)).brk = st.brk
      exact hbrk1
    · rw [hhlpI]
      show (delete_free st (32 + szSum l + sz)).heap_listp = st.heap_listp
      exact hhlp1
    · rw [show HDRP (32 + szSum l) = 32 + szSum l - 8 from rfl]
      have : GET stI.mem (32 + szSum l - 8) = PACK (sz + szn) 0 := by
        rw [frame_GET hframeI (fun y hy => by
          rcases List.mem_cons.mp hy with rfl | hy
          · exact Or.inl (by omega)
          · exact hT_hdr' y (hmem_f12 y hy))]
        exact hGhdrB
      rw [this, hlfs, hhfs, show sz + 0 + szn = sz + szn by omega]
    · have hGh : GET stI.mem (32 + szSum l - 8) = PACK (sz + szn) 0 := by
        rw [frame_GET hframeI (fun y hy => by
          rcases List.mem_cons.mp hy with rfl | hy
          · exact Or.inl (by omega)
          · exact hT_hdr' y (hmem_f12 y hy))]
        exact hGhdrB
      rw [show FTRP stI.mem (32 + szSum l) =
          32 + szSum l + GET_SIZE stI.mem (32 + szSum l - 8) - 16 from rfl,
        GET_SIZE_eq hGh (by omega) (by norm_num),
        show 32 + szSum l + (sz + szn) - 16 = 32 + szSum l + sz + szn - 16 by omega]
      have : GET stI.mem (32 + szSum l + sz + szn - 16) = PACK (sz + szn) 0 := by
        rw [frame_GET hframeI (fun y hy => by
          rcases List.mem_cons.mp hy with rfl | hy
          · exact Or.inr (by omega)
          · exact hT_nbftr y (hmem_f12 y hy))]
        exact hGftrB
      rw [this, hlfs, hhfs, show sz + 0 + szn = sz + szn by omega]
    · rw [allocOff_append, allocOff_append, allocOff_merge_eq]
    · intro x hx
      obtain ⟨ua, sza, ala, va, hbsA, hala, hx1, hx2⟩ := hx
      obtain ⟨-, hsza32, -, -, -, -⟩ := blocksOK_at hblk hbsA
      have hd1 : szSum ua + sza ≤ szSum l ∨ szSum l + sz ≤ szSum ua := by
        rcases append_middle_cases (hbsA.symm.trans rfl) with ⟨heq, heq2, -⟩ | ⟨w, hww⟩ | ⟨w, hww⟩
        · exact absurd (by have := congrArg Prod.snd heq2; simpa using this) hala
        · left
          have : szSum l = szSum ua + sza + szSum w := by rw [hww, szSum_pos_decomp]
          omega
        · right
          have : szSum ua = szSum l + sz + szSum w := by rw [hww, szSum_pos_decomp]
          omega
      have hd2 : szSum ua + sza ≤ szSum l + sz ∨ szSum l + sz + szn ≤ szSum ua := by
        rcases append_middle_cases (hbsA.symm.trans hbs2) with ⟨heq, heq2, -⟩ | ⟨w, hww⟩ | ⟨w, hww⟩
        · exact absurd (by have := congrArg Prod.snd heq2; simpa using this) hala
        · left
          have : szSum (l ++ [(sz, 0)]) = szSum ua + sza + szSum w := by
            rw [hww, szSum_pos_decomp]
          rw [hsum2] at this
          omega
        · right
          have : szSum ua = szSum (l ++ [(sz, 0)]) + szn + szSum w := by
            rw [hww, szSum_pos_decomp]
          rw [hsum2] at this
          omega
      have hI := hframe_alloc x ⟨ua, sza, ala, va, hbsA, hala, hx1, hx2⟩
      have : stI.mem x = mB x := by
        apply hframeI
        intro y hy
        rcases List.mem_cons.mp hy with rfl | hy
        · exact hI _ (by simp)
        · exact hI y (by simp [hmem_f12 y hy])
      rw [this, hmB]
      rw [PUT_out (by omega), hmA, PUT_out (by omega), hm1]
      exact hframe1 x (fun y hy => hI y (by simp [hy]))

  · -- Case 3: prev free, next allocated
    have hbsP : l ++ (sz, 0) :: r = lu ++ (szp, 0) :: ((sz, 0) :: r) := by
      rw [hl]
      simp
    have hfl32 : freeBps 32 l = freeBps 32 lu ++ [32 + szSum lu] := by
      rw [hl, freeBps_append]
      rfl
    obtain ⟨-, -, -, -, hphdr, -⟩ := blocksOK_at hblk hbsP
    have hpb_fl : 32 + szSum lu ∈ fl := by
      apply hbij2.mem_iff.mpr
      apply List.mem_append.mpr
      left
      rw [hfl32]
      simp
    obtain ⟨f1, f2, hfl_eq⟩ := List.append_of_mem hpb_fl
    have hnodup_mid :
        ((32 + szSum l) :: (freeBps 32 l ++ freeBps (32 + szSum l + sz) r)).Nodup := by
      apply List.Perm.nodup _ hnodupF
      rw [hfull]
      exact List.perm_middle
    have hnodup_fl : fl.Nodup :=
      List.Perm.nodup hbij2.symm (List.nodup_cons.mp hnodup_mid).2
    have hpb_notin : 32 + szSum lu ∉ f1 ++ f2 := by
      have h1 : ((32 + szSum lu) :: (f1 ++ f2)).Nodup := by
        apply List.Perm.nodup _ hnodup_fl
        rw [hfl_eq]
        exact List.perm_middle
      exact (List.nodup_cons.mp h1).1
    -- run delete_free on the previous block
    have hdel := @delete_free_spec st (32 + szSum lu) f1 f2
      (by rw [← hfl_eq]; exact hw.flist)
      (by rw [← hfl_eq]; exact fun x hx => hlt x (by simp [hx]))
      (by rw [← hfl_eq]; exact hpw_fl)
    obtain ⟨hbrk1, hhlp1, hfp1, hflist1, hframe1⟩ := hdel
    rw [← hfl_eq] at hframe1
    have hG1 : ∀ T, (∀ y ∈ fl, T + 8 ≤ y ∨ y + 16 ≤ T) →
        GET (delete_free st (32 + szSum lu)).mem T = GET st.mem T :=
      fun T hT => frame_GET hframe1 hT
    have hT_phdr : ∀ y ∈ fl, (32 + szSum lu - 8) + 8 ≤ y ∨ y + 16 ≤ 32 + szSum lu - 8 := by
      intro y hy
      rcases link_zone_cases hblk (hmemfl y hy) hbsP with ⟨h0, -⟩ | h0 | h0
      · left
        omega
      · right
        exact h0
      · left
        omega
    have hT_hdr' : ∀ y ∈ fl, (32 + szSum l - 8) + 8 ≤ y ∨ y + 16 ≤ 32 + szSum l - 8 :=
      fun y hy => hT_hdr y (by simp [hy])
    have hT_ftr' : ∀ y ∈ fl,
        (32 + szSum l + sz - 16) + 8 ≤ y ∨ y + 16 ≤ 32 + szSum l + sz - 16 :=
      fun y hy => hT_ftr y (by simp [hy])
    have hGhdr1 : GET (delete_free st (32 + szSum lu)).mem (32 + szSum l - 8) = PACK sz 0 := by
      rw [hG1 _ hT_hdr']
      exact hhdr
    have hGphdr1 : GET (delete_free st (32 + szSum lu)).mem (32 + szSum lu - 8)
        = PACK szp 0 := by
      rw [hG1 _ hT_phdr]
      exact hphdr
    have hSZp : GET_SIZE (delete_free st (32 + szSum lu)).mem
        (HDRP (32 + szSum lu)) = szp := by
      rw [show HDRP (32 + szSum lu) = 32 + szSum lu - 8 from rfl]
      exact GET_SIZE_eq hGphdr1 hszp8 (by norm_num)
    have hSZ0 : GET_SIZE st.mem (HDRP (32 + szSum l)) = sz := by
      rw [show HDRP (32 + szSum l) = 32 + szSum l - 8 from rfl]
      exact GET_SIZE_eq hhdr hsz8 (by norm_num)
    have hFTR1 : FTRP (delete_free st (32 + szSum lu)).mem (32 + szSum l)
        = 32 + szSum l + sz - 16 := by
      unfold FTRP
      rw [show HDRP (32 + szSum l) = 32 + szSum l - 8 from rfl,
        GET_SIZE_eq hGhdr1 hsz8 (by norm_num)]
      simp only [DSIZE, WSIZE]
    have hpack_lt : PACK (sz + szp) 0 < M64 := by
      rw [pack_eq (by omega) (by norm_num)]
      have := hw.brk_ub
      omega
    have hblk1 : blocksOK (delete_free st (32 + szSum lu)).mem 32
        (lu ++ (szp, 0) :: (sz, 0) :: r) st.brk = true := by
      rw [← hbsP]
      apply blocksOK_frame hblk (by norm_num) hframe1
      intro y hy
      obtain ⟨uy, szy, vy, h1, h2, h3⟩ := hLpay y (by simp [hy])
      exact ⟨uy, szy, 0, vy, h1, h2, h3⟩
    obtain ⟨hblk1l, hblk1m⟩ := blocksOK_append.mp hblk1
    obtain ⟨-, hblk1m2⟩ := blocksOK_cons.mp hblk1m
    obtain ⟨-, hblk1rt⟩ := blocksOK_cons.mp hblk1m2
    set m1 := (delete_free st (32 + szSum lu)).mem with hm1
    set mA := PUT m1 (32 + szSum l + sz - 16) (PACK (sz + szp) 0) with hmA
    set mB := PUT mA (32 + szSum lu - 8) (PACK (sz + szp) 0) with hmB
    have hGhdrB : GET mB (32 + szSum lu - 8) = PACK (sz + szp) 0 := by
      rw [hmB, GET_PUT_self_lt hpack_lt]
    have hGftrB : GET mB (32 + szSum l + sz - 16) = PACK (sz + szp) 0 := by
      rw [hmB, GET_PUT_out (by omega), hmA, GET_PUT_self_lt hpack_lt]
    have hblk2 : blocksOK mB 32 (lu ++ (sz + szp, 0) :: r) st.brk = true := by
      apply blocksOK_append.mpr
      constructor
      · apply blocksOK_mono hblk1l (by norm_num)
        intro w hw1 hw2
        rw [hmB, GET_PUT_out (by omega), hmA, GET_PUT_out (by omega)]
      · apply blocksOK_cons.mpr
        refine ⟨⟨by norm_num, by omega, by omega, by omega, ?_, ?_⟩, ?_⟩
        · exact hGhdrB
        · rw [show 32 + szSum lu + (sz + szp) - 16 = 32 + szSum l + sz - 16 by omega]
          exact hGftrB
        · rw [show 32 + szSum lu + (sz + szp) = 32 + szSum lu + szp + sz by omega]
          apply blocksOK_mono hblk1rt (by omega)
          intro w hw1 hw2
          rw [hmB, GET_PUT_out (by omega), hmA, GET_PUT_out (by omega)]
    have hmem_f12 : ∀ x ∈ f1 ++ f2, x ∈ fl := by
      intro x hx
      rw [hfl_eq]
      rcases List.mem_append.mp hx with h' | h'
      · exact List.mem_append.mpr (Or.inl h')
      · exact List.mem_append.mpr (Or.inr (by simp [h']))
    have hflistB : flistOK mB (delete_free st (32 + szSum lu)).free_listp 0
        (f1 ++ f2) = true := by
      apply flistOK_mono hflist1
      intro w hw'
      have hw1 := hT_phdr w (hmem_f12 w hw')
      have hw2 := hT_ftr' w (hmem_f12 w hw')
      constructor
      · rw [hmB, GET_PUT_out (by omega), hmA, GET_PUT_out (by omega)]
      · rw [hmB, GET_PUT_out (by omega), hmA, GET_PUT_out (by omega)]
    have hpwI : ((32 + szSum lu) :: (f1 ++ f2)).Pairwise Sep16 := by
      refine (List.Perm.pairwise_iff (fun {a b} h => hsymm a b h) ?_).mp hpw_fl
      rw [hfl_eq]
      exact List.perm_middle
    obtain ⟨stI, hrunI, hfpI, hbrkI, hhlpI, hflistI, hframeI⟩ :=
      @insert_free_spec { delete_free st (32 + szSum lu) with mem := mB }
        (32 + szSum lu) (f1 ++ f2) hflistB
        (by show GET_ALLOC mB (HDRP (32 + szSum lu)) = 0
            rw [show HDRP (32 + szSum lu) = 32 + szSum lu - 8 from rfl]
            exact GET_ALLOC_eq hGhdrB (by omega) (by norm_num))
        (by omega)
        (by intro x hx
            rcases List.mem_cons.mp hx with rfl | hx
            · exact hlt _ (by simp [hpb_fl])
            · exact hlt x (by simp [hmem_f12 x hx]))
        hpwI
    -- the new block list and free list
    have hbij2' := hbij2
    rw [hfl32, hfl_eq] at hbij2'
    have heqm : (freeBps 32 lu ++ [32 + szSum lu]) ++ freeBps (32 + szSum l + sz) r
        = freeBps 32 lu ++ (32 + szSum lu) :: freeBps (32 + szSum l + sz) r := by
      simp
    rw [heqm] at hbij2'
    have hpermA : ((32 + szSum lu) :: (f1 ++ f2)).Perm
        ((32 + szSum lu) :: (freeBps 32 lu ++ freeBps (32 + szSum l + sz) r)) :=
      (List.perm_middle.symm.trans hbij2').trans List.perm_middle
    have hperm12 : (f1 ++ f2).Perm
        (freeBps 32 lu ++ freeBps (32 + szSum l + sz) r) :=
      hpermA.cons_inv
    have hfull2 : freeBps 32 (lu ++ (sz + szp, 0) :: r) =
        freeBps 32 lu ++ (32 + szSum lu) :: freeBps (32 + szSum l + sz) r := by
      rw [freeBps_full]
      simp
      rw [show 32 + szSum lu + (sz + szp) = 32 + szSum l + sz by omega]
    have hbijNew : ((32 + szSum lu) :: (f1 ++ f2)).Perm
        (freeBps 32 (lu ++ (sz + szp, 0) :: r)) := by
      refine List.Perm.trans (hperm12.cons _) ?_
      rw [hfull2]
      exact List.perm_middle.symm
    have hbp_in2 : 32 + szSum lu ∈ freeBps 32 (lu ++ (sz + szp, 0) :: r) := by
      rw [hfull2]
      simp
    have hnal := hw.noadjl
    rw [hl] at hnal
    obtain ⟨hnal1, -, hnalbd⟩ := List.chain'_append.mp hnal
    have hnoadj2 : NoAdjFree (lu ++ (sz + szp, 0) :: r) := by
      apply List.chain'_append.mpr
      refine ⟨hnal1, ?_, ?_⟩
      · apply List.chain'_cons'.mpr
        refine ⟨?_, hw.noadjr⟩
        intro b hb
        rcases hrshape with rfl | ⟨szn, rt, rfl⟩
        · simp at hb
        · simp at hb
          subst hb
          simp
      · intro x hx y hy
        simp at hy
        subst hy
        exact hnalbd x hx (szp, 0) (by simp)
    -- frames composed down to the original memory
    have hGETC : ∀ T, (∀ y ∈ (32 + szSum l) :: fl, T + 8 ≤ y ∨ y + 16 ≤ T) →
        (T + 8 ≤ 32 + szSum lu - 8 ∨ 32 + szSum lu ≤ T) →
        (T + 8 ≤ 32 + szSum l + sz - 16 ∨ 32 + szSum l + sz - 8 ≤ T) →
        GET stI.mem T = GET st.mem T := by
      intro T h1 h2 h3
      rw [frame_GET hframeI (fun y hy => by
        rcases List.mem_cons.mp hy with rfl | hy
        · exact h1 _ (by simp [hpb_fl])
        · exact h1 y (by simp [hmem_f12 y hy]))]
      rw [hmB, GET_PUT_out (by omega), hmA, GET_PUT_out (by omega), hm1]
      exact frame_GET hframe1 (fun y hy => h1 y (by simp [hy]))
    refine ⟨32 + szSum lu, stI, lu ++ (sz + szp, 0) :: r, (32 + szSum lu) :: (f1 ++ f2),
      ?_, ?_, hfpI, ?_, ?_, by omega, ?_, ?_, hbp_in2, hnoadj2, ?_, ?_⟩
    · show coalesce st (32 + szSum l) = .ok (32 + szSum lu, stI)
      simp only [coalesce]
      rw [if_neg (fun h => h.1 hpa), if_neg (fun h => h.1 hpa), if_pos ⟨hpa, hna⟩,
        hpv_eq, hSZ0, hSZp, hFTR1,
        show HDRP (32 + szSum lu) = 32 + szSum lu - 8 from rfl]
      rw [← hm1, ← hmA, ← hmB, hrunI]
      rfl
    · refine ⟨?_, ?_, ?_, ?_, ?_, ?_, ?_, ?_, ?_, hnoadj2⟩
      · rw [hhlpI]
        show (delete_free st (32 + szSum lu)).heap_listp = 16
        rw [hhlp1]
        exact hw.hlp
      · rw [hbrkI]
        show (delete_free st (32 + szSum lu)).brk % 8 = 0
        rw [hbrk1]
        exact hw.brk_align
      · rw [hbrkI]
        show (delete_free st (32 + szSum lu)).brk ≤ M64
        rw [hbrk1]
        exact hw.brk_ub
      · rw [hGETC 8 (fun y hy => Or.inl (by have := (hyB y hy).1; omega))
          (by omega) (by omega)]
        exact hw.pro_hdr
      · rw [hGETC 16 (fun y hy => Or.inl (by have := (hyB y hy).1; omega))
          (by omega) (by omega)]
        exact hw.pro_ftr
      · rw [hbrkI]
        show GET stI.mem ((delete_free st (32 + szSum lu)).brk - 8) = PACK 0 1
        rw [hbrk1]
        rw [hGETC (st.brk - 8) (fun y hy => Or.inr (by have := (hyB y hy).2; omega))
          (by omega) (by omega)]
        exact hw.epi
      · rw [hbrkI]
        show blocksOK stI.mem 32 (lu ++ (sz + szp, 0) :: r)
          (delete_free st (32 + szSum lu)).brk = true
        rw [hbrk1]
        apply blocksOK_frame hblk2 (by norm_num) hframeI
        intro y hy
        rcases List.mem_cons.mp hy with rfl | hy
        · obtain ⟨uy, szy, vy, h1, h2, h3⟩ := freeBps_link_in_payload hblk2 hbp_in2
          exact ⟨uy, szy, 0, vy, h1, h2, h3⟩
        · have hy' : y ∈ freeBps 32 (lu ++ (sz + szp, 0) :: r) := by
            rw [hfull2]
            have := hperm12.mem_iff.mp hy
            rcases List.mem_append.mp this with h' | h'
            · exact List.mem_append.mpr (Or.inl h')
            · exact List.mem_append.mpr (Or.inr (by simp [h']))
          obtain ⟨uy, szy, vy, h1, h2, h3⟩ := freeBps_link_in_payload hblk2 hy'
          exact ⟨uy, szy, 0, vy, h1, h2, h3⟩
      · rw [hfpI]
        exact hflistI
      · exact hbijNew
    · rw [hbrkI]
      show (delete_free st (32 + szSum lu)).brk = st.brk
      exact hbrk1
    · rw [hhlpI]
      show (delete_free st (32 + szSum lu)).heap_listp = st.heap_listp
      exact hhlp1
    · rw [show HDRP (32 + szSum lu) = 32 + szSum lu - 8 from rfl]
      have : GET stI.mem (32 + szSum lu - 8) = PACK (sz + szp) 0 := by
        rw [frame_GET hframeI (fun y hy => by
          rcases List.mem_cons.mp hy with rfl | hy
          · exact Or.inl (by omega)
          · exact hT_phdr y (hmem_f12 y hy))]
        exact hGhdrB
      rw [this, hlfs, hhfs, show sz + szp + 0 = sz + szp by omega]
    · have hGh : GET stI.mem (32 + szSum lu - 8) = PACK (sz + szp) 0 := by
        rw [frame_GET hframeI (fun y hy => by
          rcases List.mem_cons.mp hy with rfl | hy
          · exact Or.inl (by omega)
          · exact hT_phdr y (hmem_f12 y hy))]
        exact hGhdrB
      rw [show FTRP stI.mem (32 + szSum lu) =
          32 + szSum lu + GET_SIZE stI.mem (32 + szSum lu - 8) - 16 from rfl,
        GET_SIZE_eq hGh (by omega) (by norm_num),
        show 32 + szSum lu + (sz + szp) - 16 = 32 + szSum l + sz - 16 by omega]
      have : GET stI.mem (32 + szSum l + sz - 16) = PACK (sz + szp) 0 := by
        rw [frame_GET hframeI (fun y hy => by
          rcases List.mem_cons.mp hy with rfl | hy
          · exact Or.inr (by omega)
          · exact hT_ftr' y (hmem_f12 y hy))]
        exact hGftrB
      rw [this, hlfs, hhfs, show sz + szp + 0 = sz + szp by omega]
    · rw [hl, List.append_assoc, List.singleton_append, allocOff_append, allocOff_append,
        show sz + szp = szp + sz by omega, allocOff_merge_eq]
    · intro x hx
      obtain ⟨ua, sza, ala, va, hbsA, hala, hx1, hx2⟩ := hx
      obtain ⟨-, hsza32, -, -, -, -⟩ := blocksOK_at hblk hbsA
      have hd1 : szSum ua + sza ≤ szSum l ∨ szSum l + sz ≤ szSum ua := by
        rcases append_middle_cases (hbsA.symm.trans rfl) with ⟨heq, heq2, -⟩ | ⟨w, hww⟩ | ⟨w, hww⟩
        · exact absurd (by have := congrArg Prod.snd heq2; simpa using this) hala
        · left
          have : szSum l = szSum ua + sza + szSum w := by rw [hww, szSum_pos_decomp]
          omega
        · right
          have : szSum ua = szSum l + sz + szSum w := by rw [hww, szSum_pos_decomp]
          omega
      have hd2 : szSum ua + sza ≤ szSum lu ∨ szSum lu + szp ≤ szSum ua := by
        rcases append_middle_cases (hbsA.symm.trans hbsP) with ⟨heq, heq2, -⟩ | ⟨w, hww⟩ | ⟨w, hww⟩
        · exact absurd (by have := congrArg Prod.snd heq2; simpa using this) hala
        · left
          have : szSum lu = szSum ua + sza + szSum w := by rw [hww, szSum_pos_decomp]
          omega
        · right
          have : szSum ua = szSum lu + szp + szSum w := by rw [hww, szSum_pos_decomp]
          omega
      have hI := hframe_alloc x ⟨ua, sza, ala, va, hbsA, hala, hx1, hx2⟩
      have : stI.mem x = mB x := by
        apply hframeI
        intro y hy
        rcases List.mem_cons.mp hy with rfl | hy
        · exact hI _ (by simp [hpb_fl])
        · exact hI y (by simp [hmem_f12 y hy])
      rw [this, hmB]
      rw [PUT_out (by omega), hmA, PUT_out (by omega), hm1]
      exact hframe1 x (fun y hy => hI y (by simp [hy]))
  · -- Case 4: both prev and next free
    subst hr
    have hbsP4 : l ++ (sz, 0) :: (szn, 0) :: rt
        = lu ++ (szp, 0) :: ((sz, 0) :: (szn, 0) :: rt) := by
      rw [hl]
      simp
    have hfl32 : freeBps 32 l = freeBps 32 lu ++ [32 + szSum lu] := by
      rw [hl, freeBps_append]
      rfl
    have hFr : freeBps (32 + szSum l + sz) ((szn, 0) :: rt) =
        (32 + szSum l + sz) :: freeBps (32 + szSum l + sz + szn) rt := by
      simp [freeBps]
    have hbs2 : l ++ (sz, 0) :: (szn, 0) :: rt = (l ++ [(sz, 0)]) ++ (szn, 0) :: rt := by
      simp
    have hsum2 : szSum (l ++ [(sz, 0)]) = szSum l + sz := by
      rw [szSum_append, szSum_cons, szSum_nil]
      simp
    obtain ⟨-, -, -, hnble, hnhdr, hnftr⟩ := blocksOK_at hblk hbs2
    rw [hsum2, ← Nat.add_assoc] at hnble hnhdr hnftr
    obtain ⟨-, -, -, -, hphdr, -⟩ := blocksOK_at hblk hbsP4
    have hpb_fl : 32 + szSum lu ∈ fl := by
      apply hbij2.mem_iff.mpr
      apply List.mem_append.mpr
      left
      rw [hfl32]
      simp
    obtain ⟨f1, f2, hfl_eq⟩ := List.append_of_mem hpb_fl
    have hmem_f12 : ∀ x ∈ f1 ++ f2, x ∈ fl := by
      intro x hx
      rw [hfl_eq]
      rcases List.mem_append.mp hx with h' | h'
      · exact List.mem_append.mpr (Or.inl h')
      · exact List.mem_append.mpr (Or.inr (by simp [h']))
    have hnb_fl : 32 + szSum l + sz ∈ fl := by
      apply hbij2.mem_iff.mpr
      apply List.mem_append.mpr
      right
      rw [hFr]
      simp
    have hnb_f12 : 32 + szSum l + sz ∈ f1 ++ f2 := by
      have h0 : 32 + szSum l + sz ≠ 32 + szSum lu := by omega
      have hmem := hnb_fl
      rw [hfl_eq] at hmem
      rcases List.mem_append.mp hmem with h' | h'
      · exact List.mem_append.mpr (Or.inl h')
      · rcases List.mem_cons.mp h' with h2 | h2
        · exact absurd h2 h0
        · exact List.mem_append.mpr (Or.inr h2)
    obtain ⟨g1, g2, hgg⟩ := List.append_of_mem hnb_f12
    have hmem_g12 : ∀ x ∈ g1 ++ g2, x ∈ f1 ++ f2 := by
      intro x hx
      rw [hgg]
      rcases List.mem_append.mp hx with h' | h'
      · exact List.mem_append.mpr (Or.inl h')
      · exact List.mem_append.mpr (Or.inr (by simp [h']))
    have hpw_f12 : (f1 ++ f2).Pairwise Sep16 := by
      apply List.Pairwise.sublist _ hpw_fl
      rw [hfl_eq]
      exact (List.sublist_cons_self _ _).append_left _
    -- delete the previous block, then the next block
    have hdel := @delete_free_spec st (32 + szSum lu) f1 f2
      (by rw [← hfl_eq]; exact hw.flist)
      (by rw [← hfl_eq]; exact fun x hx => hlt x (by simp [hx]))
      (by rw [← hfl_eq]; exact hpw_fl)
    obtain ⟨hbrk1, hhlp1, hfp1, hflist1, hframe1⟩ := hdel
    rw [← hfl_eq] at hframe1
    have hdel2 := @delete_free_spec (delete_free st (32 + szSum lu)) (32 + szSum l + sz) g1 g2
      (by rw [← hgg]; exact hflist1)
      (by rw [← hgg]; exact fun x hx => hlt x (by simp [hmem_f12 x hx]))
      (by rw [← hgg]; exact hpw_f12)
    obtain ⟨hbrk2, hhlp2, hfp2, hflist2, hframe2⟩ := hdel2
    rw [← hgg] at hframe2
    have hframe12 : ∀ x, (∀ y ∈ fl, x < y ∨ y + 16 ≤ x) →
        (delete_free (delete_free st (32 + szSum lu)) (32 + szSum l + sz)).mem x
          = st.mem x := by
      intro x hx
      rw [hframe2 x (fun y hy => hx y (hmem_f12 y hy))]
      exact hframe1 x hx
    have hG2 : ∀ T, (∀ y ∈ fl, T + 8 ≤ y ∨ y + 16 ≤ T) →
        GET (delete_free (delete_free st (32 + szSum lu)) (32 + szSum l + sz)).mem T
          = GET st.mem T :=
      fun T hT => frame_GET hframe12 hT
    have hT_phdr : ∀ y ∈ fl, (32 + szSum lu - 8) + 8 ≤ y ∨ y + 16 ≤ 32 + szSum lu - 8 := by
      intro y hy
      rcases link_zone_cases hblk (hmemfl y hy) hbsP4 with ⟨h0, -⟩ | h0 | h0
      · left
        omega
      · right
        exact h0
      · left
        omega
    have hT_nbhdr : ∀ y ∈ fl, (32 + szSum l + sz - 8) + 8 ≤ y ∨ y + 16 ≤ 32 + szSum l + sz - 8 := by
      intro y hy
      rcases link_zone_cases hblk (hmemfl y hy) hbs2 with ⟨h0, -⟩ | h0 | h0
      · rw [hsum2] at h0
        left
        omega
      · rw [hsum2] at h0
        right
        omega
      · rw [hsum2] at h0
        left
        omega
    have hT_nbftr : ∀ y ∈ fl,
        (32 + szSum l + sz + szn - 16) + 8 ≤ y ∨ y + 16 ≤ 32 + szSum l + sz + szn - 16 := by
      intro y hy
      rcases link_zone_cases hblk (hmemfl y hy) hbs2 with ⟨h0, -⟩ | h0 | h0
      · rw [hsum2] at h0
        right
        omega
      · rw [hsum2] at h0
        right
        omega
      · rw [hsum2] at h0
        left
        omega
    have hGphdr2 : GET (delete_free (delete_free st (32 + szSum lu)) (32 + szSum l + sz)).mem
        (32 + szSum lu - 8) = PACK szp 0 := by
      rw [hG2 _ hT_phdr]
      exact hphdr
    have hGnhdr2 : GET (delete_free (delete_free st (32 + szSum lu)) (32 + szSum l + sz)).mem
        (32 + szSum l + sz - 8) = PACK szn 0 := by
      rw [hG2 _ hT_nbhdr]
      exact hnhdr
    have hSZp2 : GET_SIZE (delete_free (delete_free st (32 + szSum lu)) (32 + szSum l + sz)).mem
        (HDRP (32 + szSum lu)) = szp := by
      rw [show HDRP (32 + szSum lu) = 32 + szSum lu - 8 from rfl]
      exact GET_SIZE_eq hGphdr2 hszp8 (by norm_num)
    have hSZn2 : GET_SIZE (delete_free (delete_free st (32 + szSum lu)) (32 + szSum l + sz)).mem
        (HDRP (32 + szSum l + sz)) = szn := by
      rw [show HDRP (32 + szSum l + sz) = 32 + szSum l + sz - 8 from rfl]
      exact GET_SIZE_eq hGnhdr2 hszn8 (by norm_num)
    have hSZ0 : GET_SIZE st.mem (HDRP (32 + szSum l)) = sz := by
      rw [show HDRP (32 + szSum l) = 32 + szSum l - 8 from rfl]
      exact GET_SIZE_eq hhdr hsz8 (by norm_num)
    have hpack_lt : PACK (sz + szp + szn) 0 < M64 := by
      rw [pack_eq (by omega) (by norm_num)]
      have := hw.brk_ub
      omega
    have hGnA : GET (PUT (delete_free (delete_free st (32 + szSum lu)) (32 + szSum l + sz)).mem
        (32 + szSum lu - 8) (PACK (sz + szp + szn) 0)) (32 + szSum l + sz - 8)
        = PACK szn 0 := by
      rw [GET_PUT_out (by omega)]
      exact hGnhdr2
    have hFTRmA : FTRP (PUT (delete_free (delete_free st (32 + szSum lu)) (32 + szSum l + sz)).mem
        (32 + szSum lu - 8) (PACK (sz + szp + szn) 0)) (32 + szSum l + sz)
        = 32 + szSum l + sz + szn - 16 := by
      unfold FTRP
      rw [show HDRP (32 + szSum l + sz) = 32 + szSum l + sz - 8 from rfl,
        GET_SIZE_eq hGnA hszn8 (by norm_num)]
      simp only [DSIZE, WSIZE]
    have hblk1 : blocksOK (delete_free (delete_free st (32 + szSum lu)) (32 + szSum l + sz)).mem
        32 (lu ++ (szp, 0) :: (sz, 0) :: (szn, 0) :: rt) st.brk = true := by
      rw [← hbsP4]
      apply blocksOK_frame hblk (by norm_num) hframe12
      intro y hy
      obtain ⟨uy, szy, vy, h1, h2, h3⟩ := hLpay y (by simp [hy])
      exact ⟨uy, szy, 0, vy, h1, h2, h3⟩
    obtain ⟨hblk1l, hblk1m⟩ := blocksOK_append.mp hblk1
    obtain ⟨-, hblk1m2⟩ := blocksOK_cons.mp hblk1m
    obtain ⟨-, hblk1m3⟩ := blocksOK_cons.mp hblk1m2
    obtain ⟨-, hblk1rt⟩ := blocksOK_cons.mp hblk1m3
    set m2 := (delete_free (delete_free st (32 + szSum lu)) (32 + szSum l + sz)).mem with hm2
    set mA := PUT m2 (32 + szSum lu - 8) (PACK (sz + szp + szn) 0) with hmA
    set mB := PUT mA (32 + szSum l + sz + szn - 16) (PACK (sz + szp + szn) 0) with hmB
    have hGhdrB : GET mB (32 + szSum lu - 8) = PACK (sz + szp + szn) 0 := by
      rw [hmB, GET_PUT_out (by omega), hmA, GET_PUT_self_lt hpack_lt]
    have hGftrB : GET mB (32 + szSum l + sz + szn - 16) = PACK (sz + szp + szn) 0 := by
      rw [hmB, GET_PUT_self_lt hpack_lt]
    have hblk2 : blocksOK mB 32 (lu ++ (sz + szp + szn, 0) :: rt) st.brk = true := by
      apply blocksOK_append.mpr
      constructor
      · apply blocksOK_mono hblk1l (by norm_num)
        intro w hw1 hw2
        rw [hmB, GET_PUT_out (by omega), hmA, GET_PUT_out (by omega)]
      · apply blocksOK_cons.mpr
        refine ⟨⟨by norm_num, by omega, by omega, by omega, ?_, ?_⟩, ?_⟩
        · exact hGhdrB
        · rw [show 32 + szSum lu + (sz + szp + szn) - 16 = 32 + szSum l + sz + szn - 16 by omega]
          exact hGftrB
        · rw [show 32 + szSum lu + (sz + szp + szn) = 32 + szSum lu + szp + sz + szn by omega]
          apply blocksOK_mono hblk1rt (by omega)
          intro w hw1 hw2
          rw [hmB, GET_PUT_out (by omega), hmA, GET_PUT_out (by omega)]
    have hflistB : flistOK mB
        (delete_free (delete_free st (32 + szSum lu)) (32 + szSum l + sz)).free_listp 0
        (g1 ++ g2) = true := by
      apply flistOK_mono hflist2
      intro w hw'
      have hw1 := hT_phdr w (hmem_f12 w (hmem_g12 w hw'))
      have hw2 := hT_nbftr w (hmem_f12 w (hmem_g12 w hw'))
      constructor
      · rw [hmB, GET_PUT_out (by omega), hmA, GET_PUT_out (by omega)]
      · rw [hmB, GET_PUT_out (by omega), hmA, GET_PUT_out (by omega)]
    have hpwI : ((32 + szSum lu) :: (g1 ++ g2)).Pairwise Sep16 := by
      have h1 : ((32 + szSum lu) :: (f1 ++ f2)).Pairwise Sep16 := by
        refine (List.Perm.pairwise_iff (fun {a b} h => hsymm a b h) ?_).mp hpw_fl
        rw [hfl_eq]
        exact List.perm_middle
      apply List.Pairwise.sublist _ h1
      apply List.Sublist.cons₂
      rw [hgg]
      exact (List.sublist_cons_self _ _).append_left _
    obtain ⟨stI, hrunI, hfpI, hbrkI, hhlpI, hflistI, hframeI⟩ :=
      @insert_free_spec
        { delete_free (delete_free st (32 + szSum lu)) (32 + szSum l + sz) with mem := mB }
        (32 + szSum lu) (g1 ++ g2) hflistB
        (by show GET_ALLOC mB (HDRP (32 + szSum lu)) = 0
            rw [show HDRP (32 + szSum lu) = 32 + szSum lu - 8 from rfl]
            exact GET_ALLOC_eq hGhdrB (by omega) (by norm_num))
        (by omega)
        (by intro x hx
            rcases List.mem_cons.mp hx with rfl | hx
            · exact hlt _ (by simp [hpb_fl])
            · exact hlt x (by simp [hmem_f12 x (hmem_g12 x hx)]))
        hpwI
    -- the new block list and free list
    have hbij2' := hbij2
    rw [hFr, hfl32, hfl_eq] at hbij2'
    have heqm : (freeBps 32 lu ++ [32 + szSum lu])
          ++ (32 + szSum l + sz) :: freeBps (32 + szSum l + sz + szn) rt
        = freeBps 32 lu
          ++ (32 + szSum lu) :: (32 + szSum l + sz) :: freeBps (32 + szSum l + sz + szn) rt := by
      simp
    rw [heqm] at hbij2'
    have hpermA : ((32 + szSum lu) :: (f1 ++ f2)).Perm
        ((32 + szSum lu)
          :: (freeBps 32 lu ++ (32 + szSum l + sz) :: freeBps (32 + szSum l + sz + szn) rt)) :=
      (List.perm_middle.symm.trans hbij2').trans List.perm_middle
    have hperm_f12 : (f1 ++ f2).Perm
        (freeBps 32 lu ++ (32 + szSum l + sz) :: freeBps (32 + szSum l + sz + szn) rt) :=
      hpermA.cons_inv
    have hbij3 := hperm_f12
    rw [hgg] at hbij3
    have hpermB : ((32 + szSum l + sz) :: (g1 ++ g2)).Perm
        ((32 + szSum l + sz) :: (freeBps 32 lu ++ freeBps (32 + szSum l + sz + szn) rt)) :=
      (List.perm_middle.symm.trans hbij3).trans List.perm_middle
    have hpermgg : (g1 ++ g2).Perm
        (freeBps 32 lu ++ freeBps (32 + szSum l + sz + szn) rt) :=
      hpermB.cons_inv
    have hfull2 : freeBps 32 (lu ++ (sz + szp + szn, 0) :: rt) =
        freeBps 32 lu ++ (32 + szSum lu) :: freeBps (32 + szSum l + sz + szn) rt := by
      rw [freeBps_full]
      simp
      rw [show 32 + szSum lu + (sz + szp + szn) = 32 + szSum l + sz + szn by omega]
    have hbijNew : ((32 + szSum lu) :: (g1 ++ g2)).Perm
        (freeBps 32 (lu ++ (sz + szp + szn, 0) :: rt)) := by
      refine List.Perm.trans (hpermgg.cons _) ?_
      rw [hfull2]
      exact List.perm_middle.symm
    have hbp_in2 : 32 + szSum lu ∈ freeBps 32 (lu ++ (sz + szp + szn, 0) :: rt) := by
      rw [hfull2]
      simp
    have hnal := hw.noadjl
    rw [hl] at hnal
    obtain ⟨hnal1, -, hnalbd⟩ := List.chain'_append.mp hnal
    have hnoadj2 : NoAdjFree (lu ++ (sz + szp + szn, 0) :: rt) := by
      apply List.chain'_append.mpr
      refine ⟨hnal1, ?_, ?_⟩
      · apply List.chain'_cons'.mpr
        refine ⟨?_, (List.chain'_cons'.mp hw.noadjr).2⟩
        intro b hb
        have := (List.chain'_cons'.mp hw.noadjr).1 b hb
        simpa using this
      · intro x hx y hy
        simp at hy
        subst hy
        exact hnalbd x hx (szp, 0) (by simp)
    -- frames composed down to the original memory
    have hGETC : ∀ T, (∀ y ∈ (32 + szSum l) :: fl, T + 8 ≤ y ∨ y + 16 ≤ T) →
        (T + 8 ≤ 32 + szSum lu - 8 ∨ 32 + szSum lu ≤ T) →
        (T + 8 ≤ 32 + szSum l + sz + szn - 16 ∨ 32 + szSum l + sz + szn - 8 ≤ T) →
        GET stI.mem T = GET st.mem T := by
      intro T h1 h2 h3
      rw [frame_GET hframeI (fun y hy => by
        rcases List.mem_cons.mp hy with rfl | hy
        · exact h1 _ (by simp [hpb_fl])
        · exact h1 y (by simp [hmem_f12 y (hmem_g12 y hy)]))]
      rw [hmB, GET_PUT_out (by omega), hmA, GET_PUT_out (by omega), hm2]
      exact frame_GET hframe12 (fun y hy => h1 y (by simp [hy]))
    refine ⟨32 + szSum lu, stI, lu ++ (sz + szp + szn, 0) :: rt, (32 + szSum lu) :: (g1 ++ g2),
      ?_, ?_, hfpI, ?_, ?_, by omega, ?_, ?_, hbp_in2, hnoadj2, ?_, ?_⟩
    · show coalesce st (32 + szSum l) = .ok (32 + szSum lu, stI)
      simp only [coalesce]
      rw [if_neg (fun h => h.1 hpa), if_neg (fun h => h.1 hpa), if_neg (fun h => h.2 hna),
        hpv_eq, hw.next_blkp, hSZ0, hSZp2, hSZn2,
        show HDRP (32 + szSum lu) = 32 + szSum lu - 8 from rfl]
      rw [← hm2, ← hmA, hFTRmA, ← hmB, hrunI]
      rfl
    · refine ⟨?_, ?_, ?_, ?_, ?_, ?_, ?_, ?_, ?_, hnoadj2⟩
      · rw [hhlpI]
        show (delete_free (delete_free st (32 + szSum lu)) (32 + szSum l + sz)).heap_listp = 16
        rw [hhlp2, hhlp1]
        exact hw.hlp
      · rw [hbrkI]
        show (delete_free (delete_free st (32 + szSum lu)) (32 + szSum l + sz)).brk % 8 = 0
        rw [hbrk2, hbrk1]
        exact hw.brk_align
      · rw [hbrkI]
        show (delete_free (delete_free st (32 + szSum lu)) (32 + szSum l + sz)).brk ≤ M64
        rw [hbrk2, hbrk1]
        exact hw.brk_ub
      · rw [hGETC 8 (fun y hy => Or.inl (by have := (hyB y hy).1; omega))
          (by omega) (by omega)]
        exact hw.pro_hdr
      · rw [hGETC 16 (fun y hy => Or.inl (by have := (hyB y hy).1; omega))
          (by omega) (by omega)]
        exact hw.pro_ftr
      · rw [hbrkI]
        show GET stI.mem
          ((delete_free (delete_free st (32 + szSum lu)) (32 + szSum l + sz)).brk - 8) = PACK 0 1
        rw [hbrk2, hbrk1]
        rw [hGETC (st.brk - 8) (fun y hy => Or.inr (by have := (hyB y hy).2; omega))
          (by omega) (by omega)]
        exact hw.epi
      · rw [hbrkI]
        show blocksOK stI.mem 32 (lu ++ (sz + szp + szn, 0) :: rt)
          (delete_free (delete_free st (32 + szSum lu)) (32 + szSum l + sz)).brk = true
        rw [hbrk2, hbrk1]
        apply blocksOK_frame hblk2 (by norm_num) hframeI
        intro y hy
        rcases List.mem_cons.mp hy with rfl | hy
        · obtain ⟨uy, szy, vy, h1, h2, h3⟩ := freeBps_link_in_payload hblk2 hbp_in2
          exact ⟨uy, szy, 0, vy, h1, h2, h3⟩
        · have hy' : y ∈ freeBps 32 (lu ++ (sz + szp + szn, 0) :: rt) := by
            rw [hfull2]
            have := hpermgg.mem_iff.mp hy
            rcases List.mem_append.mp this with h' | h'
            · exact List.mem_append.mpr (Or.inl h')
            · exact List.mem_append.mpr (Or.inr (by simp [h']))
          obtain ⟨uy, szy, vy, h1, h2, h3⟩ := freeBps_link_in_payload hblk2 hy'
          exact ⟨uy, szy, 0, vy, h1, h2, h3⟩
      · rw [hfpI]
        exact hflistI
      · exact hbijNew
    · rw [hbrkI]
      show (delete_free (delete_free st (32 + szSum lu)) (32 + szSum l + sz)).brk = st.brk
      rw [hbrk2]
      exact hbrk1
    · rw [hhlpI]
      show (delete_free (delete_free st (32 + szSum lu)) (32 + szSum l + sz)).heap_listp
        = st.heap_listp
      rw [hhlp2]
      exact hhlp1
    · rw [show HDRP (32 + szSum lu) = 32 + szSum lu - 8 from rfl]
      have : GET stI.mem (32 + szSum lu - 8) = PACK (sz + szp + szn) 0 := by
        rw [frame_GET hframeI (fun y hy => by
          rcases List.mem_cons.mp hy with rfl | hy
          · exact Or.inl (by omega)
          · exact hT_phdr y (hmem_f12 y (hmem_g12 y hy)))]
        exact hGhdrB
      rw [this, hlfs, hhfs]
    · have hGh : GET stI.mem (32 + szSum lu - 8) = PACK (sz + szp + szn) 0 := by
        rw [frame_GET hframeI (fun y hy => by
          rcases List.mem_cons.mp hy with rfl | hy
          · exact Or.inl (by omega)
          · exact hT_phdr y (hmem_f12 y (hmem_g12 y hy)))]
        exact hGhdrB
      rw [show FTRP stI.mem (32 + szSum lu) =
          32 + szSum lu + GET_SIZE stI.mem (32 + szSum lu - 8) - 16 from rfl,
        GET_SIZE_eq hGh (by omega) (by norm_num),
        show 32 + szSum lu + (sz + szp + szn) - 16 = 32 + szSum l + sz + szn - 16 by omega]
      have : GET stI.mem (32 + szSum l + sz + szn - 16) = PACK (sz + szp + szn) 0 := by
        rw [frame_GET hframeI (fun y hy => by
          rcases List.mem_cons.mp hy with rfl | hy
          · exact Or.inr (by omega)
          · exact hT_nbftr y (hmem_f12 y (hmem_g12 y hy)))]
        exact hGftrB
      rw [this, hlfs, hhfs]
    · rw [hl, List.append_assoc, List.singleton_append, allocOff_append, allocOff_append,
        show sz + szp + szn = szp + sz + szn by omega, allocOff_merge3_eq]
    · intro x hx
      obtain ⟨ua, sza, ala, va, hbsA, hala, hx1, hx2⟩ := hx
      obtain ⟨-, hsza32, -, -, -, -⟩ := blocksOK_at hblk hbsA
      have hd2 : szSum ua + sza ≤ szSum lu ∨ szSum lu + szp ≤ szSum ua := by
        rcases append_middle_cases (hbsA.symm.trans hbsP4) with ⟨heq, heq2, -⟩ | ⟨w, hww⟩ | ⟨w, hww⟩
        · exact absurd (by have := congrArg Prod.snd heq2; simpa using this) hala
        · left
          have : szSum lu = szSum ua + sza + szSum w := by rw [hww, szSum_pos_decomp]
          omega
        · right
          have : szSum ua = szSum lu + szp + szSum w := by rw [hww, szSum_pos_decomp]
          omega
      have hd3 : szSum ua + sza ≤ szSum l + sz ∨ szSum l + sz + szn ≤ szSum ua := by
        rcases append_middle_cases (hbsA.symm.trans hbs2) with ⟨heq, heq2, -⟩ | ⟨w, hww⟩ | ⟨w, hww⟩
        · exact absurd (by have := congrArg Prod.snd heq2; simpa using this) hala
        · left
          have : szSum (l ++ [(sz, 0)]) = szSum ua + sza + szSum w := by
            rw [hww, szSum_pos_decomp]
          rw [hsum2] at this
          omega
        · right
          have : szSum ua = szSum (l ++ [(sz, 0)]) + szn + szSum w := by
            rw [hww, szSum_pos_decomp]
          rw [hsum2] at this
          omega
      have hI := hframe_alloc x ⟨ua, sza, ala, va, hbsA, hala, hx1, hx2⟩
      have hmx : stI.mem x = mB x := by
        apply hframeI
        intro y hy
        rcases List.mem_cons.mp hy with rfl | hy
        · exact hI _ (by simp [hpb_fl])
        · exact hI y (by simp [hmem_f12 y (hmem_g12 y hy)])
      rw [hmx, hmB]
      rw [PUT_out (by omega), hmA, PUT_out (by omega), hm2]
      exact hframe12 x (fun y hy => hI y (by simp [hy]))

/-! ### explicit_free -/

theorem lastFreeSize_le (l : List (Nat × Nat)) : lastFreeSize l ≤ szSum l := by
  unfold lastFreeSize
  rcases h : l.getLast? with - | ⟨szp, alp⟩
  · exact Nat.zero_le _
  · have hmem : (szp, alp) ∈ l := by
      obtain ⟨hne, hx⟩ := List.mem_getLast?_eq_getLast (show (szp, alp) ∈ l.getLast? from h)
      rw [hx]
      exact List.getLast_mem hne
    have hsz : szp ≤ szSum l :=
      List.single_le_sum (fun x _ => Nat.zero_le x) _ (List.mem_map_of_mem Prod.fst hmem)
    rcases alp with - | alp2
    · exact hsz
    · exact Nat.zero_le _

theorem explicit_free_spec {st : AllocState} {l r : List (Nat × Nat)} {sz : Nat} {fl : List Nat}
    (hW : WFon st (l ++ (sz, 1) :: r) fl) :
    ∃ st' bs' fl' q msz,
      explicit_free st (32 + szSum l) = .ok st' ∧ WFon st' bs' fl' ∧
      st'.brk = st.brk ∧ st'.heap_listp = st.heap_listp ∧
      allocOff 32 bs' = allocOff 32 (l ++ (sz, 0) :: r) ∧
      (∀ x, InAllocBytes (l ++ (sz, 0) :: r) x → st'.mem x = st.mem x) ∧
      q ∈ freeBps 32 bs' ∧ st'.free_listp = q ∧
      GET st'.mem (HDRP q) = PACK msz 0 ∧ q ≤ 32 + szSum l ∧
      32 + szSum l + sz ≤ q + msz := by
  obtain ⟨-, hsz32, hsz8, hszle, hhdr, hftr⟩ := blocksOK_at hW.blocks rfl
  have hpk : PACK sz 0 < M64 := by
    rw [pack_eq hsz8 (by norm_num)]
    have := hW.brk_ub
    omega
  have hSZ : GET_SIZE st.mem (HDRP (32 + szSum l)) = sz := by
    rw [show HDRP (32 + szSum l) = 32 + szSum l - 8 from rfl]
    exact GET_SIZE_eq hhdr hsz8 (by norm_num)
  have hFTRA : FTRP (PUT st.mem (32 + szSum l - 8) (PACK sz 0)) (32 + szSum l)
      = 32 + szSum l + sz - 16 := by
    unfold FTRP
    rw [show HDRP (32 + szSum l) = 32 + szSum l - 8 from rfl,
      GET_SIZE_eq (GET_PUT_self_lt hpk) hsz8 (by norm_num)]
    simp only [DSIZE, WSIZE]
  obtain ⟨hblkl, hblkm⟩ := blocksOK_append.mp hW.blocks
  obtain ⟨-, hblkr⟩ := blocksOK_cons.mp hblkm
  set mA := PUT st.mem (32 + szSum l - 8) (PACK sz 0) with hmA
  set mB := PUT mA (32 + szSum l + sz - 16) (PACK sz 0) with hmB
  set mC := PUT mB (32 + szSum l) 0 with hmC
  set mD := PUT mC (32 + szSum l + 8) 0 with hmD
  have hGD : ∀ T, (T + 8 ≤ 32 + szSum l - 8 ∨ 32 + szSum l + sz - 8 ≤ T) →
      GET mD T = GET st.mem T := by
    intro T hT
    rw [hmD, GET_PUT_out (by omega), hmC, GET_PUT_out (by omega), hmB,
      GET_PUT_out (by omega), hmA, GET_PUT_out (by omega)]
  have hblkD : blocksOK mD 32 (l ++ (sz, 0) :: r) st.brk = true := by
    apply blocksOK_append.mpr
    constructor
    · apply blocksOK_mono hblkl (by norm_num)
      intro w hw1 hw2
      rw [hmD, GET_PUT_out (by omega), hmC, GET_PUT_out (by omega), hmB,
        GET_PUT_out (by omega), hmA, GET_PUT_out (by omega)]
    · apply blocksOK_cons.mpr
      refine ⟨⟨by norm_num, hsz32, hsz8, by omega, ?_, ?_⟩, ?_⟩
      · rw [hmD, GET_PUT_out (by omega), hmC, GET_PUT_out (by omega), hmB,
          GET_PUT_out (by omega), hmA, GET_PUT_self_lt hpk]
      · rw [hmD, GET_PUT_out (by omega), hmC, GET_PUT_out (by omega), hmB,
          GET_PUT_self_lt hpk]
      · apply blocksOK_mono hblkr (by omega)
        intro w hw1 hw2
        rw [hmD, GET_PUT_out (by omega), hmC, GET_PUT_out (by omega), hmB,
          GET_PUT_out (by omega), hmA, GET_PUT_out (by omega)]
  have hflD : flistOK mD st.free_listp 0 fl = true := by
    apply flistOK_mono hW.flist
    intro w hw'
    have hwB : w ∈ freeBps 32 (l ++ (sz, 1) :: r) := hW.bij.mem_iff.mp hw'
    have hz : w + 16 ≤ 32 + szSum l - 8 ∨ 32 + szSum l + sz - 8 ≤ w := by
      rcases link_zone_cases hW.blocks hwB rfl with ⟨-, h0⟩ | h0 | h0
      · exact absurd h0 one_ne_zero
      · left
        exact h0
      · right
        exact h0
    constructor
    · rw [hmD, GET_PUT_out (by omega), hmC, GET_PUT_out (by omega), hmB,
        GET_PUT_out (by omega), hmA, GET_PUT_out (by omega)]
    · rw [hmD, GET_PUT_out (by omega), hmC, GET_PUT_out (by omega), hmB,
        GET_PUT_out (by omega), hmA, GET_PUT_out (by omega)]
  have hwf : WFfreedOn { st with mem := mD } l sz r fl := by
    refine ⟨hW.hlp, hW.brk_align, hW.brk_ub, ?_, ?_, ?_, hblkD, hflD, ?_, ?_, ?_⟩
    · show GET mD 8 = PACK DSIZE 1
      rw [hGD 8 (by omega)]
      exact hW.pro_hdr
    · show GET mD 16 = PACK DSIZE 1
      rw [hGD 16 (by omega)]
      exact hW.pro_ftr
    · show GET mD (st.brk - 8) = PACK 0 1
      rw [hGD (st.brk - 8) (by omega)]
      exact hW.epi
    · have hfr2 : freeBps 32 (l ++ (sz, 1) :: r)
          = freeBps 32 l ++ freeBps (32 + szSum l + sz) r := by
        rw [freeBps_full]
        simp
      have hb := hW.bij
      rw [hfr2] at hb
      exact hb
    · exact (List.chain'_append.mp hW.noadj).1
    · exact (List.chain'_cons'.mp (List.chain'_append.mp hW.noadj).2.1).2
  obtain ⟨bp', st', bs', fl', hcoal, hWF', hfp', hbrk', hhlp', hbpv, hhdr', hftr', hbpin,
    hnoadj', hall, hfr⟩ := coalesce_spec hwf
  refine ⟨st', bs', fl', bp', sz + lastFreeSize l + headFreeSize r, ?_, hWF', hbrk', hhlp',
    hall, ?_, hbpin, hfp', hhdr', by omega, ?_⟩
  · show explicit_free st (32 + szSum l) = .ok st'
    simp only [explicit_free, SET_NEXT_FREE, SET_PREV_FREE]
    rw [hSZ, show HDRP (32 + szSum l) = 32 + szSum l - 8 from rfl]
    rw [← hmA, hFTRA, ← hmB]
    rw [show 32 + szSum l + WSIZE = 32 + szSum l + 8 from rfl]
    rw [← hmC, ← hmD, hcoal]
    rfl
  · intro x hx
    rw [hfr x hx]
    obtain ⟨ua, sza, ala, va, hbsA, hala, hx1, hx2⟩ := hx
    obtain ⟨-, hsza32, -, -, -, -⟩ := blocksOK_at hblkD hbsA
    have hdz : szSum ua + sza ≤ szSum l ∨ szSum l + sz ≤ szSum ua := by
      rcases append_middle_cases (hbsA.symm.trans rfl) with ⟨heq, heq2, -⟩ | ⟨w, hww⟩ | ⟨w, hww⟩
      · exact absurd (by have := congrArg Prod.snd heq2; simpa using this) hala
      · left
        have : szSum l = szSum ua + sza + szSum w := by rw [hww, szSum_pos_decomp]
        omega
      · right
        have : szSum ua = szSum l + sz + szSum w := by rw [hww, szSum_pos_decomp]
        omega
    show mD x = st.mem x
    rw [hmD, PUT_out (by omega), hmC, PUT_out (by omega), hmB, PUT_out (by omega), hmA,
      PUT_out (by omega)]
  · have := lastFreeSize_le l
    omega

/-! ### place -/

theorem place_spec {st : AllocState} {l r : List (Nat × Nat)} {csize : Nat} {fl : List Nat}
    (hW : WFon st (l ++ (csize, 0) :: r) fl) {asize : Nat}
    (ha32 : 32 ≤ asize) (ha8 : asize % 8 = 0) (hac : asize ≤ csize) :
    ∃ st' bs' fl', place st (32 + szSum l) asize = .ok st' ∧ WFon st' bs' fl' ∧
      st'.brk = st.brk ∧ st'.heap_listp = st.heap_listp ∧
      (∀ x, InAllocBytes (l ++ (csize, 0) :: r) x → st'.mem x = st.mem x) ∧
      ((32 ≤ csize - asize ∧ bs' = l ++ (asize, 1) :: (csize - asize, 0) :: r) ∨
       (csize - asize < 32 ∧ bs' = l ++ (csize, 1) :: r)) := by
  obtain ⟨-, hcs32, hcs8, hcsle, hhdr, hftr⟩ := blocksOK_at hW.blocks rfl
  have hblk := hW.blocks
  have hM64 : st.brk ≤ M64 := hW.brk_ub
  have hSZ : GET_SIZE st.mem (HDRP (32 + szSum l)) = csize := by
    rw [show HDRP (32 + szSum l) = 32 + szSum l - 8 from rfl]
    exact GET_SIZE_eq hhdr hcs8 (by norm_num)
  have hsub : sub64 csize asize = csize - asize := sub64_eq_sub hac (by omega)
  have hsymm : ∀ a b : Nat, Sep16 a b → Sep16 b a := by
    intro a b h
    unfold Sep16 at *
    omega
  have hfull : freeBps 32 (l ++ (csize, 0) :: r) =
      freeBps 32 l ++ (32 + szSum l) :: freeBps (32 + szSum l + csize) r := by
    rw [freeBps_full]
    simp
  have hbp_in : 32 + szSum l ∈ freeBps 32 (l ++ (csize, 0) :: r) := by
    rw [hfull]
    simp
  have hbp_fl : 32 + szSum l ∈ fl := hW.bij.mem_iff.mpr hbp_in
  obtain ⟨f1, f2, hfl_eq⟩ := List.append_of_mem hbp_fl
  have hmemfl : ∀ x ∈ fl, x ∈ freeBps 32 (l ++ (csize, 0) :: r) :=
    fun x hx => hW.bij.mem_iff.mp hx
  have hlt : ∀ x ∈ fl, x < M64 :=
    fun x hx => freeBps_lt_M64 hblk hM64 (hmemfl x hx)
  have hpwF : (freeBps 32 (l ++ (csize, 0) :: r)).Pairwise Sep16 :=
    (freeBps_pairwise hblk).imp (fun h => Or.inl (by omega))
  have hpw_fl : fl.Pairwise Sep16 :=
    (List.Perm.pairwise_iff (fun {a b} h => hsymm a b h) hW.bij).mpr hpwF
  have hnodupF : (freeBps 32 (l ++ (csize, 0) :: r)).Nodup :=
    List.Pairwise.imp (fun h => by omega) (freeBps_pairwise hblk)
  have hnodup_fl : fl.Nodup := List.Perm.nodup hW.bij.symm hnodupF
  have hbp_notin : 32 + szSum l ∉ f1 ++ f2 := by
    have h1 : ((32 + szSum l) :: (f1 ++ f2)).Nodup := by
      apply List.Perm.nodup _ hnodup_fl
      rw [hfl_eq]
      exact List.perm_middle
    exact (List.nodup_cons.mp h1).1
  have hmem_f12 : ∀ x ∈ f1 ++ f2, x ∈ fl := by
    intro x hx
    rw [hfl_eq]
    rcases List.mem_append.mp hx with h' | h'
    · exact List.mem_append.mpr (Or.inl h')
    · exact List.mem_append.mpr (Or.inr (by simp [h']))
  have hzone : ∀ y ∈ f1 ++ f2, y + 16 ≤ 32 + szSum l - 8 ∨ 32 + szSum l + csize - 8 ≤ y := by
    intro y hy
    rcases link_zone_cases hblk (hmemfl y (hmem_f12 y hy)) rfl with ⟨h0, -⟩ | h0 | h0
    · exact absurd h0 (fun he => hbp_notin (he ▸ hy))
    · left
      exact h0
    · right
      exact h0
  have hyB : ∀ y ∈ fl, 32 ≤ y ∧ y + 32 ≤ st.brk := by
    intro y hy
    obtain ⟨uy, szy, vy, h1, h2, h3⟩ := freeBps_link_in_payload hblk (hmemfl y hy)
    have hbd := (blocksOK_at hblk h1).2.2.2.1
    omega
  have hframe_alloc : ∀ x, InAllocBytes (l ++ (csize, 0) :: r) x →
      ∀ y ∈ fl, x < y ∨ y + 16 ≤ x := by
    intro x hx y hy
    obtain ⟨ua, sza, ala, va, hbsA, hala, hx1, hx2⟩ := hx
    rcases link_zone_cases hblk (hmemfl y hy) hbsA with ⟨-, h0⟩ | h0 | h0
    · exact absurd h0 hala
    · right
      omega
    · left
      omega
  have hdzone : ∀ x, InAllocBytes (l ++ (csize, 0) :: r) x →
      x < 32 + szSum l - 8 ∨ 32 + szSum l + csize - 8 ≤ x := by
    intro x hx
    obtain ⟨ua, sza, ala, va, hbsA, hala, hx1, hx2⟩ := hx
    obtain ⟨-, hsza32, -, -, -, -⟩ := blocksOK_at hblk hbsA
    rcases append_middle_cases (hbsA.symm.trans rfl) with ⟨heq, heq2, -⟩ | ⟨w, hww⟩ | ⟨w, hww⟩
    · exact absurd (by have := congrArg Prod.snd heq2; simpa using this) hala
    · left
      have : szSum l = szSum ua + sza + szSum w := by rw [hww, szSum_pos_decomp]
      omega
    · right
      have : szSum ua = szSum l + csize + szSum w := by rw [hww, szSum_pos_decomp]
      omega
  have hdel := @delete_free_spec st (32 + szSum l) f1 f2
    (by rw [← hfl_eq]; exact hW.flist)
    (by rw [← hfl_eq]; exact fun x hx => hlt x hx)
    (by rw [← hfl_eq]; exact hpw_fl)
  obtain ⟨hbrk1, hhlp1, hfp1, hflist1, hframe1⟩ := hdel
  rw [← hfl_eq] at hframe1
  have hG1 : ∀ T, (∀ y ∈ fl, T + 8 ≤ y ∨ y + 16 ≤ T) →
      GET (delete_free st (32 + szSum l)).mem T = GET st.mem T :=
    fun T hT => frame_GET hframe1 hT
  have hzfl_hdr : ∀ y ∈ fl, (32 + szSum l - 8) + 8 ≤ y ∨ y + 16 ≤ 32 + szSum l - 8 := by
    intro y hy
    rcases link_zone_cases hblk (hmemfl y hy) rfl with ⟨h0, -⟩ | h0 | h0
    · left
      omega
    · right
      exact h0
    · left
      omega
  have hGhdr1 : GET (delete_free st (32 + szSum l)).mem (32 + szSum l - 8) = PACK csize 0 := by
    rw [hG1 _ hzfl_hdr]
    exact hhdr
  have hblk1 : blocksOK (delete_free st (32 + szSum l)).mem 32
      (l ++ (csize, 0) :: r) st.brk = true := by
    apply blocksOK_frame hblk (by norm_num) hframe1
    intro y hy
    obtain ⟨uy, szy, vy, h1, h2, h3⟩ := freeBps_link_in_payload hblk (hmemfl y hy)
    exact ⟨uy, szy, 0, vy, h1, h2, h3⟩
  obtain ⟨hblk1l, hblk1m⟩ := blocksOK_append.mp hblk1
  obtain ⟨-, hblk1r⟩ := blocksOK_cons.mp hblk1m
  have hpw12 : (f1 ++ f2).Pairwise Sep16 := by
    apply List.Pairwise.sublist _ hpw_fl
    rw [hfl_eq]
    exact (List.sublist_cons_self _ _).append_left _
  set m1 := (delete_free st (32 + szSum l)).mem with hm1
  by_cases hsplit : 32 ≤ csize - asize
  · -- split: remainder becomes a new free block
    have hpk1 : PACK asize 1 < M64 := by
      rw [pack_eq ha8 (by norm_num)]
      omega
    have hpk0 : PACK (csize - asize) 0 < M64 := by
      rw [pack_eq (by omega) (by norm_num)]
      omega
    have hFTRA : FTRP (PUT m1 (32 + szSum l - 8) (PACK asize 1)) (32 + szSum l)
        = 32 + szSum l + asize - 16 := by
      unfold FTRP
      rw [show HDRP (32 + szSum l) = 32 + szSum l - 8 from rfl,
        GET_SIZE_eq (GET_PUT_self_lt hpk1) ha8 (by norm_num)]
      simp only [DSIZE, WSIZE]
    set mA := PUT m1 (32 + szSum l - 8) (PACK asize 1) with hmA
    have hNBB : NEXT_BLKP (PUT mA (32 + szSum l + asize - 16) (PACK asize 1)) (32 + szSum l)
        = 32 + szSum l + asize := by
      unfold NEXT_BLKP
      rw [show 32 + szSum l - WSIZE = 32 + szSum l - 8 from rfl,
        GET_SIZE_eq (by rw [GET_PUT_out (by omega), hmA, GET_PUT_self_lt hpk1]) ha8
          (by norm_num)]
    set mB := PUT mA (32 + szSum l + asize - 16) (PACK asize 1) with hmB
    have hFTRC : FTRP (PUT mB (32 + szSum l + asize - 8) (PACK (csize - asize) 0))
        (32 + szSum l + asize) = 32 + szSum l + csize - 16 := by
      unfold FTRP
      rw [show HDRP (32 + szSum l + asize) = 32 + szSum l + asize - 8 from rfl,
        GET_SIZE_eq (GET_PUT_self_lt hpk0) (by omega) (by norm_num)]
      simp only [DSIZE, WSIZE]
      omega
    set mC := PUT mB (32 + szSum l + asize - 8) (PACK (csize - asize) 0) with hmC
    set mD := PUT mC (32 + szSum l + csize - 16) (PACK (csize - asize) 0) with hmD
    set mE := PUT mD (32 + szSum l + asize) 0 with hmE
    set mF := PUT mE (32 + szSum l + asize + 8) 0 with hmF
    have hGF : ∀ T, (T + 8 ≤ 32 + szSum l - 8 ∨ 32 + szSum l + csize - 8 ≤ T) →
        GET mF T = GET m1 T := by
      intro T hT
      rw [hmF, GET_PUT_out (by omega), hmE, GET_PUT_out (by omega), hmD,
        GET_PUT_out (by omega), hmC, GET_PUT_out (by omega), hmB, GET_PUT_out (by omega),
        hmA, GET_PUT_out (by omega)]
    have hGhdrF : GET mF (32 + szSum l - 8) = PACK asize 1 := by
      rw [hmF, GET_PUT_out (by omega), hmE, GET_PUT_out (by omega), hmD,
        GET_PUT_out (by omega), hmC, GET_PUT_out (by omega), hmB, GET_PUT_out (by omega),
        hmA, GET_PUT_self_lt hpk1]
    have hGftrF : GET mF (32 + szSum l + asize - 16) = PACK asize 1 := by
      rw [hmF, GET_PUT_out (by omega), hmE, GET_PUT_out (by omega), hmD,
        GET_PUT_out (by omega), hmC, GET_PUT_out (by omega), hmB, GET_PUT_self_lt hpk1]
    have hGnhdrF : GET mF (32 + szSum l + asize - 8) = PACK (csize - asize) 0 := by
      rw [hmF, GET_PUT_out (by omega), hmE, GET_PUT_out (by omega), hmD,
        GET_PUT_out (by omega), hmC, GET_PUT_self_lt hpk0]
    have hGnftrF : GET mF (32 + szSum l + csize - 16) = PACK (csize - asize) 0 := by
      rw [hmF, GET_PUT_out (by omega), hmE, GET_PUT_out (by omega), hmD,
        GET_PUT_self_lt hpk0]
    have hblkF : blocksOK mF 32 (l ++ (asize, 1) :: (csize - asize, 0) :: r) st.brk = true := by
      apply blocksOK_append.mpr
      constructor
      · apply blocksOK_mono hblk1l (by norm_num)
        intro w hw1 hw2
        exact hGF w (by omega)
      · apply blocksOK_cons.mpr
        refine ⟨⟨by norm_num, ha32, ha8, by omega, hGhdrF, hGftrF⟩, ?_⟩
        apply blocksOK_cons.mpr
        refine ⟨⟨by norm_num, hsplit, by omega, by omega, hGnhdrF, ?_⟩, ?_⟩
        · rw [show 32 + szSum l + asize + (csize - asize) - 16 = 32 + szSum l + csize - 16
            by omega]
          exact hGnftrF
        · rw [show 32 + szSum l + asize + (csize - asize) = 32 + szSum l + csize by omega]
          apply blocksOK_mono hblk1r (by omega)
          intro w hw1 hw2
          exact hGF w (by omega)
    have hflF : flistOK mF (delete_free st (32 + szSum l)).free_listp 0 (f1 ++ f2) = true := by
      apply flistOK_mono hflist1
      intro w hw'
      have hz := hzone w hw'
      exact ⟨hGF w (by omega), hGF (w + 8) (by omega)⟩
    have hpwI : ((32 + szSum l + asize) :: (f1 ++ f2)).Pairwise Sep16 := by
      apply List.pairwise_cons.mpr
      refine ⟨?_, hpw12⟩
      intro y hy
      rcases hzone y hy with h0 | h0
      · right
        omega
      · left
        omega
    obtain ⟨stI, hrunI, hfpI, hbrkI, hhlpI, hflistI, hframeI⟩ :=
      @insert_free_spec { delete_free st (32 + szSum l) with mem := mF }
        (32 + szSum l + asize) (f1 ++ f2) hflF
        (by show GET_ALLOC mF (HDRP (32 + szSum l + asize)) = 0
            rw [show HDRP (32 + szSum l + asize) = 32 + szSum l + asize - 8 from rfl]
            exact GET_ALLOC_eq hGnhdrF (by omega) (by norm_num))
        (by omega)
        (by intro x hx
            rcases List.mem_cons.mp hx with rfl | hx
            · omega
            · exact hlt x (hmem_f12 x hx))
        hpwI
    have hfull2 : freeBps 32 (l ++ (asize, 1) :: (csize - asize, 0) :: r) =
        freeBps 32 l ++ (32 + szSum l + asize) :: freeBps (32 + szSum l + csize) r := by
      rw [freeBps_append]
      simp [freeBps]
      rw [show 32 + szSum l + asize + (csize - asize) = 32 + szSum l + csize by omega]
    have hbij2' := hW.bij
    rw [hfull, hfl_eq] at hbij2'
    have hperm12 : (f1 ++ f2).Perm (freeBps 32 l ++ freeBps (32 + szSum l + csize) r) :=
      ((List.perm_middle.symm.trans hbij2').trans List.perm_middle).cons_inv
    have hbijNew : ((32 + szSum l + asize) :: (f1 ++ f2)).Perm
        (freeBps 32 (l ++ (asize, 1) :: (csize - asize, 0) :: r)) := by
      refine List.Perm.trans (hperm12.cons _) ?_
      rw [hfull2]
      exact List.perm_middle.symm
    have hnp_in : 32 + szSum l + asize ∈ freeBps 32 (l ++ (asize, 1) :: (csize - asize, 0) :: r) := by
      rw [hfull2]
      simp
    obtain ⟨hchl, hchcr, hbd⟩ := List.chain'_append.mp hW.noadj
    obtain ⟨hhead_r, hchr⟩ := List.chain'_cons'.mp hchcr
    have hnoadjF : NoAdjFree (l ++ (asize, 1) :: (csize - asize, 0) :: r) := by
      apply List.chain'_append.mpr
      refine ⟨hchl, ?_, ?_⟩
      · apply List.chain'_cons'.mpr
        refine ⟨by intro b hb; simp, ?_⟩
        apply List.chain'_cons'.mpr
        refine ⟨?_, hchr⟩
        intro b hb
        have := hhead_r b hb
        simpa using this
      · intro x hx y hy
        simp at hy
        subst hy
        simp
    have hGETC : ∀ T, (∀ y ∈ fl, T + 8 ≤ y ∨ y + 16 ≤ T) →
        (T + 8 ≤ 32 + szSum l - 8 ∨ 32 + szSum l + csize - 8 ≤ T) →
        GET stI.mem T = GET st.mem T := by
      intro T h1 h2
      rw [frame_GET hframeI (fun y hy => by
        rcases List.mem_cons.mp hy with rfl | hy
        · rcases h2 with h2 | h2
          · exact Or.inl (by omega)
          · exact Or.inr (by omega)
        · exact h1 y (hmem_f12 y hy))]
      rw [hGF T h2, hm1]
      exact frame_GET hframe1 h1
    refine ⟨stI, l ++ (asize, 1) :: (csize - asize, 0) :: r, (32 + szSum l + asize) :: (f1 ++ f2),
      ?_, ?_, ?_, ?_, ?_, Or.inl ⟨hsplit, rfl⟩⟩
    · show place st (32 + szSum l) asize = .ok stI
      simp only [place, SET_NEXT_FREE, SET_PREV_FREE]
      rw [hSZ, hsub, if_pos (show MINBLOCKSIZE ≤ csize - asize from hsplit),
        show HDRP (32 + szSum l) = 32 + szSum l - 8 from rfl]
      rw [← hm1, ← hmA, hFTRA, ← hmB, hNBB,
        show HDRP (32 + szSum l + asize) = 32 + szSum l + asize - 8 from rfl, ← hmC,
        hFTRC, ← hmD,
        show 32 + szSum l + asize + WSIZE = 32 + szSum l + asize + 8 from rfl, ← hmE, ← hmF]
      exact hrunI
    · refine ⟨?_, ?_, ?_, ?_, ?_, ?_, ?_, ?_, hbijNew, hnoadjF⟩
      · rw [hhlpI]
        show (delete_free st (32 + szSum l)).heap_listp = 16
        rw [hhlp1]
        exact hW.hlp
      · rw [hbrkI]
        show (delete_free st (32 + szSum l)).brk % 8 = 0
        rw [hbrk1]
        exact hW.brk_align
      · rw [hbrkI]
        show (delete_free st (32 + szSum l)).brk ≤ M64
        rw [hbrk1]
        exact hW.brk_ub
      · rw [hGETC 8 (fun y hy => Or.inl (by have := (hyB y hy).1; omega)) (by omega)]
        exact hW.pro_hdr
      · rw [hGETC 16 (fun y hy => Or.inl (by have := (hyB y hy).1; omega)) (by omega)]
        exact hW.pro_ftr
      · rw [hbrkI]
        show GET stI.mem ((delete_free st (32 + szSum l)).brk - 8) = PACK 0 1
        rw [hbrk1]
        rw [hGETC (st.brk - 8) (fun y hy => Or.inr (by have := (hyB y hy).2; omega))
          (by omega)]
        exact hW.epi
      · rw [hbrkI]
        show blocksOK stI.mem 32 (l ++ (asize, 1) :: (csize - asize, 0) :: r)
          (delete_free st (32 + szSum l)).brk = true
        rw [hbrk1]
        apply blocksOK_frame hblkF (by norm_num) hframeI
        intro y hy
        rcases List.mem_cons.mp hy with rfl | hy
        · obtain ⟨uy, szy, vy, h1, h2, h3⟩ := freeBps_link_in_payload hblkF hnp_in
          exact ⟨uy, szy, 0, vy, h1, h2, h3⟩
        · have hy' : y ∈ freeBps 32 (l ++ (asize, 1) :: (csize - asize, 0) :: r) := by
            rw [hfull2]
            have := hperm12.mem_iff.mp hy
            rcases List.mem_append.mp this with h' | h'
            · exact List.mem_append.mpr (Or.inl h')
            · exact List.mem_append.mpr (Or.inr (by simp [h']))
          obtain ⟨uy, szy, vy, h1, h2, h3⟩ := freeBps_link_in_payload hblkF hy'
          exact ⟨uy, szy, 0, vy, h1, h2, h3⟩
      · rw [hfpI]
        exact hflistI
    · rw [hbrkI]
      show (delete_free st (32 + szSum l)).brk = st.brk
      exact hbrk1
    · rw [hhlpI]
      show (delete_free st (32 + szSum l)).heap_listp = st.heap_listp
      exact hhlp1
    · intro x hx
      have hd := hdzone x hx
      have hIf := hframe_alloc x hx
      have hmx : stI.mem x = mF x := by
        apply hframeI
        intro y hy
        rcases List.mem_cons.mp hy with rfl | hy
        · rcases hd with h0 | h0
          · left
            omega
          · right
            omega
        · exact hIf y (hmem_f12 y hy)
      rw [hmx, hmF]
      rw [PUT_out (by omega), hmE, PUT_out (by omega), hmD, PUT_out (by omega), hmC,
        PUT_out (by omega), hmB, PUT_out (by omega), hmA, PUT_out (by omega), hm1]
      exact hframe1 x (fun y hy => hIf y hy)
  · -- no split: allocate the whole block
    have hpkc : PACK csize 1 < M64 := by
      rw [pack_eq hcs8 (by norm_num)]
      omega
    have hFTRA : FTRP (PUT m1 (32 + szSum l - 8) (PACK csize 1)) (32 + szSum l)
        = 32 + szSum l + csize - 16 := by
      unfold FTRP
      rw [show HDRP (32 + szSum l) = 32 + szSum l - 8 from rfl,
        GET_SIZE_eq (GET_PUT_self_lt hpkc) hcs8 (by norm_num)]
      simp only [DSIZE, WSIZE]
    set mA := PUT m1 (32 + szSum l - 8) (PACK csize 1) with hmA
    set mB := PUT mA (32 + szSum l + csize - 16) (PACK csize 1) with hmB
    have hGB : ∀ T, (T + 8 ≤ 32 + szSum l - 8 ∨ 32 + szSum l + csize - 8 ≤ T) →
        GET mB T = GET m1 T := by
      intro T hT
      rw [hmB, GET_PUT_out (by omega), hmA, GET_PUT_out (by omega)]
    have hGhdrB : GET mB (32 + szSum l - 8) = PACK csize 1 := by
      rw [hmB, GET_PUT_out (by omega), hmA, GET_PUT_self_lt hpkc]
    have hGftrB : GET mB (32 + szSum l + csize - 16) = PACK csize 1 := by
      rw [hmB, GET_PUT_self_lt hpkc]
    have hblkB : blocksOK mB 32 (l ++ (csize, 1) :: r) st.brk = true := by
      apply blocksOK_append.mpr
      constructor
      · apply blocksOK_mono hblk1l (by norm_num)
        intro w hw1 hw2
        exact hGB w (by omega)
      · apply blocksOK_cons.mpr
        refine ⟨⟨by norm_num, hcs32, hcs8, by omega, hGhdrB, hGftrB⟩, ?_⟩
        apply blocksOK_mono hblk1r (by omega)
        intro w hw1 hw2
        exact hGB w (by omega)
    have hflB : flistOK mB (delete_free st (32 + szSum l)).free_listp 0 (f1 ++ f2) = true := by
      apply flistOK_mono hflist1
      intro w hw'
      have hz := hzone w hw'
      exact ⟨hGB w (by omega), hGB (w + 8) (by omega)⟩
    have hfull2 : freeBps 32 (l ++ (csize, 1) :: r) =
        freeBps 32 l ++ freeBps (32 + szSum l + csize) r := by
      rw [freeBps_full]
      simp
    have hbij2' := hW.bij
    rw [hfull, hfl_eq] at hbij2'
    have hperm12 : (f1 ++ f2).Perm (freeBps 32 l ++ freeBps (32 + szSum l + csize) r) :=
      ((List.perm_middle.symm.trans hbij2').trans List.perm_middle).cons_inv
    obtain ⟨hchl, hchcr, hbd⟩ := List.chain'_append.mp hW.noadj
    obtain ⟨hhead_r, hchr⟩ := List.chain'_cons'.mp hchcr
    have hnoadjB : NoAdjFree (l ++ (csize, 1) :: r) := by
      apply List.chain'_append.mpr
      refine ⟨hchl, ?_, ?_⟩
      · apply List.chain'_cons'.mpr
        refine ⟨by intro b hb; simp, hchr⟩
      · intro x hx y hy
        simp at hy
        subst hy
        simp
    have hGETC : ∀ T, (∀ y ∈ fl, T + 8 ≤ y ∨ y + 16 ≤ T) →
        (T + 8 ≤ 32 + szSum l - 8 ∨ 32 + szSum l + csize - 8 ≤ T) →
        GET mB T = GET st.mem T := by
      intro T h1 h2
      rw [hGB T h2, hm1]
      exact frame_GET hframe1 h1
    refine ⟨{ delete_free st (32 + szSum l) with mem := mB },
      l ++ (csize, 1) :: r, f1 ++ f2, ?_, ?_, ?_, ?_, ?_, Or.inr ⟨by omega, rfl⟩⟩
    · show place st (32 + szSum l) asize = .ok _
      simp only [place]
      rw [hSZ, hsub, if_neg (show ¬MINBLOCKSIZE ≤ csize - asize from hsplit),
        show HDRP (32 + szSum l) = 32 + szSum l - 8 from rfl]
      rw [← hm1, ← hmA, hFTRA, ← hmB]
    · refine ⟨?_, ?_, ?_, ?_, ?_, ?_, ?_, ?_, hperm12.trans (by rw [hfull2]), hnoadjB⟩
      · show (delete_free st (32 + szSum l)).heap_listp = 16
        rw [hhlp1]
        exact hW.hlp
      · show (delete_free st (32 + szSum l)).brk % 8 = 0
        rw [hbrk1]
        exact hW.brk_align
      · show (delete_free st (32 + szSum l)).brk ≤ M64
        rw [hbrk1]
        exact hW.brk_ub
      · show GET mB 8 = PACK DSIZE 1
        rw [hGETC 8 (fun y hy => Or.inl (by have := (hyB y hy).1; omega)) (by omega)]
        exact hW.pro_hdr
      · show GET mB 16 = PACK DSIZE 1
        rw [hGETC 16 (fun y hy => Or.inl (by have := (hyB y hy).1; omega)) (by omega)]
        exact hW.pro_ftr
      · show GET mB ((delete_free st (32 + szSum l)).brk - 8) = PACK 0 1
        rw [hbrk1]
        rw [hGETC (st.brk - 8) (fun y hy => Or.inr (by have := (hyB y hy).2; omega))
          (by omega)]
        exact hW.epi
      · show blocksOK mB 32 (l ++ (csize, 1) :: r)
          (delete_free st (32 + szSum l)).brk = true
        rw [hbrk1]
        exact hblkB
      · exact hflB
    · show (delete_free st (32 + szSum l)).brk = st.brk
      exact hbrk1
    · show (delete_free st (32 + szSum l)).heap_listp = st.heap_listp
      exact hhlp1
    · intro x hx
      have hd := hdzone x hx
      have hIf := hframe_alloc x hx
      show mB x = st.mem x
      rw [hmB, PUT_out (by omega), hmA, PUT_out (by omega), hm1]
      exact hframe1 x (fun y hy => hIf y hy)

/-! ### extend_heap -/

theorem extend_heap_spec {st : AllocState} {bs : List (Nat × Nat)} {fl : List Nat}
    (hW : WFon st bs fl) (words : Nat) :
    ∃ p st', extend_heap st words = .ok (p, st') ∧
      ((p = 0 ∧ st' = st) ∨
       (p ≠ 0 ∧ ∃ bs' fl' size,
          WFon st' bs' fl' ∧ st'.heap_listp = st.heap_listp ∧
          st'.brk = st.brk + size ∧ words * WSIZE ≤ size ∧ 32 ≤ size ∧
          allocOff 32 bs' = allocOff 32 bs ∧
          (∀ x, InAllocBytes bs x → st'.mem x = st.mem x) ∧
          p ∈ freeBps 32 bs' ∧ st'.free_listp = p ∧
          (∃ fsz, GET st'.mem (HDRP p) = PACK fsz 0 ∧ size ≤ fsz))) := by
  have hbseq : 32 + szSum bs = st.brk := blocksOK_szSum hW.blocks
  have hbrk32 : 32 ≤ st.brk := blocksOK_le hW.blocks
  set size0 := if words % 2 ≠ 0 then (words + 1) * WSIZE else words * WSIZE with hsz0
  set size := if size0 < MINBLOCKSIZE then MINBLOCKSIZE else size0 with hszdef
  have hsz8 : size % 8 = 0 := by
    rw [hszdef, hsz0]
    simp only [WSIZE, MINBLOCKSIZE]
    split <;> split <;> omega
  have hsz32 : 32 ≤ size := by
    rw [hszdef]
    simp only [MINBLOCKSIZE]
    split <;> omega
  have hszw : words * WSIZE ≤ size := by
    rw [hszdef, hsz0]
    simp only [WSIZE, MINBLOCKSIZE]
    split <;> split <;> omega
  by_cases hsb : st.brk + size ≤ M64
  · -- sbrk succeeds
    have hszlt : size < M64 := by omega
    have hpk : PACK size 0 < M64 := by
      rw [pack_eq hsz8 (by norm_num)]
      omega
    have hpk1 : PACK 0 1 < M64 := by
      rw [pack_eq (by norm_num) (by norm_num)]
      norm_num [M64]
    have hsbrk : sbrk st size = some (st.brk, { st with brk := st.brk + size }) := by
      simp only [sbrk, if_pos hsb]
    have hFTRA0 : FTRP (PUT st.mem (st.brk - 8) (PACK size 0)) st.brk
        = st.brk + size - 16 := by
      unfold FTRP
      rw [show HDRP st.brk = st.brk - 8 from rfl,
        GET_SIZE_eq (GET_PUT_self_lt hpk) hsz8 (by norm_num)]
      simp only [DSIZE, WSIZE]
    set mA := PUT st.mem (st.brk - 8) (PACK size 0) with hmA
    have hNBB0 : NEXT_BLKP (PUT mA (st.brk + size - 16) (PACK size 0)) st.brk
        = st.brk + size := by
      unfold NEXT_BLKP
      rw [show st.brk - WSIZE = st.brk - 8 from rfl,
        GET_SIZE_eq (by rw [GET_PUT_out (by omega), hmA, GET_PUT_self_lt hpk]) hsz8
          (by norm_num)]
    set mB := PUT mA (st.brk + size - 16) (PACK size 0) with hmB
    set mC := PUT mB (st.brk + size - 8) (PACK 0 1) with hmC
    set mD := PUT mC st.brk 0 with hmD
    set mE := PUT mD (st.brk + 8) 0 with hmE
    have hGE : ∀ T, T + 8 ≤ st.brk - 8 → GET mE T = GET st.mem T := by
      intro T hT
      rw [hmE, GET_PUT_out (by omega), hmD, GET_PUT_out (by omega), hmC,
        GET_PUT_out (by omega), hmB, GET_PUT_out (by omega), hmA, GET_PUT_out (by omega)]
    have hGhdrE : GET mE (st.brk - 8) = PACK size 0 := by
      rw [hmE, GET_PUT_out (by omega), hmD, GET_PUT_out (by omega), hmC,
        GET_PUT_out (by omega), hmB, GET_PUT_out (by omega), hmA, GET_PUT_self_lt hpk]
    have hGftrE : GET mE (st.brk + size - 16) = PACK size 0 := by
      rw [hmE, GET_PUT_out (by omega), hmD, GET_PUT_out (by omega), hmC,
        GET_PUT_out (by omega), hmB, GET_PUT_self_lt hpk]
    have hGepiE : GET mE (st.brk + size - 8) = PACK 0 1 := by
      rw [hmE, GET_PUT_out (by omega), hmD, GET_PUT_out (by omega), hmC,
        GET_PUT_self_lt hpk1]
    have hblkbs : blocksOK st.mem 32 bs (32 + szSum bs) = true := by
      rw [hbseq]
      exact hW.blocks
    have hblkE : blocksOK mE 32 (bs ++ (size, 0) :: []) (st.brk + size) = true := by
      apply blocksOK_append.mpr
      constructor
      · apply blocksOK_mono hblkbs (by norm_num)
        intro w hw1 hw2
        exact hGE w (by omega)
      · apply blocksOK_cons.mpr
        refine ⟨⟨by norm_num, hsz32, hsz8, by omega, ?_, ?_⟩, ?_⟩
        · rw [show 32 + szSum bs - 8 = st.brk - 8 by omega]
          exact hGhdrE
        · rw [show 32 + szSum bs + size - 16 = st.brk + size - 16 by omega]
          exact hGftrE
        · exact blocksOK_nil.mpr (by omega)
    have hyB : ∀ y ∈ fl, 32 ≤ y ∧ y + 32 ≤ st.brk := by
      intro y hy
      obtain ⟨uy, szy, vy, h1, h2, h3⟩ :=
        freeBps_link_in_payload hW.blocks (hW.bij.mem_iff.mp hy)
      have hbd := (blocksOK_at hW.blocks h1).2.2.2.1
      omega
    have hflE : flistOK mE st.free_listp 0 fl = true := by
      apply flistOK_mono hW.flist
      intro w hw'
      have hb := hyB w hw'
      exact ⟨hGE w (by omega), hGE (w + 8) (by omega)⟩
    have hwf : WFfreedOn { st with mem := mE, brk := st.brk + size } bs size [] fl := by
      refine ⟨hW.hlp, ?_, hsb, ?_, ?_, ?_, hblkE, hflE, ?_,
        hW.noadj, List.chain'_nil⟩
      · show (st.brk + size) % 8 = 0
        have := hW.brk_align
        omega
      · show GET mE 8 = PACK DSIZE 1
        rw [hGE 8 (by omega)]
        exact hW.pro_hdr
      · show GET mE 16 = PACK DSIZE 1
        rw [hGE 16 (by omega)]
        exact hW.pro_ftr
      · show GET mE (st.brk + size - 8) = PACK 0 1
        exact hGepiE
      · show fl.Perm (freeBps 32 bs ++ freeBps (32 + szSum bs + size) [])
        rw [show freeBps (32 + szSum bs + size) ([] : List (Nat × Nat)) = [] from rfl,
          List.append_nil]
        exact hW.bij
    obtain ⟨bp', st', bs', fl', hcoal, hWF', hfp', hbrkc, hhlpc, hbpv, hhdr', hftr', hbpin,
      hnoadj', hall, hfr⟩ := coalesce_spec hwf
    have hcoal' : coalesce { st with mem := mE, brk := st.brk + size } st.brk
        = .ok (bp', st') := by
      have h0 := hcoal
      rw [hbseq] at h0
      exact h0
    have hbp0 : bp' ≠ 0 := by
      have := freeBps_lb hbpin
      omega
    refine ⟨bp', st', ?_, Or.inr ⟨hbp0, bs', fl', size, hWF', ?_, ?_, hszw, hsz32, ?_, ?_,
      hbpin, hfp', ?_⟩⟩
    · show extend_heap st words = .ok (bp', st')
      simp only [extend_heap, SET_NEXT_FREE, SET_PREV_FREE]
      rw [← hsz0, ← hszdef, hsbrk]
      simp only []
      rw [show HDRP st.brk = st.brk - 8 from rfl]
      rw [hFTRA0, ← hmA, ← hmB, hNBB0,
        show HDRP (st.brk + size) = st.brk + size - 8 from rfl, ← hmC, ← hmD,
        show st.brk + WSIZE = st.brk + 8 from rfl, ← hmE]
      exact hcoal'
    · rw [hhlpc]
    · rw [hbrkc]
    · rw [hall, allocOff_append]
      simp [allocOff]
    · intro x hx
      obtain ⟨ua, sza, ala, va, hbsA, hala, hx1, hx2⟩ := hx
      have hx' : InAllocBytes (bs ++ (size, 0) :: []) x :=
        ⟨ua, sza, ala, va ++ (size, 0) :: [], by rw [hbsA]; simp, hala, hx1, hx2⟩
      rw [hfr x hx']
      have hub : szSum ua + sza ≤ szSum bs := by
        have : szSum bs = szSum ua + sza + szSum va := by rw [hbsA, szSum_pos_decomp]
        omega
      show mE x = st.mem x
      rw [hmE, PUT_out (by omega), hmD, PUT_out (by omega), hmC, PUT_out (by omega),
        hmB, PUT_out (by omega), hmA, PUT_out (by omega)]
    · refine ⟨size + lastFreeSize bs + headFreeSize ([] : List (Nat × Nat)), hhdr', by omega⟩
  · -- sbrk fails: NULL return, state unchanged
    have hsbrk : sbrk st size = none := by
      simp only [sbrk, if_neg hsb]
    refine ⟨0, st, ?_, Or.inl ⟨rfl, rfl⟩⟩
    show extend_heap st words = .ok (0, st)
    simp only [extend_heap, SET_NEXT_FREE, SET_PREV_FREE]
    rw [← hsz0, ← hszdef, hsbrk]

/-! ## Claim theorems -/

/-- **C2**: for every request `0 < n < 2^32` (a `uint32_t`), the adjusted block
size computed by `explicit_malloc` is 32 when `n ≤ 8`, and otherwise `n + 16`
rounded up to a multiple of 8, raised to 32 if the result is smaller than 32. -/
theorem malloc_asize_eq_spec (n : Nat) (h0 : 0 < n) (h32 : n < 2 ^ 32) :
    asizeOf n = specAsize n := by
  unfold asizeOf specAsize
  simp only [DSIZE, WSIZE, OVERHEAD, MINBLOCKSIZE, ALIGN, roundUp8]
  have h := Nat.div_add_mod (n + 16 + 7) 8
  have h2 : (n + 16 + 7) % 8 < 8 := Nat.mod_lt _ (by norm_num)
  norm_num
  split
  · rfl
  · split <;> split <;> omega

/-- Witness for `malloc_asize_eq_spec` at `n = 100`. -/
theorem malloc_asize_eq_spec_witness : asizeOf 100 = specAsize 100 :=
  malloc_asize_eq_spec 100 (by norm_num) (by norm_num)

/-- **C7**: `malloc(0)` returns null (`0`) and leaves the entire allocator
state — heap contents, free-list head, break — unchanged. -/
theorem malloc_zero_returns_null_unchanged (st : AllocState) :
    explicit_malloc st 0 = .ok (0, st) := rfl

/-- **C9**: for every pointer `p` and every state, `realloc(p, 0)` aborts the
process with `exit(1)`: the internal `malloc(0)` returns null and
`explicit_realloc` treats every null from `malloc` as fatal.  No state results,
so the old block is not freed. -/
theorem realloc_zero_aborts (st : AllocState) (p : Nat) :
    explicit_realloc st p 0 = .error .exit1 := rfl

/-- **C3** (counterexample): from a fresh init, the header of the block
returned by `malloc(32)` does not encode `(32, 1)` (the adjusted size is 48,
not 32). -/
theorem malloc32_header_not_pack_32_1 :
    ¬ ((explicit_malloc initStateE 32).toOption.map
        (fun r => GET r.2.mem (HDRP r.1)) = some (PACK 32 1)) := by decide

/-- **C3** (amended): from a fresh init, `malloc(32)` returns block 32 whose
header and footer both encode `(48, 1)` — 48 = ALIGN(32 + 16), not 32 — and the
physically following block at 80 is free, is the free-list head, and has size
4048, the remainder of the initial 4096-byte chunk (48 + 4048 = 4096). -/
theorem malloc32_splits_at_48 :
    (explicit_malloc initStateE 32).toOption.map
      (fun r => (r.1, GET r.2.mem (HDRP r.1), GET r.2.mem (FTRP r.2.mem r.1),
                 GET r.2.mem (HDRP (NEXT_BLKP r.2.mem r.1)),
                 GET r.2.mem (FTRP r.2.mem (NEXT_BLKP r.2.mem r.1)),
                 r.2.free_listp))
      = some (32, PACK 48 1, PACK 48 1, PACK 4048 0, PACK 4048 0, 80) := by decide

/-- **C4** (counterexample): in `stC4` — free blocks of sizes 64, 128, 256
LIFO-inserted in that order, so the list head is the 256-byte block at 352 —
`malloc(100)` does not return the 128-byte block at 160. -/
theorem malloc100_not_128_block :
    ¬ ((explicit_malloc stC4 100).toOption.map (fun r => r.1) = some 160) := by decide

/-- **C4** (amended): with free blocks of sizes 64, 128, 256 LIFO-inserted in
that order (list: 352 (256 bytes) → 160 (128 bytes) → 32 (64 bytes) → 672
(remainder)), `malloc(100)` (adjusted size 120, not 112) returns the 256-byte
block at 352 — the list head, which is the first fit — not the 128-byte one. -/
theorem malloc100_returns_head_256_block :
    stC4.free_listp = 352 ∧
    GET stC4.mem (HDRP 352) = PACK 256 0 ∧
    NEXT_FREE stC4.mem 352 = 160 ∧
    GET stC4.mem (HDRP 160) = PACK 128 0 ∧
    NEXT_FREE stC4.mem 160 = 32 ∧
    GET stC4.mem (HDRP 32) = PACK 64 0 ∧
    asizeOf 100 = 120 ∧
    (explicit_malloc stC4 100).toOption.map (fun r => r.1) = some 352 := by decide

end ExplicitAlloc
